import Mathlib

/-! DataStreamClient: the low latency data client.

A shallow embedding of `LowLatencyDataClient.cpp` (frame reader, outbound
control messages, channel registry) together with theorems about it.

Conventions of the embedding

* A byte is a natural number; every load from memory reduces it modulo 256.
* A `uint32_t` is a natural number below `2 ^ 32`; conversions to it reduce
  modulo `2 ^ 32`.
* `LowLatencyDataClient.h` is not among the sources.  The two constants it
  declares and the code uses, `METADATA_ID` and `recvBufSize`, are fields of
  `Constants` and every definition takes them as a parameter.
* The host byte order is a parameter (`ByteOrder`): `htonl`/`ntohl` swap the
  bytes on a little-endian host and are the identity on a big-endian one.
-/

namespace DataStreamClient

/-! ## Constants of the missing header -/

/-- Modelled from the spec: the constants of `LowLatencyDataClient.h`, which is
not among the sources.  `METADATA_ID` is the reserved 32-bit identifier of
control traffic, `recvBufSize` the size in bytes of the receive buffer
`m_Data`. -/
structure Constants where
  METADATA_ID : Nat
  recvBufSize : Nat
  deriving DecidableEq

/-- The size of `LowLatencyStreamPacketHeader`: two `uint32_t` fields. -/
def headerSize : Nat := 8

/-! ## Byte order -/

/-- The byte order of the host the client runs on. -/
inductive ByteOrder where
  | little
  | big
  deriving DecidableEq

/-- Reverses the four bytes of a 32-bit value. -/
def bswap32 (x : Nat) : Nat :=
  (x % 256) * 16777216 + (x / 256 % 256) * 65536 + (x / 65536 % 256) * 256
    + (x / 16777216 % 256)

/-- The C function `htonl`: host order to network (big-endian) order.  The
argument is converted to `uint32_t` first. -/
def htonl (ord : ByteOrder) (x : Nat) : Nat :=
  match ord with
  | .little => bswap32 (x % 4294967296)
  | .big => x % 4294967296

/-- The C function `ntohl`: network order to host order. -/
def ntohl (ord : ByteOrder) (x : Nat) : Nat :=
  match ord with
  | .little => bswap32 (x % 4294967296)
  | .big => x % 4294967296

/-- The four bytes a `uint32_t` occupies in memory, lowest address first. -/
def store32 (ord : ByteOrder) (x : Nat) : List Nat :=
  match ord with
  | .little => [x % 256, x / 256 % 256, x / 65536 % 256, x / 16777216 % 256]
  | .big => [x / 16777216 % 256, x / 65536 % 256, x / 256 % 256, x % 256]

/-- The `uint32_t` read from four bytes of memory starting at index `i`
(bytes past the end of the list read as zero). -/
def load32 (ord : ByteOrder) (mem : List Nat) (i : Nat) : Nat :=
  let b0 := mem.getD i 0 % 256
  let b1 := mem.getD (i + 1) 0 % 256
  let b2 := mem.getD (i + 2) 0 % 256
  let b3 := mem.getD (i + 3) 0 % 256
  match ord with
  | .little => b0 + b1 * 256 + b2 * 65536 + b3 * 16777216
  | .big => b0 * 16777216 + b1 * 65536 + b2 * 256 + b3

/-- The big-endian encoding of a 32-bit value, as the wire format has it. -/
def bigEndian32 (x : Nat) : List Nat :=
  [x / 16777216 % 256, x / 65536 % 256, x / 256 % 256, x % 256]

/-! ## The frame reader (`SocketReadThread`) -/

/-- What one call of `m_Socket->receive` does: it returns a non-negative
count and has stored that many bytes, or returns a negative count, or
raises. -/
inductive RecvResult where
  | received (data : List Nat)
  | negative
  | raised
  deriving DecidableEq

/-- Why the read loop was left. -/
inductive ExitReason where
  | invalidAmount
  | readError
  | badId
  | negativeRead
  deriving DecidableEq

/-- The local variables of `SocketReadThread` and the buffer `m_Data`. -/
structure ReaderState where
  m_Data : List Nat
  nBufferOffset : Nat
  nAmount2Read : Nat
  deriving DecidableEq

/-- The argument of one call `ProcessPacket(pHeader)`: the two header fields
in host order (as lines 104-105 store them), the buffer `m_Data` the header
lives in, and the number of bytes accumulated in it at the call. -/
structure Packet where
  id : Nat
  length : Nat
  m_Data : List Nat
  nBufferOffset : Nat
  deriving DecidableEq

/-- The outcome of running the read loop: the calls of `ProcessPacket` in
order, and the reason the loop was left (`none`: the loop is still running
when the fuel is used up). -/
structure Run where
  dispatched : List Packet
  exit : Option ExitReason
  deriving DecidableEq

/-- Storing `data` into the buffer at `offset`, as `receive` does with
`boost::asio::buffer(m_Data + nBufferOffset, nAmount2Read)`. -/
def writeAt (buf : List Nat) (offset : Nat) (data : List Nat) : List Nat :=
  buf.take offset ++ data ++ buf.drop (offset + data.length)

/-- The loop of `SocketReadThread`, lines 55-114, for `fuel` iterations.  The
socket is a state `sock` with a function `recv sock nAmount2Read`.  The flag
`m_bSocketReadThreadExit` is false throughout: the destructor is not running.
Every call of `ProcessPacket` is taken to return; a call that does not (see
`LowLatencyDataClient.ProcessPacket`) ends the process, and the run with it,
at that entry of `dispatched`. -/
def SocketReadThread.loop {σ : Type} (c : Constants) (ord : ByteOrder)
    (recv : σ → Nat → RecvResult × σ) :
    Nat → ReaderState → σ → Run
  | 0, _, _ => { dispatched := [], exit := none }
  | fuel + 1, st, sock =>
    if st.nAmount2Read + st.nBufferOffset > c.recvBufSize then
      { dispatched := [], exit := some .invalidAmount }
    else
      match recv sock st.nAmount2Read with
      | (.raised, _) => { dispatched := [], exit := some .readError }
      | (.negative, _) => { dispatched := [], exit := some .negativeRead }
      | (.received data, sock') =>
        if data.length > 0 then
          let buf := writeAt st.m_Data st.nBufferOffset data
          let nBufferOffset := st.nBufferOffset + data.length
          if nBufferOffset < headerSize then
            SocketReadThread.loop c ord recv fuel
              { st with m_Data := buf, nBufferOffset := nBufferOffset } sock'
          else if nBufferOffset < ntohl ord (load32 ord buf 4) then
            if ntohl ord (load32 ord buf 0) > 7 ∧
                ntohl ord (load32 ord buf 0) ≠ c.METADATA_ID then
              { dispatched := [], exit := some .badId }
            else
              SocketReadThread.loop c ord recv fuel
                { m_Data := buf, nBufferOffset := nBufferOffset,
                  nAmount2Read := ntohl ord (load32 ord buf 4) - nBufferOffset } sock'
          else
            let id := ntohl ord (load32 ord buf 0)
            let length := ntohl ord (load32 ord buf 4)
            let buf' := store32 ord id ++ store32 ord length ++ buf.drop headerSize
            let r := SocketReadThread.loop c ord recv fuel
              { m_Data := buf', nBufferOffset := 0, nAmount2Read := headerSize } sock'
            { r with dispatched :=
                { id := id, length := length, m_Data := buf',
                  nBufferOffset := nBufferOffset } :: r.dispatched }
        else
          SocketReadThread.loop c ord recv fuel st sock'

/-- The function `SocketReadThread`: the loop started with an empty
accumulation (`nBufferOffset = 0`) and a header to read
(`nAmount2Read = sizeof(LowLatencyStreamPacketHeader)`); `m_Data` is the
buffer as the constructor allocated it. -/
def SocketReadThread {σ : Type} (c : Constants) (ord : ByteOrder)
    (recv : σ → Nat → RecvResult × σ) (fuel : Nat) (m_Data : List Nat) (sock : σ) : Run :=
  SocketReadThread.loop c ord recv fuel
    { m_Data := m_Data, nBufferOffset := 0, nAmount2Read := headerSize } sock

/-- A connection that delivers the bytes of `stream` in order.  The n-th
receive hands over as many bytes as the n-th entry of `chunks` says, but at
least one and at most the amount requested; when `chunks` is used up a
receive hands over all that was requested. -/
structure Transport where
  stream : List Nat
  chunks : List Nat
  deriving DecidableEq

/-- One `receive` on a `Transport`: with no byte left the connection is at
its end and the call raises. -/
def Transport.receive (t : Transport) (nAmount2Read : Nat) : RecvResult × Transport :=
  match t.stream with
  | [] => (.raised, t)
  | _ :: _ =>
    let k := min nAmount2Read (max 1 (t.chunks.headD nAmount2Read))
    (.received (t.stream.take k), { stream := t.stream.drop k, chunks := t.chunks.tail })

/-- The bytes `[8, length)` of the buffer: the string `str` that
`ProcessMetadataPacket` builds from `pHeader + 1` up to
`(char *)pHeader + pHeader->length`. -/
def Packet.payload (p : Packet) : List Nat :=
  (p.m_Data.take p.length).drop headerSize

/-- Which branch of `ProcessPacket` a packet takes. -/
inductive PacketRoute where
  | metadata
  | corruptMetadataId
  | data
  deriving DecidableEq

/-- The branching of `ProcessPacket`, lines 148-153. -/
def ProcessPacket.route (c : Constants) (p : Packet) : PacketRoute :=
  if p.id &&& c.METADATA_ID ≠ 0 then
    if p.id = c.METADATA_ID then .metadata else .corruptMetadataId
  else .data

/-- The bytes of one well-formed message on the wire: the header in network
byte order, then the payload. -/
def wireMessage (id : Nat) (payload : List Nat) : List Nat :=
  bigEndian32 id ++ bigEndian32 (headerSize + payload.length) ++ payload

/-! ## Doubles -/

/-- A finite `double`: the value `± sig * 2 ^ exp`.  Zero has `sig = 0` and
`exp = 0`; every other value the operations below produce has
`2 ^ 52 ≤ sig < 2 ^ 53`.  Infinities, NaN, subnormal numbers and the limits of
the exponent are not modelled. -/
structure Double where
  neg : Bool
  sig : Nat
  exp : Int
  deriving DecidableEq

/-- The quotient `a / b` rounded to the nearest integer, ties to even. -/
def roundHalfEven (a b : Nat) : Nat :=
  let q := a / b
  let r := a % b
  if 2 * r < b then q else if b < 2 * r then q + 1 else if q % 2 = 0 then q else q + 1

/-- The helper of `log2`, with `fuel` halvings allowed. -/
def log2Fuel : Nat → Nat → Nat
  | 0, _ => 0
  | fuel + 1, n => if n < 2 then 0 else log2Fuel fuel (n / 2) + 1

/-- The position of the highest set bit of `n` (0 for `n < 2`). -/
def log2 (n : Nat) : Nat := log2Fuel n n

/-- The `double` nearest to `± (a / b) * 2 ^ e` (round to nearest, ties to
even, 53 significant bits).  A zero `b` (a division by zero) gives zero here. -/
def Double.round (neg : Bool) (a b : Nat) (e : Int) : Double :=
  if a = 0 ∨ b = 0 then { neg := neg, sig := 0, exp := 0 }
  else
    let s0 : Int := 52 - ((log2 a : Int) - (log2 b : Int))
    let q0 := (a * 2 ^ s0.toNat) / (b * 2 ^ (-s0).toNat)
    let s : Int := if q0 < 2 ^ 52 then s0 + 1 else s0
    let m := roundHalfEven (a * 2 ^ s.toNat) (b * 2 ^ (-s).toNat)
    if m = 2 ^ 53 then { neg := neg, sig := 2 ^ 52, exp := e - s + 1 }
    else { neg := neg, sig := m, exp := e - s }

/-- The conversion `static_cast<double>(n)` of a `uint64_t`. -/
def Double.ofUInt64 (n : Nat) : Double := Double.round false (n % 2 ^ 64) 1 0

/-- The division of two doubles. -/
def Double.div (x y : Double) : Double :=
  Double.round (x.neg != y.neg) x.sig y.sig (x.exp - y.exp)

/-- The literal `0.0`. -/
def Double.zero : Double := { neg := false, sig := 0, exp := 0 }

/-- The literal `1000000000.0`. -/
def Double.oneE9 : Double := Double.round false 1000000000 1 0

/-- The rational number a `Double` stands for. -/
def Double.toRat (x : Double) : ℚ :=
  (if x.neg then -1 else 1) * (x.sig : ℚ) * (2 : ℚ) ^ x.exp

/-! ## JSON values (the `nlohmann::json` the code builds) -/

/-- A JSON value.  An object is its members in ascending key order, as
`nlohmann::json` keeps them (it stores an object in a `std::map`). -/
inductive Json where
  | null
  | bool (b : Bool)
  | int (n : Int)
  | str (s : String)
  | arr (elems : List Json)
  | obj (members : List (String × Json))

/-! ## Ordered maps (`std::map`) as association lists in key order -/

/-- The call `m.find(k)`: the value stored under `k`, if any. -/
def mapFind {κ ν : Type} [DecidableEq κ] : List (κ × ν) → κ → Option ν
  | [], _ => none
  | (k', v') :: rest, k => if k' = k then some v' else mapFind rest k

/-- The assignment `m[k] = v`: replaces the value under `k`, or inserts the
pair at its place in key order. -/
def mapAssign {κ ν : Type} [DecidableEq κ] [LT κ] [DecidableRel (α := κ) (· < ·)] :
    List (κ × ν) → κ → ν → List (κ × ν)
  | [], k, v => [(k, v)]
  | (k', v') :: rest, k, v =>
    if k = k' then (k, v) :: rest
    else if k < k' then (k, v) :: (k', v') :: rest
    else (k', v') :: mapAssign rest k v

/-- The call `m.erase(k)`. -/
def mapErase {κ ν : Type} [DecidableEq κ] (m : List (κ × ν)) (k : κ) : List (κ × ν) :=
  m.filter (fun e => decide (e.1 ≠ k))

/-- The reference `j[key]` read as a value: the member under `key`, `null`
when `j` has none. -/
def Json.getKey (j : Json) (key : String) : Json :=
  match j with
  | .obj members => (mapFind members key).getD .null
  | _ => .null

/-- The assignment `j[key] = v`.  A `null` turns into an object first; for any
other value that is not an object the library raises, which the code never
meets, and the value is left as it is. -/
def Json.setKey (j : Json) (key : String) (v : Json) : Json :=
  match j with
  | .null => .obj [(key, v)]
  | .obj members => .obj (mapAssign members key v)
  | other => other

/-- The call `j.push_back(v)`.  A `null` turns into an array first; for any
other value that is not an array the library raises, which the code never
meets, and the value is left as it is. -/
def Json.push_back (j : Json) (v : Json) : Json :=
  match j with
  | .null => .arr [v]
  | .arr elems => .arr (elems ++ [v])
  | other => other

/-! ## The channel registry -/

/-- The struct `ChannelInfo` (declared in `LowLatencyDataClient.h`; the fields
are those the code reads and writes). -/
structure ChannelInfo where
  sName : String
  dSamplePeriod : Double
  sDataType : String
  dScale : Double
  dOffset : Double
  nDecimationFactor : Int
  deriving DecidableEq

/-- One call of the event handler `m_fEventHandler`, with the fields of the
info struct passed. `CHANNEL_DATA` carries the bytes `pData` points at. -/
inductive Event where
  | AVAILABLE_CHANNEL (ci : ChannelInfo)
  | UNAVAILABLE_CHANNEL (sName : String)
  | CHANNEL_SUBSCRIBED (sName : String) (nId : Int)
  | CHANNEL_UNSUBSCRIBED (nId : Int)
  | CHANNEL_FIRST_SAMPLE_TS (sName : String) (nId : Int) (dFirstSampleTimestamp : Double)
  | ACQUIRE (bAcquisitionState : Bool)
  | CHANNEL_DATA (nId : Int) (pData : List Nat) (nSamples : Nat)
  deriving DecidableEq

/-- The members of the class `LowLatencyDataClient` that make up the channel
registry, and what the object has done so far: `sent` holds the byte
sequence handed to each `m_Socket->send`, `events` each call of
`m_fEventHandler`, both oldest first.

Modelled from the spec: the member declarations are in
`LowLatencyDataClient.h`, which is not among the sources.  Available is a map
from name to descriptor, Pending an ordered sequence of descriptors,
Subscribed a map from integer identifier to descriptor, the first-sample
timestamps a map from name to seconds; the maps are `std::map`. -/
structure LowLatencyDataClient where
  m_mAvailableChannelsList : List (String × ChannelInfo)
  m_vPendingSubscribeChannelsList : List ChannelInfo
  m_mSubscribedChannelsList : List (Int × ChannelInfo)
  m_mFSTS : List (String × Double)
  m_bAcquisitionState : Bool
  sent : List (List Nat)
  events : List Event
  deriving DecidableEq

/-- The bytes handed to `m_Socket->send` for the string `str`: the memory of
the local `Header` (`id = htonl(METADATA_ID)`,
`length = htonl(str.length() + sizeof(Header))`) and then the characters of
`str`.  These are lines 431-443, which lines 511-523 and 553-565 repeat word
for word. -/
def controlMessageBytes (c : Constants) (ord : ByteOrder) (str : List Nat) : List Nat :=
  let Header_id := htonl ord c.METADATA_ID
  let Header_length := htonl ord (str.length + headerSize)
  store32 ord Header_id ++ store32 ord Header_length ++ str

namespace LowLatencyDataClient

/-- The loop of `SendSubscribeChannels`, lines 420-427: the JSON `j` and the
flag `bHaveChannels` after the channels of the list. -/
def SendSubscribeChannels.build (self : LowLatencyDataClient) :
    List ChannelInfo → Json × Bool → Json × Bool
  | [], acc => acc
  | e :: rest, (j, bHaveChannels) =>
    if (mapFind self.m_mAvailableChannelsList e.sName).isNone then
      SendSubscribeChannels.build self rest (j, bHaveChannels)
    else
      SendSubscribeChannels.build self rest
        (j.setKey "subscribe" ((j.getKey "subscribe").setKey e.sName (.int e.nDecimationFactor)),
          true)

/-- The function `SendSubscribeChannels`.  `dump` is `json::dump` of the JSON
library. -/
def SendSubscribeChannels (c : Constants) (ord : ByteOrder) (dump : Json → List Nat)
    (self : LowLatencyDataClient) (vChannelsList : List ChannelInfo) : LowLatencyDataClient :=
  let (j, bHaveChannels) := SendSubscribeChannels.build self vChannelsList (.null, false)
  if !bHaveChannels then self
  else
    let str := dump j
    { self with sent := self.sent ++ [controlMessageBytes c ord str] }

/-- The function `SubscribedChannelId`. -/
def SubscribedChannelId (self : LowLatencyDataClient) (sName : String) : Int :=
  match self.m_mSubscribedChannelsList.find? (fun e => decide (e.2.sName = sName)) with
  | some e => e.1
  | none => -1

/-- The function `SubscribeChannels`. -/
def SubscribeChannels (c : Constants) (ord : ByteOrder) (dump : Json → List Nat)
    (self : LowLatencyDataClient) (vChannelsList : List ChannelInfo) : LowLatencyDataClient :=
  SendSubscribeChannels c ord dump
    { self with m_vPendingSubscribeChannelsList :=
        self.m_vPendingSubscribeChannelsList ++ vChannelsList }
    vChannelsList

/-- The loop of `SendUnsubscribeChannels`, lines 501-507. -/
def SendUnsubscribeChannels.build (self : LowLatencyDataClient) :
    List Int → Json × Bool → Json × Bool
  | [], acc => acc
  | nChId :: rest, (j, bHaveChannels) =>
    if (mapFind self.m_mSubscribedChannelsList nChId).isNone then
      SendUnsubscribeChannels.build self rest (j, bHaveChannels)
    else
      SendUnsubscribeChannels.build self rest
        (j.setKey "unsubscribe" ((j.getKey "unsubscribe").push_back (.int nChId)), true)

/-- The function `SendUnsubscribeChannels`. -/
def SendUnsubscribeChannels (c : Constants) (ord : ByteOrder) (dump : Json → List Nat)
    (self : LowLatencyDataClient) (vChannelIdsList : List Int) : LowLatencyDataClient :=
  let (j, bHaveChannels) := SendUnsubscribeChannels.build self vChannelIdsList (.null, false)
  if !bHaveChannels then self
  else
    let str := dump j
    { self with sent := self.sent ++ [controlMessageBytes c ord str] }

/-- The function `UnsubscribeChannels`. -/
def UnsubscribeChannels (c : Constants) (ord : ByteOrder) (dump : Json → List Nat)
    (self : LowLatencyDataClient) (vChannelIdsList : List Int) : LowLatencyDataClient :=
  SendUnsubscribeChannels c ord dump self vChannelIdsList

/-- The function `UnsubscribeChannel`. -/
def UnsubscribeChannel (c : Constants) (ord : ByteOrder) (dump : Json → List Nat)
    (self : LowLatencyDataClient) (nChannelId : Int) : LowLatencyDataClient :=
  UnsubscribeChannels c ord dump self [nChannelId]

/-- The function `Acquire`. -/
def Acquire (c : Constants) (ord : ByteOrder) (dump : Json → List Nat)
    (self : LowLatencyDataClient) : LowLatencyDataClient :=
  let j := Json.null.setKey "acquire" (.bool (if self.m_bAcquisitionState then false else true))
  let str := dump j
  { self with sent := self.sent ++ [controlMessageBytes c ord str] }

/-- One element of the array `j["subscribed"]`, with its members converted
as lines 206-208 do: `name` to `std::string`, `id` to `int`,
`first_sample_timestamp_ns` to `uint64_t`. -/
structure SubscribedEntry where
  sName : String
  nId : Int
  fsts_ns : Nat
  deriving DecidableEq

/-- The inner loop of `ProcessSubscribeResponsePacket`, lines 211-255, for
one element of the array: `before` are the pending entries the iterator has
passed, the third argument those from the iterator on. -/
def ProcessSubscribeResponsePacket.scan (self : LowLatencyDataClient) (it : SubscribedEntry) :
    List ChannelInfo → List ChannelInfo → LowLatencyDataClient
  | _, [] => self
  | before, e :: rest =>
    if e.sName = it.sName then
      match mapFind self.m_mAvailableChannelsList it.sName with
      | none => ProcessSubscribeResponsePacket.scan self it (before ++ [e]) rest
      | some ci =>
        let ts := Double.div (Double.ofUInt64 it.fsts_ns) Double.oneE9
        let fsts := mapAssign self.m_mFSTS it.sName ts
        { self with
          m_mSubscribedChannelsList := mapAssign self.m_mSubscribedChannelsList it.nId ci
          m_vPendingSubscribeChannelsList := before ++ rest
          m_mFSTS := fsts
          events := self.events ++
            [.CHANNEL_SUBSCRIBED it.sName it.nId,
             .CHANNEL_FIRST_SAMPLE_TS it.sName it.nId ((mapFind fsts it.sName).getD Double.zero)] }
    else ProcessSubscribeResponsePacket.scan self it (before ++ [e]) rest

/-- The function `ProcessSubscribeResponsePacket`, on the elements of the
array `j["subscribed"]`. -/
def ProcessSubscribeResponsePacket (self : LowLatencyDataClient) :
    List SubscribedEntry → LowLatencyDataClient
  | [] => self
  | it :: rest =>
    ProcessSubscribeResponsePacket
      (ProcessSubscribeResponsePacket.scan self it [] self.m_vPendingSubscribeChannelsList) rest

/-- One member of the object `j["available"]`: its key and the members of
its value, converted as lines 275-278 do. -/
structure AvailableEntry where
  sName : String
  sample_period : Double
  data_type : String
  scale : Double
  offset : Double
  deriving DecidableEq

/-- The function `ProcessAvailableChannelsPacket`, on the members of the
object `j["available"]` in the order the loop visits them. -/
def ProcessAvailableChannelsPacket (self : LowLatencyDataClient) :
    List AvailableEntry → LowLatencyDataClient
  | [] => self
  | it :: rest =>
    let ci : ChannelInfo :=
      { sName := it.sName, dSamplePeriod := it.sample_period, sDataType := it.data_type,
        dScale := it.scale, dOffset := it.offset, nDecimationFactor := 1 }
    if (mapFind self.m_mAvailableChannelsList it.sName).isSome then
      ProcessAvailableChannelsPacket self rest
    else
      ProcessAvailableChannelsPacket
        { self with
          m_mAvailableChannelsList := mapAssign self.m_mAvailableChannelsList it.sName ci
          events := self.events ++ [.AVAILABLE_CHANNEL ci] }
        rest

/-- Every descriptor of Available carries the name it is stored under.  The
only assignment to `m_mAvailableChannelsList`, line 287, stores under `sName`
a descriptor whose `sName` is that name. -/
def AvailableNamed (self : LowLatencyDataClient) : Prop :=
  ∀ e ∈ self.m_mAvailableChannelsList, e.2.sName = e.1

/-- The members of the object `j["subscribe"]` after the loop of
`SendSubscribeChannels` has run over a list, starting from the members
`acc`: a proof device that follows the loop without the wrapping object. -/
def subscribeMembers (self : LowLatencyDataClient) :
    List ChannelInfo → List (String × Json) → List (String × Json)
  | [], acc => acc
  | e :: rest, acc =>
    if (mapFind self.m_mAvailableChannelsList e.sName).isNone then
      subscribeMembers self rest acc
    else subscribeMembers self rest (mapAssign acc e.sName (.int e.nDecimationFactor))

instance (self : LowLatencyDataClient) : Decidable (AvailableNamed self) := by
  unfold AvailableNamed
  infer_instance

/-- The decimation factor the last entry named `sName` of a request list
carries, if the list names `sName` at all. -/
def lastFactor : List ChannelInfo → String → Option Int
  | [], _ => none
  | e :: rest, sName =>
    match lastFactor rest sName with
    | some d => some d
    | none => if e.sName = sName then some e.nDecimationFactor else none

end LowLatencyDataClient

/-! ## Sample values -/

/-- Sample constants: the top bit as `METADATA_ID`, a buffer of 64 bytes. -/
def sampleConstants : Constants := { METADATA_ID := 2147483648, recvBufSize := 64 }

/-- A sample stream: two data messages of one sample each, ids 1 and 2. -/
def sampleStream : List Nat := wireMessage 1 [1, 2, 3, 4] ++ wireMessage 2 [5, 6, 7, 8]

/-- What the tests look at in a dispatched packet: id, length, payload. -/
def Packet.view (p : Packet) : Nat × Nat × List Nat := (p.id, p.length, p.payload)

/-- The second message of the sample stream as the reader dispatches it on a
little-endian host, the buffer zero before. -/
def samplePacket : Packet :=
  { id := 2, length := 12,
    m_Data := [2, 0, 0, 0, 12, 0, 0, 0, 5, 6, 7, 8] ++ List.replicate 52 0,
    nBufferOffset := 12 }

/-- A descriptor with the given name and decimation factor and nothing else
of interest. -/
def sampleChannel (sName : String) (nDecimationFactor : Int) : ChannelInfo :=
  { sName := sName, dSamplePeriod := Double.zero, sDataType := "float", dScale := Double.zero,
    dOffset := Double.zero, nDecimationFactor := nDecimationFactor }

/-- A registry whose only subscription is the name `"a"` under the
identifier `-1`, as a confirmation `{"name":"a","id":-1,...}` leaves it. -/
def minusOneClient : LowLatencyDataClient :=
  { m_mAvailableChannelsList := [("a", sampleChannel "a" 1)],
    m_vPendingSubscribeChannelsList := [],
    m_mSubscribedChannelsList := [(-1, sampleChannel "a" 1)], m_mFSTS := [],
    m_bAcquisitionState := false, sent := [], events := [] }

/-- A registry with the channel `"temp"` available and a subscribe request
for it pending, and the channel `"a"` subscribed under the identifier 2. -/
def tempClient : LowLatencyDataClient :=
  { m_mAvailableChannelsList := [("a", sampleChannel "a" 1), ("temp", sampleChannel "temp" 1)],
    m_vPendingSubscribeChannelsList := [sampleChannel "temp" 4],
    m_mSubscribedChannelsList := [(2, sampleChannel "a" 1)], m_mFSTS := [],
    m_bAcquisitionState := false, sent := [], events := [] }

/-- The registry of a client that has just connected. -/
def emptyClient : LowLatencyDataClient :=
  { m_mAvailableChannelsList := [], m_vPendingSubscribeChannelsList := [],
    m_mSubscribedChannelsList := [], m_mFSTS := [], m_bAcquisitionState := false,
    sent := [], events := [] }

/-! ## Inbound packets -/

/-- The conversion of a `uint32_t` to `int`, as in
`static_cast<int>(pHeader->id)` and in the look-up of `pHeader->id` in the
map of subscribed channels, whose keys are `int`. -/
def int32OfUInt32 (x : Nat) : Int :=
  if x % 4294967296 < 2147483648 then (x % 4294967296 : Nat)
  else ((x % 4294967296 : Nat) : Int) - 4294967296

namespace LowLatencyDataClient

/-- The function `ProcessDataPacket`.  The sample count is computed in
`size_t`, taken to be 64 bits wide: `pHeader->length - sizeof(*pHeader)` wraps
around below the header size.  `pData` is the buffer from `pHeader + 1` on. -/
def ProcessDataPacket (self : LowLatencyDataClient) (pHeader : Packet) : LowLatencyDataClient :=
  if (mapFind self.m_mSubscribedChannelsList (int32OfUInt32 pHeader.id)).isSome then
    { self with events := self.events ++
        [.CHANNEL_DATA (int32OfUInt32 pHeader.id) (pHeader.m_Data.drop headerSize)
          ((pHeader.length + 2 ^ 64 - headerSize) % 2 ^ 64 / 4)] }
  else self

/-- The function `ProcessUnsubscribeResponsePacket`, on the names of the
array `j["unsubscribed"]`. -/
def ProcessUnsubscribeResponsePacket (self : LowLatencyDataClient) :
    List String → LowLatencyDataClient
  | [] => self
  | sName :: rest =>
    match self.m_mSubscribedChannelsList.find? (fun e => decide (e.2.sName = sName)) with
    | some sit =>
      ProcessUnsubscribeResponsePacket
        { self with
          events := self.events ++ [.CHANNEL_UNSUBSCRIBED sit.1]
          m_mSubscribedChannelsList :=
            self.m_mSubscribedChannelsList.eraseP (fun e => decide (e.2.sName = sName)) }
        rest
    | none => ProcessUnsubscribeResponsePacket self rest

/-- The body of the loop of `ProcessUnavailableChannelsPacket`, lines
301-324, for one name of the array. -/
def ProcessUnavailableChannelsPacket.one (c : Constants) (ord : ByteOrder)
    (dump : Json → List Nat) (self : LowLatencyDataClient) (sName : String) :
    LowLatencyDataClient :=
  let s1 : LowLatencyDataClient :=
    if (mapFind self.m_mAvailableChannelsList sName).isSome then
      { self with m_mAvailableChannelsList := mapErase self.m_mAvailableChannelsList sName }
    else self
  let s2 : LowLatencyDataClient :=
    match s1.m_mSubscribedChannelsList.find? (fun e => decide (e.2.sName = sName)) with
    | some e =>
      let s := UnsubscribeChannel c ord dump s1 e.1
      { s with m_mSubscribedChannelsList := mapErase s.m_mSubscribedChannelsList e.1 }
    | none => s1
  let s3 : LowLatencyDataClient :=
    if (mapFind s2.m_mFSTS sName).isSome then
      { s2 with m_mFSTS := mapErase s2.m_mFSTS sName }
    else s2
  { s3 with events := s3.events ++ [.UNAVAILABLE_CHANNEL sName] }

/-- The function `ProcessUnavailableChannelsPacket`, on the names of the
array `j["unavailable"]`. -/
def ProcessUnavailableChannelsPacket (c : Constants) (ord : ByteOrder)
    (dump : Json → List Nat) (self : LowLatencyDataClient) :
    List String → LowLatencyDataClient
  | [] => self
  | sName :: rest =>
    ProcessUnavailableChannelsPacket c ord dump
      (ProcessUnavailableChannelsPacket.one c ord dump self sName) rest

/-- The loop of `ProcessAcquisitionStatePacket`, lines 338-349, over the
entries of the map of subscribed channels. -/
def ProcessAcquisitionStatePacket.reset (self : LowLatencyDataClient) :
    List (Int × ChannelInfo) → LowLatencyDataClient
  | [] => self
  | e :: rest =>
    let fsts := mapAssign self.m_mFSTS e.2.sName Double.zero
    ProcessAcquisitionStatePacket.reset
      { self with
        m_mFSTS := fsts
        events := self.events ++
          [.CHANNEL_FIRST_SAMPLE_TS e.2.sName e.1 ((mapFind fsts e.2.sName).getD Double.zero)] }
      rest

/-- The function `ProcessAcquisitionStatePacket`, on the string
`j["acquisition_state"]`. -/
def ProcessAcquisitionStatePacket (self : LowLatencyDataClient) (acquisition_state : String) :
    LowLatencyDataClient :=
  let s1 : LowLatencyDataClient :=
    if acquisition_state = "off" then
      { ProcessAcquisitionStatePacket.reset self self.m_mSubscribedChannelsList with
        m_bAcquisitionState := false }
    else if acquisition_state = "on" then { self with m_bAcquisitionState := true }
    else self
  { s1 with events := s1.events ++ [.ACQUIRE s1.m_bAcquisitionState] }

/-- The descriptor `ci` that `ProcessAvailableChannelsPacket` builds for one
member of `j["available"]`, lines 270-279. -/
def AvailableEntry.descriptor (it : AvailableEntry) : ChannelInfo :=
  { sName := it.sName, dSamplePeriod := it.sample_period, sDataType := it.data_type,
    dScale := it.scale, dOffset := it.offset, nDecimationFactor := 1 }

/-- A parsed control message: for each key the dispatch of
`ProcessMetadataPacket` looks for, the value under it if the object has the
key, converted as the function that handles it converts it. -/
structure ControlJson where
  unsubscribed : Option (List String)
  subscribed : Option (List SubscribedEntry)
  available : Option (List AvailableEntry)
  unavailable : Option (List String)
  acquisition_state : Option String
  status : Bool
  deriving DecidableEq

/-- The dispatch of `ProcessMetadataPacket`, lines 375-396, on the result of
`json::parse` (`none`: the parse raises and the message is dropped). -/
def ProcessMetadataPacket.dispatch (c : Constants) (ord : ByteOrder) (dump : Json → List Nat)
    (self : LowLatencyDataClient) : Option ControlJson → LowLatencyDataClient
  | none => self
  | some j =>
    match j.unsubscribed with
    | some names => ProcessUnsubscribeResponsePacket self names
    | none =>
      match j.subscribed with
      | some entries => ProcessSubscribeResponsePacket self entries
      | none =>
        match j.available with
        | some entries => ProcessAvailableChannelsPacket self entries
        | none =>
          match j.unavailable with
          | some names => ProcessUnavailableChannelsPacket c ord dump self names
          | none =>
            match j.acquisition_state with
            | some state => ProcessAcquisitionStatePacket self state
            | none => self

/-- The function `ProcessMetadataPacket`; `parse` is `json::parse` of the JSON
library followed by the conversions of the members.  The result is `none`
when the call does not return: for a declared length below the header size
the range of line 367, from `pHeader + 1` to `(char *)pHeader + pHeader->length`,
ends before it begins, the construction of `str` raises `std::length_error`
outside the `try` of line 374, nothing catches it and the process is
terminated. -/
def ProcessMetadataPacket (c : Constants) (ord : ByteOrder) (dump : Json → List Nat)
    (parse : List Nat → Option ControlJson) (self : LowLatencyDataClient) (pHeader : Packet) :
    Option LowLatencyDataClient :=
  if pHeader.length < headerSize then none
  else some (ProcessMetadataPacket.dispatch c ord dump self (parse pHeader.payload))

/-- The function `ProcessPacket`; `none` when the call does not return (see
`ProcessMetadataPacket`). -/
def ProcessPacket (c : Constants) (ord : ByteOrder) (dump : Json → List Nat)
    (parse : List Nat → Option ControlJson) (self : LowLatencyDataClient) (pHeader : Packet) :
    Option LowLatencyDataClient :=
  match ProcessPacket.route c pHeader with
  | .metadata => ProcessMetadataPacket c ord dump parse self pHeader
  | .corruptMetadataId => some self
  | .data => some (ProcessDataPacket self pHeader)

/-- What can happen to a connected client: the read thread processes a
metadata packet whose payload parses to `j`, or a data packet, or the
application calls one of the outbound operations. -/
inductive Action where
  | metadata (j : Option ControlJson)
  | data (pHeader : Packet)
  | SubscribeChannels (vChannelsList : List ChannelInfo)
  | UnsubscribeChannels (vChannelIdsList : List Int)
  | Acquire

/-- The effect of one action on the client. -/
def step (c : Constants) (ord : ByteOrder) (dump : Json → List Nat)
    (self : LowLatencyDataClient) : Action → LowLatencyDataClient
  | .metadata j => ProcessMetadataPacket.dispatch c ord dump self j
  | .data pHeader => ProcessDataPacket self pHeader
  | .SubscribeChannels vChannelsList => SubscribeChannels c ord dump self vChannelsList
  | .UnsubscribeChannels vChannelIdsList => UnsubscribeChannels c ord dump self vChannelIdsList
  | .Acquire => Acquire c ord dump self

/-- The client after a sequence of actions. -/
def run (c : Constants) (ord : ByteOrder) (dump : Json → List Nat)
    (self : LowLatencyDataClient) : List Action → LowLatencyDataClient
  | [] => self
  | a :: rest => run c ord dump (step c ord dump self a) rest

/-- Every identifier a `subscribed` message of the action carries is in
`0..7`. -/
def Action.idsInRange : Action → Prop
  | .metadata (some j) => ∀ e ∈ j.subscribed.getD [], 0 ≤ e.nId ∧ e.nId ≤ 7
  | _ => True

/-- No two entries of Subscribed carry the same name. -/
def NamesDistinct (self : LowLatencyDataClient) : Prop :=
  (self.m_mSubscribedChannelsList.map (fun e => e.2.sName)).Nodup

/-- Every descriptor of Subscribed has a name that is a key of Available. -/
def SubscribedAvailable (self : LowLatencyDataClient) : Prop :=
  ∀ e ∈ self.m_mSubscribedChannelsList,
    (mapFind self.m_mAvailableChannelsList e.2.sName).isSome = true

end LowLatencyDataClient

/-- One call of `m_Socket->receive` as the read loop issues it: the offset
into the buffer, the amount requested and the amount received. -/
structure ReceiveCall where
  nBufferOffset : Nat
  nAmount2Read : Nat
  nAmountRead : Nat
  deriving DecidableEq

/-- The loop of `SocketReadThread` once more, recording next to its outcome
every call of `receive` it issues. -/
def SocketReadThread.traced {σ : Type} (c : Constants) (ord : ByteOrder)
    (recv : σ → Nat → RecvResult × σ) :
    Nat → ReaderState → σ → Run × List ReceiveCall
  | 0, _, _ => ({ dispatched := [], exit := none }, [])
  | fuel + 1, st, sock =>
    if st.nAmount2Read + st.nBufferOffset > c.recvBufSize then
      ({ dispatched := [], exit := some .invalidAmount }, [])
    else
      match recv sock st.nAmount2Read with
      | (.raised, _) =>
        ({ dispatched := [], exit := some .readError },
          [⟨st.nBufferOffset, st.nAmount2Read, 0⟩])
      | (.negative, _) =>
        ({ dispatched := [], exit := some .negativeRead },
          [⟨st.nBufferOffset, st.nAmount2Read, 0⟩])
      | (.received data, sock') =>
        let call : ReceiveCall := ⟨st.nBufferOffset, st.nAmount2Read, data.length⟩
        if data.length > 0 then
          let buf := writeAt st.m_Data st.nBufferOffset data
          let nBufferOffset := st.nBufferOffset + data.length
          if nBufferOffset < headerSize then
            let r := SocketReadThread.traced c ord recv fuel
              { st with m_Data := buf, nBufferOffset := nBufferOffset } sock'
            (r.1, call :: r.2)
          else if nBufferOffset < ntohl ord (load32 ord buf 4) then
            if ntohl ord (load32 ord buf 0) > 7 ∧
                ntohl ord (load32 ord buf 0) ≠ c.METADATA_ID then
              ({ dispatched := [], exit := some .badId }, [call])
            else
              let r := SocketReadThread.traced c ord recv fuel
                { m_Data := buf, nBufferOffset := nBufferOffset,
                  nAmount2Read := ntohl ord (load32 ord buf 4) - nBufferOffset } sock'
              (r.1, call :: r.2)
          else
            let id := ntohl ord (load32 ord buf 0)
            let length := ntohl ord (load32 ord buf 4)
            let buf' := store32 ord id ++ store32 ord length ++ buf.drop headerSize
            let r := SocketReadThread.traced c ord recv fuel
              { m_Data := buf', nBufferOffset := 0, nAmount2Read := headerSize } sock'
            ({ r.1 with dispatched :=
                { id := id, length := length, m_Data := buf',
                  nBufferOffset := nBufferOffset } :: r.1.dispatched }, call :: r.2)
        else
          let r := SocketReadThread.traced c ord recv fuel st sock'
          (r.1, call :: r.2)

/-- The map of first-sample timestamps after the loop of
`ProcessAcquisitionStatePacket` has run over the entries `l`: a proof device
that follows the loop. -/
def resetTimestamps (fsts : List (String × Double)) :
    List (Int × ChannelInfo) → List (String × Double)
  | [] => fsts
  | e :: rest => resetTimestamps (mapAssign fsts e.2.sName Double.zero) rest

/-! ## More sample values -/

/-- A registry with the channel `"temp"` available and two subscribe requests
for it pending. -/
def twicePendingClient : LowLatencyDataClient :=
  { m_mAvailableChannelsList := [("temp", sampleChannel "temp" 1)],
    m_vPendingSubscribeChannelsList := [sampleChannel "temp" 4, sampleChannel "temp" 2],
    m_mSubscribedChannelsList := [], m_mFSTS := [],
    m_bAcquisitionState := false, sent := [], events := [] }

/-- A registry with the channels `"a"` and `"b"` available and subscribed
under the identifiers 1 and 2, acquisition on. -/
def twoSubscribedClient : LowLatencyDataClient :=
  { m_mAvailableChannelsList := [("a", sampleChannel "a" 1), ("b", sampleChannel "b" 1)],
    m_vPendingSubscribeChannelsList := [],
    m_mSubscribedChannelsList := [(1, sampleChannel "a" 1), (2, sampleChannel "b" 1)],
    m_mFSTS := [("a", Double.ofUInt64 5)],
    m_bAcquisitionState := true, sent := [], events := [] }

/-- A registry with the channel `"a"` available and subscribed under the two
identifiers 1 and 2. -/
def twiceSubscribedClient : LowLatencyDataClient :=
  { m_mAvailableChannelsList := [("a", sampleChannel "a" 1)],
    m_vPendingSubscribeChannelsList := [],
    m_mSubscribedChannelsList := [(1, sampleChannel "a" 1), (2, sampleChannel "a" 1)],
    m_mFSTS := [], m_bAcquisitionState := false, sent := [], events := [] }

/-- A member of an `available` object for the given name. -/
def sampleAvailable (sName : String) : LowLatencyDataClient.AvailableEntry :=
  { sName := sName, sample_period := Double.zero, data_type := "float", scale := Double.zero,
    offset := Double.zero }

/-- A data packet of the given id and length in a buffer of 16 zero bytes. -/
def sampleDataPacket (id length : Nat) : Packet :=
  { id := id, length := length, m_Data := List.replicate 16 0, nBufferOffset := length }

/-- A control message with the one key `subscribed`. -/
def subscribedMessage (entries : List LowLatencyDataClient.SubscribedEntry) :
    LowLatencyDataClient.ControlJson :=
  { unsubscribed := none, subscribed := some entries, available := none, unavailable := none,
    acquisition_state := none, status := false }

/-- A control message with the one key `available`. -/
def availableMessage (entries : List LowLatencyDataClient.AvailableEntry) :
    LowLatencyDataClient.ControlJson :=
  { unsubscribed := none, subscribed := none, available := some entries, unavailable := none,
    acquisition_state := none, status := false }

/-- A control message with the one key `unavailable`. -/
def unavailableMessage (names : List String) : LowLatencyDataClient.ControlJson :=
  { unsubscribed := none, subscribed := none, available := none, unavailable := some names,
    acquisition_state := none, status := false }

/-! ## A header that declares too little -/

/-- A header of id 1 that declares the length 0, as the reader dispatches it
on a little-endian host, the buffer zero before. -/
def shortLengthPacket : Packet :=
  { id := 1, length := 0, m_Data := [1, 0, 0, 0, 0, 0, 0, 0] ++ List.replicate 56 0,
    nBufferOffset := 8 }

/-- Whether an event is a `CHANNEL_DATA` event whose sample view
`8 + 4 * nSamples` reaches beyond `nBytes` bytes. -/
def Event.viewExceeds (nBytes : Nat) : Event → Bool
  | .CHANNEL_DATA _ _ nSamples => decide (nBytes < 8 + 4 * nSamples)
  | _ => false

/-! # Theorems -/

/-! ## Byte order lemmas -/

theorem bswap32_bytes (b0 b1 b2 b3 : Nat) (h0 : b0 < 256) (h1 : b1 < 256) (h2 : b2 < 256)
    (h3 : b3 < 256) :
    bswap32 (b0 + b1 * 256 + b2 * 65536 + b3 * 16777216)
      = b3 + b2 * 256 + b1 * 65536 + b0 * 16777216 := by
  unfold bswap32
  omega

theorem bytes_of_lt (y : Nat) (h : y < 4294967296) :
    y = y % 256 + (y / 256 % 256) * 256 + (y / 65536 % 256) * 65536
      + (y / 16777216 % 256) * 16777216 := by
  omega

theorem bswap32_lt (x : Nat) : bswap32 x < 4294967296 := by
  unfold bswap32
  omega

theorem bswap32_eq (y : Nat) (h : y < 4294967296) :
    bswap32 y = y / 16777216 % 256 + (y / 65536 % 256) * 256 + (y / 256 % 256) * 65536
      + (y % 256) * 16777216 := by
  have e1 := bswap32_bytes (y % 256) (y / 256 % 256) (y / 65536 % 256) (y / 16777216 % 256)
    (Nat.mod_lt _ (by decide)) (Nat.mod_lt _ (by decide)) (Nat.mod_lt _ (by decide))
    (Nat.mod_lt _ (by decide))
  rw [← bytes_of_lt y h] at e1
  exact e1

theorem bswap32_bswap32 (y : Nat) (h : y < 4294967296) : bswap32 (bswap32 y) = y := by
  rw [bswap32_eq y h]
  rw [bswap32_bytes (y / 16777216 % 256) (y / 65536 % 256) (y / 256 % 256) (y % 256)
    (Nat.mod_lt _ (by decide)) (Nat.mod_lt _ (by decide)) (Nat.mod_lt _ (by decide))
    (Nat.mod_lt _ (by decide))]
  omega

/-- Converting to network order and back gives the 32-bit value again. -/
theorem ntohl_htonl (ord : ByteOrder) (x : Nat) : ntohl ord (htonl ord x) = x % 4294967296 := by
  cases ord
  · simp only [ntohl, htonl]
    rw [Nat.mod_eq_of_lt (bswap32_lt _)]
    exact bswap32_bswap32 _ (Nat.mod_lt _ (by decide))
  · simp [ntohl, htonl]

theorem htonl_lt (ord : ByteOrder) (x : Nat) : htonl ord x < 4294967296 := by
  cases ord
  · exact bswap32_lt _
  · exact Nat.mod_lt _ (by decide)

theorem load32_store32 (ord : ByteOrder) (y : Nat) (rest : List Nat) (h : y < 4294967296) :
    load32 ord (store32 ord y ++ rest) 0 = y := by
  cases ord <;> simp [load32, store32] <;> omega

theorem load32_store32_four (ord : ByteOrder) (y : Nat) (pre rest : List Nat)
    (hp : pre.length = 4) (h : y < 4294967296) :
    load32 ord (pre ++ store32 ord y ++ rest) 4 = y := by
  match pre, hp with
  | [a, b, c, d], _ =>
    cases ord <;> simp [load32, store32] <;> omega

theorem store32_little_bytes (b0 b1 b2 b3 : Nat) (h0 : b0 < 256) (h1 : b1 < 256)
    (h2 : b2 < 256) (h3 : b3 < 256) :
    store32 .little (b0 + b1 * 256 + b2 * 65536 + b3 * 16777216) = [b0, b1, b2, b3] := by
  simp only [store32, List.cons.injEq, and_true]
  refine ⟨?_, ?_, ?_, ?_⟩ <;> omega

/-- The memory of a `uint32_t` holding `htonl(x)` is the big-endian encoding
of `x`, on a host of either byte order. -/
theorem store32_htonl (ord : ByteOrder) (x : Nat) :
    store32 ord (htonl ord x) = bigEndian32 x := by
  cases ord
  · simp only [htonl]
    rw [bswap32_eq _ (Nat.mod_lt _ (by decide)),
      store32_little_bytes _ _ _ _ (Nat.mod_lt _ (by decide)) (Nat.mod_lt _ (by decide))
        (Nat.mod_lt _ (by decide)) (Nat.mod_lt _ (by decide))]
    simp only [bigEndian32, List.cons.injEq, and_true]
    refine ⟨?_, ?_, ?_, ?_⟩ <;> omega
  · simp only [store32, htonl, bigEndian32]
    simp only [List.cons.injEq, and_true]
    refine ⟨?_, ?_, ?_, ?_⟩ <;> omega

theorem store32_length (ord : ByteOrder) (x : Nat) : (store32 ord x).length = 4 := by
  cases ord <;> rfl

/-- The big-endian bytes of a 32-bit value give the value back. -/
theorem bigEndian32_value (x : Nat) (h : x < 4294967296) :
    (bigEndian32 x).foldl (fun acc b => acc * 256 + b) 0 = x := by
  simp only [bigEndian32, List.foldl]
  omega

/-- The bytes of a control message are its wire encoding. -/
theorem controlMessageBytes_eq (c : Constants) (ord : ByteOrder) (str : List Nat) :
    controlMessageBytes c ord str = wireMessage c.METADATA_ID str := by
  simp only [controlMessageBytes, wireMessage, store32_htonl, Nat.add_comm str.length headerSize]

/-! ## The frame reader -/

theorem writeAt_length (buf data : List Nat) (off : Nat)
    (h : off + data.length ≤ buf.length) : (writeAt buf off data).length = buf.length := by
  simp [writeAt]; omega

theorem writeAt_take (buf data : List Nat) (off : Nat) (h : off ≤ buf.length) :
    (writeAt buf off data).take (off + data.length) = buf.take off ++ data := by
  simp [writeAt, List.take_append_eq_append_take, h]

theorem getD_of_take_eq (a b : List Nat) (n i : Nat) (h : a.take n = b.take n) (hi : i < n) :
    a.getD i 0 = b.getD i 0 := by
  have h1 : (a.take n)[i]? = (b.take n)[i]? := by rw [h]
  simp only [List.getElem?_take, hi, if_true] at h1
  simp [List.getD_eq_getElem?_getD, h1]

theorem load32_of_take_eq (ord : ByteOrder) (a b : List Nat) (n i : Nat)
    (h : a.take n = b.take n) (hi : i + 4 ≤ n) : load32 ord a i = load32 ord b i := by
  simp only [load32]
  rw [getD_of_take_eq a b n i h (by omega), getD_of_take_eq a b n (i+1) h (by omega),
    getD_of_take_eq a b n (i+2) h (by omega), getD_of_take_eq a b n (i+3) h (by omega)]

/-- Every packet the loop dispatches is complete, whatever the socket does. -/
theorem loop_dispatched_complete {σ : Type} (c : Constants) (ord : ByteOrder)
    (recv : σ → Nat → RecvResult × σ) (fuel : Nat) :
    ∀ (st : ReaderState) (sock : σ) (p : Packet),
      p ∈ (SocketReadThread.loop c ord recv fuel st sock).dispatched →
      headerSize ≤ p.nBufferOffset ∧ p.length ≤ p.nBufferOffset := by
  induction fuel with
  | zero => intro st sock p hp; simp [SocketReadThread.loop] at hp
  | succ n ih =>
    intro st sock p hp
    unfold SocketReadThread.loop at hp
    split at hp
    · simp at hp
    · split at hp
      · simp at hp
      · simp at hp
      · split at hp
        · simp only at hp
          split at hp
          · exact ih _ _ _ hp
          · split at hp
            · split at hp
              · simp at hp
              · exact ih _ _ _ hp
            · simp only [List.mem_cons] at hp
              rcases hp with rfl | hp
              · simp only
                omega
              · exact ih _ _ _ hp
        · exact ih _ _ _ hp

/-- A receive on a connection with bytes left hands over between one byte
and the amount requested, from the front of the stream. -/
theorem receive_spec (S : List Nat) (off amount : Nat) (chunks : List Nat)
    (h : off < S.length) (ha : 1 ≤ amount) :
    ∃ d chunks', 1 ≤ d ∧ d ≤ amount ∧ off + d ≤ S.length ∧
      ((S.drop off).take d).length = d ∧
      Transport.receive ⟨S.drop off, chunks⟩ amount
        = (.received ((S.drop off).take d), ⟨S.drop (off + d), chunks'⟩) := by
  have hne : S.drop off ≠ [] := by
    intro h0
    have := congrArg List.length h0
    simp at this
    omega
  have hr : Transport.receive ⟨S.drop off, chunks⟩ amount
      = (.received ((S.drop off).take (min amount (max 1 (chunks.headD amount)))),
          ⟨(S.drop off).drop (min amount (max 1 (chunks.headD amount))), chunks.tail⟩) := by
    simp only [Transport.receive]
    split
    · next h0 => exact absurd h0 hne
    · rfl
  have hk1 : 1 ≤ min amount (max 1 (chunks.headD amount)) := by omega
  have hk2 : min amount (max 1 (chunks.headD amount)) ≤ amount := by omega
  rw [hr]
  generalize min amount (max 1 (chunks.headD amount)) = k at hk1 hk2
  by_cases h3 : k ≤ S.length - off
  · refine ⟨k, chunks.tail, hk1, hk2, by omega, ?_, ?_⟩
    · simp [List.length_take]; omega
    · simp [List.drop_drop, Nat.add_comm]
  · refine ⟨S.length - off, chunks.tail, by omega, by omega, by omega, ?_, ?_⟩
    · simp [List.length_take]
    · have e1 : (S.drop off).take k = (S.drop off).take (S.length - off) := by
        rw [List.take_of_length_le (by simp; omega), List.take_of_length_le (by simp)]
      have e2 : (S.drop off).drop k = S.drop (off + (S.length - off)) := by
        rw [List.drop_eq_nil_of_le (by simp; omega), List.drop_eq_nil_of_le (by omega)]
      simp only [e1, e2]

/-- At the end of the stream the loop is left with a read error. -/
theorem loop_end_of_stream (c : Constants) (ord : ByteOrder) (fuel : Nat) (st : ReaderState)
    (chunks : List Nat) (h : st.nAmount2Read + st.nBufferOffset ≤ c.recvBufSize) :
    SocketReadThread.loop c ord Transport.receive (fuel + 1) st ⟨[], chunks⟩
      = { dispatched := [], exit := some .readError } := by
  unfold SocketReadThread.loop
  rw [if_neg (by omega)]
  simp [Transport.receive]

/-- The bytes of the stream consumed so far followed by the next chunk. -/
theorem take_append_drop_take (S : List Nat) (off d : Nat) :
    S.take off ++ (S.drop off).take d = S.take (off + d) := by
  rw [List.take_add]

/-- One well-formed message and nothing after it: whatever the chunking, the
loop dispatches that one message, complete, and then meets the end of the
stream. -/
theorem loop_one_message (c : Constants) (ord : ByteOrder) (S : List Nat)
    (hid : ¬ (ntohl ord (load32 ord S 0) > 7 ∧ ntohl ord (load32 ord S 0) ≠ c.METADATA_ID))
    (hL : ntohl ord (load32 ord S 4) = S.length) (h8 : headerSize ≤ S.length)
    (hR : S.length ≤ c.recvBufSize) (h15 : 15 ≤ c.recvBufSize) :
    ∀ (fuel : Nat) (st : ReaderState) (chunks : List Nat),
      st.m_Data.length = c.recvBufSize →
      st.nBufferOffset < S.length →
      st.m_Data.take st.nBufferOffset = S.take st.nBufferOffset →
      (st.nBufferOffset < headerSize → st.nAmount2Read = headerSize) →
      (headerSize ≤ st.nBufferOffset → st.nAmount2Read = S.length - st.nBufferOffset) →
      S.length - st.nBufferOffset + 2 ≤ fuel →
      ∃ pk, SocketReadThread.loop c ord Transport.receive fuel st
              ⟨S.drop st.nBufferOffset, chunks⟩
            = { dispatched := [pk], exit := some .readError } ∧
          pk.id = ntohl ord (load32 ord S 0) ∧ pk.length = S.length ∧
          pk.nBufferOffset = S.length ∧ pk.payload = S.drop headerSize := by
  intro fuel
  induction fuel with
  | zero => intro st chunks _ _ _ _ _ hf; omega
  | succ n ih =>
    intro st chunks hlen hoff htake hA1 hA2 hfuel
    have hamt : 1 ≤ st.nAmount2Read ∧ st.nAmount2Read + st.nBufferOffset ≤ c.recvBufSize := by
      by_cases h : st.nBufferOffset < headerSize
      · rw [hA1 h]; simp only [headerSize] at *; omega
      · rw [hA2 (by omega)]; omega
    obtain ⟨d, chunks', hd1, hd2, hd3, hdlen, hrecv⟩ :=
      receive_spec S st.nBufferOffset st.nAmount2Read chunks hoff hamt.1
    have hbt : (writeAt st.m_Data st.nBufferOffset ((S.drop st.nBufferOffset).take d)).take
        (st.nBufferOffset + d) = S.take (st.nBufferOffset + d) := by
      have := writeAt_take st.m_Data ((S.drop st.nBufferOffset).take d) st.nBufferOffset
        (by omega)
      rw [hdlen] at this
      rw [this, htake, take_append_drop_take]
    have hbl : (writeAt st.m_Data st.nBufferOffset ((S.drop st.nBufferOffset).take d)).length
        = c.recvBufSize := by
      rw [writeAt_length _ _ _ (by rw [hdlen]; omega), hlen]
    unfold SocketReadThread.loop
    rw [if_neg (by omega), hrecv]
    simp only [hdlen]
    rw [if_pos (by omega)]
    generalize writeAt st.m_Data st.nBufferOffset ((S.drop st.nBufferOffset).take d) = buf
      at hbt hbl ⊢
    by_cases hc1 : st.nBufferOffset + d < headerSize
    · rw [if_pos hc1]
      exact ih { st with m_Data := buf, nBufferOffset := st.nBufferOffset + d } chunks' hbl
        (by simp only; omega) hbt
        (by intro _; exact hA1 (by omega)) (by intro h; simp only at h; omega)
        (by simp only; omega)
    · rw [if_neg hc1]
      have h8' : 8 ≤ st.nBufferOffset + d := by
        simp only [headerSize] at hc1
        omega
      have hl0 : load32 ord buf 0 = load32 ord S 0 :=
        load32_of_take_eq ord _ _ (st.nBufferOffset + d) 0 hbt (by omega)
      have hl4 : load32 ord buf 4 = load32 ord S 4 :=
        load32_of_take_eq ord _ _ (st.nBufferOffset + d) 4 hbt (by omega)
      rw [hl0, hl4, hL]
      by_cases hc2 : st.nBufferOffset + d < S.length
      · rw [if_pos hc2, if_neg hid]
        exact ih ⟨buf, st.nBufferOffset + d, S.length - (st.nBufferOffset + d)⟩ chunks' hbl hc2
          hbt (by intro h; simp only at h; omega) (by intro _; rfl) (by simp only; omega)
      · rw [if_neg hc2]
        have hfull : st.nBufferOffset + d = S.length := by omega
        obtain ⟨m, hm⟩ : ∃ m, n = m + 1 := ⟨n - 1, by omega⟩
        subst hm
        have hdrop : S.drop (st.nBufferOffset + d) = [] := by
          apply List.drop_eq_nil_of_le; omega
        rw [hdrop, loop_end_of_stream c ord m _ chunks' (by simp only [headerSize]; omega)]
        refine ⟨_, rfl, rfl, rfl, hfull, ?_⟩
        simp only [Packet.payload]
        rw [hfull] at hbt
        have hS : S.take S.length = S := List.take_length S
        rw [hS] at hbt
        have e1 : (store32 ord (ntohl ord (load32 ord S 0)) ++ store32 ord S.length
            ++ buf.drop headerSize).take S.length
            = store32 ord (ntohl ord (load32 ord S 0)) ++ store32 ord S.length
              ++ (buf.drop headerSize).take (S.length - headerSize) := by
          rw [List.take_append_eq_append_take, List.take_of_length_le]
          · simp [store32_length, headerSize]
          · simp [store32_length]; simp only [headerSize] at h8; omega
        rw [e1, List.drop_append_eq_append_drop, List.drop_of_length_le]
        · simp only [List.length_append, store32_length, headerSize, List.nil_append]
          simp only [headerSize] at h8
          rw [show 8 - (4 + 4) = 0 from rfl, List.drop_zero, ← List.drop_take, hbt]
        · simp [store32_length, headerSize]

/-! ## Claims about the frame reader -/

/-- C1: the frame reader's dispatch depends on the chunking.  The sample
stream holds two well-formed data messages of 12 bytes.  Delivered whole it
is dispatched as these two messages.  When the first receive hands over 7
bytes, the next receive still asks for a full header of 8 bytes (line 88
leaves `nAmount2Read` as it is), takes the 5 bytes left of the first message
and 3 bytes of the second, and the second message is never dispatched: the
loop reads a header from the middle of it and is left on a bad id. -/
theorem chunking_changes_dispatch :
    (SocketReadThread sampleConstants .little Transport.receive 30 (List.replicate 64 0)
        ⟨sampleStream, []⟩).dispatched.map Packet.view
      = [(1, 12, [1, 2, 3, 4]), (2, 12, [5, 6, 7, 8])] ∧
    (SocketReadThread sampleConstants .little Transport.receive 30 (List.replicate 64 0)
        ⟨sampleStream, [7]⟩).dispatched.map Packet.view
      = [(1, 12, [1, 2, 3, 4])] ∧
    (SocketReadThread sampleConstants .little Transport.receive 30 (List.replicate 64 0)
        ⟨sampleStream, [7]⟩).exit = some .badId := by
  decide

/-- C2: no partial message is dispatched.  For every byte stream, every
chunking, every buffer content and every number of loop iterations, at each
call of `ProcessPacket` the bytes accumulated in the buffer are at least the
header size and at least the length the header of that message declares. -/
theorem no_partial_dispatch (c : Constants) (ord : ByteOrder) (fuel : Nat)
    (m_Data stream chunks : List Nat) (p : Packet)
    (hp : p ∈ (SocketReadThread c ord Transport.receive fuel m_Data
      ⟨stream, chunks⟩).dispatched) :
    headerSize ≤ p.nBufferOffset ∧ p.length ≤ p.nBufferOffset :=
  loop_dispatched_complete c ord Transport.receive fuel _ _ p hp

/-- Witness of C2: the second message of the sample stream, delivered byte by
byte. -/
theorem no_partial_dispatch_witness :
    samplePacket ∈ (SocketReadThread sampleConstants .little Transport.receive 30
        (List.replicate 64 0) ⟨sampleStream, List.replicate 24 1⟩).dispatched ∧
      (headerSize ≤ samplePacket.nBufferOffset ∧
        samplePacket.length ≤ samplePacket.nBufferOffset) :=
  ⟨by decide,
    no_partial_dispatch sampleConstants .little 30 (List.replicate 64 0) sampleStream
      (List.replicate 24 1) samplePacket (by decide)⟩

/-- C3: encode/decode round trip.  The bytes the outbound encoder produces
for a payload `p` that fits the receive buffer, fed to the frame reader in
any chunking, are dispatched as exactly one packet: its id is `METADATA_ID`,
its length `8 + |p|`, its payload `p`, and `ProcessPacket` takes it as a
metadata packet.  Assumed of the constants of the missing header:
`METADATA_ID` is a non-zero 32-bit value, `recvBufSize` is at least 15 (a
header read may ask for 8 bytes at offset 7) and the length fits 32 bits. -/
theorem encode_decode_round_trip (c : Constants) (ord : ByteOrder) (p m_Data chunks : List Nat)
    (fuel : Nat) (hM : c.METADATA_ID < 4294967296) (hM0 : c.METADATA_ID ≠ 0)
    (hfit : headerSize + p.length ≤ c.recvBufSize) (h15 : 15 ≤ c.recvBufSize)
    (h32 : headerSize + p.length < 4294967296) (hbuf : m_Data.length = c.recvBufSize)
    (hfuel : headerSize + p.length + 2 ≤ fuel) :
    ∃ pk, (SocketReadThread c ord Transport.receive fuel m_Data
          ⟨controlMessageBytes c ord p, chunks⟩).dispatched = [pk] ∧
      pk.id = c.METADATA_ID ∧ pk.length = headerSize + p.length ∧ pk.payload = p ∧
      ProcessPacket.route c pk = .metadata := by
  have hlenS : (controlMessageBytes c ord p).length = headerSize + p.length := by
    simp [controlMessageBytes, store32_length, headerSize]
    omega
  have hid : ntohl ord (load32 ord (controlMessageBytes c ord p) 0) = c.METADATA_ID := by
    simp only [controlMessageBytes, List.append_assoc]
    rw [load32_store32 ord _ _ (htonl_lt ord _), ntohl_htonl, Nat.mod_eq_of_lt hM]
  have hL : ntohl ord (load32 ord (controlMessageBytes c ord p) 4)
      = (controlMessageBytes c ord p).length := by
    simp only [controlMessageBytes]
    rw [load32_store32_four ord _ _ _ (store32_length ord _) (htonl_lt ord _), ntohl_htonl,
      Nat.mod_eq_of_lt (by omega)]
    simp [store32_length, headerSize]
    omega
  have hdrop : (controlMessageBytes c ord p).drop headerSize = p := by
    simp only [controlMessageBytes, List.append_assoc]
    rw [← List.append_assoc, List.drop_left' (by simp [store32_length, headerSize])]
  obtain ⟨pk, hrun, h1, h2, _, h4⟩ :=
    loop_one_message c ord (controlMessageBytes c ord p)
      (by rw [hid]; intro h; exact h.2 rfl) hL (by rw [hlenS]; omega)
      (by rw [hlenS]; exact hfit) h15 fuel
      ⟨m_Data, 0, headerSize⟩ chunks hbuf (by simp only [hlenS, headerSize]; omega) (by simp)
      (by intro _; rfl) (by intro h; simp only [headerSize] at h; omega)
      (by simp only [hlenS]; omega)
  refine ⟨pk, ?_, ?_, ?_, ?_, ?_⟩
  · simp only [SocketReadThread]
    simp only [List.drop_zero] at hrun
    rw [hrun]
  · rw [h1, hid]
  · rw [h2, hlenS]
  · rw [h4, hdrop]
  · have : pk.id = c.METADATA_ID := by rw [h1, hid]
    simp [ProcessPacket.route, this, hM0]

/-- Witness of C3: the payload `{"a":4}` on a little-endian host, delivered
in chunks of 3, 1 and then as requested. -/
theorem encode_decode_round_trip_witness :
    ∃ pk, (SocketReadThread sampleConstants .little Transport.receive 20 (List.replicate 64 0)
          ⟨controlMessageBytes sampleConstants .little [123, 34, 97, 34, 58, 52, 125],
            [3, 1]⟩).dispatched = [pk] ∧
      pk.id = sampleConstants.METADATA_ID ∧ pk.length = headerSize + 7 ∧
      pk.payload = [123, 34, 97, 34, 58, 52, 125] ∧
      ProcessPacket.route sampleConstants pk = .metadata :=
  encode_decode_round_trip sampleConstants .little [123, 34, 97, 34, 58, 52, 125]
    (List.replicate 64 0) [3, 1] 20 (by decide) (by decide) (by decide) (by decide) (by decide)
    (by decide) (by decide)

/-! ## Ordered maps -/

theorem mapFind_mapAssign_self {κ ν : Type} [DecidableEq κ] [LT κ]
    [DecidableRel (α := κ) (· < ·)] (m : List (κ × ν)) (k : κ) (v : ν) :
    mapFind (mapAssign m k v) k = some v := by
  induction m with
  | nil => simp [mapAssign, mapFind]
  | cons e rest ih =>
    obtain ⟨k', v'⟩ := e
    simp only [mapAssign]
    split
    · simp [mapFind]
    · split
      · simp [mapFind]
      · next hne _ =>
        simp only [mapFind]
        rw [if_neg (fun h => hne h.symm)]
        exact ih

theorem mapFind_mapAssign_ne {κ ν : Type} [DecidableEq κ] [LT κ]
    [DecidableRel (α := κ) (· < ·)] (m : List (κ × ν)) (k k' : κ) (v : ν) (h : k' ≠ k) :
    mapFind (mapAssign m k v) k' = mapFind m k' := by
  induction m with
  | nil => simp [mapAssign, mapFind, h.symm]
  | cons e rest ih =>
    obtain ⟨k1, v1⟩ := e
    simp only [mapAssign]
    split
    · next h1 =>
      subst h1
      simp [mapFind, h.symm]
    · split
      · simp [mapFind, h.symm]
      · simp only [mapFind]
        rw [ih]

theorem mapAssign_ne_nil {κ ν : Type} [DecidableEq κ] [LT κ]
    [DecidableRel (α := κ) (· < ·)] (m : List (κ × ν)) (k : κ) (v : ν) :
    mapAssign m k v ≠ [] := by
  cases m with
  | nil => simp [mapAssign]
  | cons e rest =>
    obtain ⟨k', v'⟩ := e
    simp only [mapAssign]
    split
    · simp
    · split <;> simp

theorem mem_keys_mapAssign {κ ν : Type} [DecidableEq κ] [LT κ]
    [DecidableRel (α := κ) (· < ·)] (m : List (κ × ν)) (k a : κ) (v : ν) :
    a ∈ (mapAssign m k v).map Prod.fst ↔ a = k ∨ a ∈ m.map Prod.fst := by
  induction m with
  | nil => simp [mapAssign]
  | cons e rest ih =>
    obtain ⟨k', v'⟩ := e
    simp only [mapAssign]
    split
    · next h1 =>
      subst h1
      simp
    · split
      · simp
      · simp only [List.map_cons, List.mem_cons, ih]
        tauto

theorem mapFind_isSome_iff {κ ν : Type} [DecidableEq κ] (m : List (κ × ν)) (k : κ) :
    (mapFind m k).isSome = true ↔ k ∈ m.map Prod.fst := by
  induction m with
  | nil => simp [mapFind]
  | cons e rest ih =>
    obtain ⟨k', v'⟩ := e
    simp only [mapFind]
    split
    · next h => subst h; simp
    · next h =>
      rw [ih]
      simp only [List.map_cons, List.mem_cons]
      constructor
      · intro h1; exact Or.inr h1
      · rintro (h1 | h1)
        · exact absurd h1.symm h
        · exact h1

/-- The assignment `m[k] = v` keeps the keys in ascending order. -/
theorem mapAssign_sorted {κ ν : Type} [DecidableEq κ] [LT κ] [DecidableRel (α := κ) (· < ·)]
    (htrans : ∀ a b c : κ, a < b → b < c → a < c)
    (htri : ∀ a b : κ, a ≠ b → ¬ a < b → b < a)
    (m : List (κ × ν)) (k : κ) (v : ν) (h : (m.map Prod.fst).Pairwise (· < ·)) :
    ((mapAssign m k v).map Prod.fst).Pairwise (· < ·) := by
  induction m with
  | nil => simp [mapAssign]
  | cons e rest ih =>
    obtain ⟨k', v'⟩ := e
    simp only [List.map_cons, List.pairwise_cons] at h
    simp only [mapAssign]
    split
    · next h1 =>
      subst h1
      simpa using h
    · split
      · next h1 h2 =>
        simp only [List.map_cons, List.pairwise_cons, List.mem_cons]
        refine ⟨?_, h⟩
        rintro a (rfl | ha)
        · exact h2
        · exact htrans _ _ _ h2 (h.1 a ha)
      · next h1 h2 =>
        simp only [List.map_cons, List.pairwise_cons]
        refine ⟨?_, ih h.2⟩
        intro a ha
        rw [mem_keys_mapAssign] at ha
        rcases ha with rfl | ha
        · exact htri _ _ h1 h2
        · exact h.1 a ha

theorem string_lt_trans (a b c : String) (h1 : a < b) (h2 : b < c) : a < c :=
  lt_trans h1 h2

theorem string_lt_of_ne (a b : String) (h1 : a ≠ b) (h2 : ¬ a < b) : b < a :=
  lt_of_le_of_ne (not_lt.mp h2) (Ne.symm h1)

theorem int_lt_of_ne (a b : Int) (h1 : a ≠ b) (h2 : ¬ a < b) : b < a := by
  omega

/-! ## Outbound control messages -/

/-- The loop of `SendSubscribeChannels` builds `{"subscribe": members}`. -/
theorem SendSubscribeChannels_build_eq (self : LowLatencyDataClient) (l : List ChannelInfo) :
    ∀ (acc : List (String × Json)) (b : Bool), (b = false → acc = []) →
      LowLatencyDataClient.SendSubscribeChannels.build self l
          (if b then Json.obj [("subscribe", Json.obj acc)] else Json.null, b)
        = (if (b || l.any (fun e => (mapFind self.m_mAvailableChannelsList e.sName).isSome))
            then Json.obj [("subscribe", Json.obj (LowLatencyDataClient.subscribeMembers self l acc))]
            else Json.null,
           b || l.any (fun e => (mapFind self.m_mAvailableChannelsList e.sName).isSome)) := by
  induction l with
  | nil =>
    intro acc b _
    simp [LowLatencyDataClient.SendSubscribeChannels.build,
      LowLatencyDataClient.subscribeMembers]
  | cons e rest ih =>
    intro acc b hb
    simp only [LowLatencyDataClient.SendSubscribeChannels.build,
      LowLatencyDataClient.subscribeMembers, List.any_cons]
    cases hav : mapFind self.m_mAvailableChannelsList e.sName with
    | none =>
      simp only [Option.isNone_none, if_true, Option.isSome_none, Bool.false_or]
      exact ih acc b hb
    | some ci =>
      simp only [Option.isNone_some, Option.isSome_some, Bool.true_or, Bool.or_true]
      have key : (if b then Json.obj [("subscribe", Json.obj acc)] else Json.null).setKey
          "subscribe"
          (((if b then Json.obj [("subscribe", Json.obj acc)] else Json.null).getKey
            "subscribe").setKey e.sName (Json.int e.nDecimationFactor))
          = Json.obj [("subscribe",
              Json.obj (mapAssign acc e.sName (Json.int e.nDecimationFactor)))] := by
        cases b with
        | false =>
          rw [hb rfl]
          simp [Json.setKey, Json.getKey, mapAssign]
        | true =>
          simp [Json.setKey, Json.getKey, mapAssign, mapFind]
      have := ih (mapAssign acc e.sName (Json.int e.nDecimationFactor)) true (by simp)
      simp only [if_true, Bool.true_or] at this
      simp only [Bool.false_eq_true, if_false]
      rw [key, this]
      simp

theorem subscribeMembers_keys (self : LowLatencyDataClient) (l : List ChannelInfo) :
    ∀ (acc : List (String × Json)) (sName : String),
      sName ∈ (LowLatencyDataClient.subscribeMembers self l acc).map Prod.fst ↔
        sName ∈ acc.map Prod.fst ∨
          ((∃ e ∈ l, e.sName = sName) ∧
            (mapFind self.m_mAvailableChannelsList sName).isSome = true) := by
  induction l with
  | nil => intro acc sName; simp [LowLatencyDataClient.subscribeMembers]
  | cons e rest ih =>
    intro acc sName
    simp only [LowLatencyDataClient.subscribeMembers]
    split
    · next hav =>
      rw [ih]
      simp only [List.mem_cons, exists_eq_or_imp]
      constructor
      · rintro (h | ⟨h1, h2⟩)
        · exact Or.inl h
        · exact Or.inr ⟨Or.inr h1, h2⟩
      · rintro (h | ⟨h1 | h1, h2⟩)
        · exact Or.inl h
        · rw [h1] at hav
          simp [Option.isNone_iff_eq_none] at hav
          rw [hav] at h2
          simp at h2
        · exact Or.inr ⟨h1, h2⟩
    · next hav =>
      rw [ih, mem_keys_mapAssign]
      simp only [List.mem_cons, exists_eq_or_imp]
      constructor
      · rintro ((h | h) | ⟨h1, h2⟩)
        · subst h
          refine Or.inr ⟨Or.inl rfl, ?_⟩
          cases hx : mapFind self.m_mAvailableChannelsList e.sName with
          | none => simp [hx] at hav
          | some _ => rfl
        · exact Or.inl h
        · exact Or.inr ⟨Or.inr h1, h2⟩
      · rintro (h | ⟨h1 | h1, h2⟩)
        · exact Or.inl (Or.inr h)
        · exact Or.inl (Or.inl h1.symm)
        · exact Or.inr ⟨h1, h2⟩

theorem subscribeMembers_sorted (self : LowLatencyDataClient) (l : List ChannelInfo) :
    ∀ (acc : List (String × Json)), (acc.map Prod.fst).Pairwise (· < ·) →
      ((LowLatencyDataClient.subscribeMembers self l acc).map Prod.fst).Pairwise (· < ·) := by
  induction l with
  | nil => intro acc h; simpa [LowLatencyDataClient.subscribeMembers] using h
  | cons e rest ih =>
    intro acc h
    simp only [LowLatencyDataClient.subscribeMembers]
    split
    · exact ih acc h
    · exact ih _ (mapAssign_sorted string_lt_trans string_lt_of_ne acc _ _ h)

theorem subscribeMembers_find (self : LowLatencyDataClient) (l : List ChannelInfo) :
    ∀ (acc : List (String × Json)) (sName : String),
      (mapFind self.m_mAvailableChannelsList sName).isSome = true →
      mapFind (LowLatencyDataClient.subscribeMembers self l acc) sName =
        match LowLatencyDataClient.lastFactor l sName with
        | some d => some (Json.int d)
        | none => mapFind acc sName := by
  induction l with
  | nil => intro acc sName _; simp [LowLatencyDataClient.subscribeMembers,
      LowLatencyDataClient.lastFactor]
  | cons e rest ih =>
    intro acc sName hav
    simp only [LowLatencyDataClient.subscribeMembers, LowLatencyDataClient.lastFactor]
    split
    · next hno =>
      rw [ih acc sName hav]
      have hne : e.sName ≠ sName := by
        intro h
        rw [h] at hno
        simp [Option.isNone_iff_eq_none] at hno
        rw [hno] at hav
        simp at hav
      cases LowLatencyDataClient.lastFactor rest sName with
      | some d => rfl
      | none => simp [hne]
    · rw [ih _ sName hav]
      cases LowLatencyDataClient.lastFactor rest sName with
      | some d => rfl
      | none =>
        simp only
        by_cases hn : e.sName = sName
        · rw [if_pos hn, ← hn, mapFind_mapAssign_self]
        · rw [if_neg hn, mapFind_mapAssign_ne _ _ _ _ (Ne.symm hn)]

theorem subscribeMembers_isEmpty (self : LowLatencyDataClient) (l : List ChannelInfo) :
    (LowLatencyDataClient.subscribeMembers self l []).isEmpty
      = !(l.any (fun e => (mapFind self.m_mAvailableChannelsList e.sName).isSome)) := by
  have hk := subscribeMembers_keys self l []
  cases hany : l.any (fun e => (mapFind self.m_mAvailableChannelsList e.sName).isSome) with
  | false =>
    rw [List.any_eq_false] at hany
    cases hm : LowLatencyDataClient.subscribeMembers self l [] with
    | nil => rfl
    | cons x xs =>
      exfalso
      have := (hk x.1).mp (by rw [hm]; simp)
      simp only [List.map_nil, List.not_mem_nil, false_or] at this
      obtain ⟨⟨e, he, hx⟩, h2⟩ := this
      rw [← hx] at h2
      exact hany e he h2
  | true =>
    rw [List.any_eq_true] at hany
    obtain ⟨e, he, h2⟩ := hany
    have := (hk e.sName).mpr (Or.inr ⟨⟨e, he, rfl⟩, h2⟩)
    cases hm : LowLatencyDataClient.subscribeMembers self l [] with
    | nil => rw [hm] at this; simp at this
    | cons x xs => rfl

/-- What `SendSubscribeChannels` hands to the socket. -/
theorem SendSubscribeChannels_sent (c : Constants) (ord : ByteOrder) (dump : Json → List Nat)
    (self : LowLatencyDataClient) (l : List ChannelInfo) :
    LowLatencyDataClient.SendSubscribeChannels c ord dump self l =
      { self with sent := self.sent ++
          (if (LowLatencyDataClient.subscribeMembers self l []).isEmpty then []
           else [wireMessage c.METADATA_ID (dump (Json.obj [("subscribe",
              Json.obj (LowLatencyDataClient.subscribeMembers self l []))]))]) } := by
  have h := SendSubscribeChannels_build_eq self l [] false (fun _ => rfl)
  simp only [Bool.false_eq_true, if_false, Bool.false_or] at h
  simp only [LowLatencyDataClient.SendSubscribeChannels, h, subscribeMembers_isEmpty]
  cases l.any (fun e => (mapFind self.m_mAvailableChannelsList e.sName).isSome) with
  | false => simp
  | true => simp [controlMessageBytes_eq]

/-- The loop of `SendUnsubscribeChannels` builds `{"unsubscribe": [ids]}`. -/
theorem SendUnsubscribeChannels_build_eq (self : LowLatencyDataClient) (l : List Int) :
    ∀ (acc : List Json) (b : Bool), (b = false → acc = []) →
      LowLatencyDataClient.SendUnsubscribeChannels.build self l
          (if b then Json.obj [("unsubscribe", Json.arr acc)] else Json.null, b)
        = (if (b || !(l.filter (fun nChId =>
                (mapFind self.m_mSubscribedChannelsList nChId).isSome)).isEmpty)
            then Json.obj [("unsubscribe", Json.arr (acc ++ (l.filter (fun nChId =>
                (mapFind self.m_mSubscribedChannelsList nChId).isSome)).map Json.int))]
            else Json.null,
           b || !(l.filter (fun nChId =>
                (mapFind self.m_mSubscribedChannelsList nChId).isSome)).isEmpty) := by
  induction l with
  | nil =>
    intro acc b _
    simp [LowLatencyDataClient.SendUnsubscribeChannels.build]
  | cons nChId rest ih =>
    intro acc b hb
    simp only [LowLatencyDataClient.SendUnsubscribeChannels.build]
    cases hav : mapFind self.m_mSubscribedChannelsList nChId with
    | none =>
      simp only [Option.isNone_none, if_true]
      rw [ih acc b hb]
      simp [List.filter_cons, hav]
    | some ci =>
      simp only [Option.isNone_some]
      have key : (if b then Json.obj [("unsubscribe", Json.arr acc)] else Json.null).setKey
          "unsubscribe"
          (((if b then Json.obj [("unsubscribe", Json.arr acc)] else Json.null).getKey
            "unsubscribe").push_back (Json.int nChId))
          = Json.obj [("unsubscribe", Json.arr (acc ++ [Json.int nChId]))] := by
        cases b with
        | false =>
          rw [hb rfl]
          simp [Json.setKey, Json.getKey, Json.push_back]
        | true =>
          simp [Json.setKey, Json.getKey, Json.push_back, mapAssign, mapFind]
      have := ih (acc ++ [Json.int nChId]) true (by simp)
      simp only [if_true, Bool.true_or] at this
      simp only [Bool.false_eq_true, if_false]
      rw [key, this]
      simp [List.filter_cons, hav]

/-- What `SendUnsubscribeChannels` hands to the socket. -/
theorem SendUnsubscribeChannels_sent (c : Constants) (ord : ByteOrder)
    (dump : Json → List Nat) (self : LowLatencyDataClient) (l : List Int) :
    LowLatencyDataClient.SendUnsubscribeChannels c ord dump self l =
      { self with sent := self.sent ++
          (if (l.filter (fun nChId =>
              (mapFind self.m_mSubscribedChannelsList nChId).isSome)).isEmpty then []
           else [wireMessage c.METADATA_ID (dump (Json.obj [("unsubscribe",
              Json.arr ((l.filter (fun nChId =>
                (mapFind self.m_mSubscribedChannelsList nChId).isSome)).map Json.int))]))]) } := by
  have h := SendUnsubscribeChannels_build_eq self l [] false (fun _ => rfl)
  simp only [Bool.false_eq_true, if_false, Bool.false_or, List.nil_append] at h
  simp only [LowLatencyDataClient.SendUnsubscribeChannels, h]
  cases (l.filter (fun nChId =>
      (mapFind self.m_mSubscribedChannelsList nChId).isSome)).isEmpty with
  | false => simp [controlMessageBytes_eq]
  | true => simp

/-- C4: shared wire encoding.  Whatever `SendSubscribeChannels`,
`SendUnsubscribeChannels` and `Acquire` hand to the socket is the 4-byte
big-endian encoding of `METADATA_ID`, then the 4-byte big-endian encoding of
`8 + n`, then the `n` bytes of a dumped JSON value, on a host of either byte
order. -/
theorem shared_wire_encoding (c : Constants) (ord : ByteOrder) (dump : Json → List Nat)
    (self : LowLatencyDataClient) (vChannelsList : List ChannelInfo)
    (vChannelIdsList : List Int) :
    ∃ ws1 ws2 ws3 : List (List Nat),
      (LowLatencyDataClient.SendSubscribeChannels c ord dump self vChannelsList).sent
        = self.sent ++ ws1 ∧
      (LowLatencyDataClient.SendUnsubscribeChannels c ord dump self vChannelIdsList).sent
        = self.sent ++ ws2 ∧
      (LowLatencyDataClient.Acquire c ord dump self).sent = self.sent ++ ws3 ∧
      ∀ w ∈ ws1 ++ ws2 ++ ws3, ∃ j : Json,
        w = bigEndian32 c.METADATA_ID ++ bigEndian32 (8 + (dump j).length) ++ dump j := by
  refine ⟨_, _, _, by rw [SendSubscribeChannels_sent], by rw [SendUnsubscribeChannels_sent],
    rfl, ?_⟩
  intro w hw
  simp only [List.mem_append] at hw
  rcases hw with (hw | hw) | hw
  · split at hw
    · simp at hw
    · simp only [List.mem_singleton] at hw
      exact ⟨_, hw⟩
  · split at hw
    · simp at hw
    · simp only [List.mem_singleton] at hw
      exact ⟨_, hw⟩
  · simp only [List.mem_singleton] at hw
    exact ⟨_, by rw [hw, controlMessageBytes_eq]; rfl⟩

/-- C5, as stated, fails: with nothing available, subscribing to the single
name `"ghost"` changes Pending. -/
theorem subscribe_unknown_changes_pending :
    mapFind emptyClient.m_mAvailableChannelsList "ghost" = none ∧
    (LowLatencyDataClient.SubscribeChannels sampleConstants .little (fun _ => [])
        emptyClient [sampleChannel "ghost" 1]).m_vPendingSubscribeChannelsList
      ≠ emptyClient.m_vPendingSubscribeChannelsList := by
  decide

/-- C5, amended: `SubscribeChannels` with a single entry whose name is not a
key of Available appends that entry to Pending, hands nothing to the socket
and changes nothing else. -/
theorem subscribe_unknown_appends_pending (c : Constants) (ord : ByteOrder)
    (dump : Json → List Nat) (self : LowLatencyDataClient) (e : ChannelInfo)
    (h : mapFind self.m_mAvailableChannelsList e.sName = none) :
    LowLatencyDataClient.SubscribeChannels c ord dump self [e] =
      { self with m_vPendingSubscribeChannelsList :=
          self.m_vPendingSubscribeChannelsList ++ [e] } := by
  simp only [LowLatencyDataClient.SubscribeChannels, SendSubscribeChannels_sent,
    LowLatencyDataClient.subscribeMembers, h, Option.isNone_none, if_true, List.isEmpty_nil,
    List.append_nil]

/-- Witness of the amended C5. -/
theorem subscribe_unknown_appends_pending_witness :
    mapFind emptyClient.m_mAvailableChannelsList (sampleChannel "ghost" 1).sName = none ∧
    LowLatencyDataClient.SubscribeChannels sampleConstants .little (fun _ => []) emptyClient
        [sampleChannel "ghost" 1] =
      { emptyClient with m_vPendingSubscribeChannelsList :=
          emptyClient.m_vPendingSubscribeChannelsList ++ [sampleChannel "ghost" 1] } :=
  ⟨by decide, subscribe_unknown_appends_pending sampleConstants .little (fun _ => [])
    emptyClient (sampleChannel "ghost" 1) (by decide)⟩

theorem lastFactor_of_mem (l : List ChannelInfo) (sName : String)
    (h : ∃ e ∈ l, e.sName = sName) : ∃ d, LowLatencyDataClient.lastFactor l sName = some d := by
  induction l with
  | nil => simp at h
  | cons e rest ih =>
    simp only [LowLatencyDataClient.lastFactor]
    cases hr : LowLatencyDataClient.lastFactor rest sName with
    | some d => exact ⟨d, rfl⟩
    | none =>
      simp only
      by_cases hn : e.sName = sName
      · exact ⟨_, by rw [if_pos hn]⟩
      · simp only [List.mem_cons, exists_eq_or_imp] at h
        rcases h with h | h
        · exact absurd h hn
        · obtain ⟨d, hd⟩ := ih h
          rw [hr] at hd
          simp at hd

/-- C6: subscribe request content.  `SubscribeChannels` hands nothing to the
socket when no requested name is a key of Available, and otherwise exactly
one control message, the dump of `{"subscribe": members}`: the keys of
`members` are exactly the requested names that are keys of Available, in
ascending order, and each maps to the decimation factor of the last request
entry of that name. -/
theorem subscribe_request_content (c : Constants) (ord : ByteOrder) (dump : Json → List Nat)
    (self : LowLatencyDataClient) (vChannelsList : List ChannelInfo) :
    ∃ members : List (String × Json),
      (∀ sName, sName ∈ members.map Prod.fst ↔
        ((∃ e ∈ vChannelsList, e.sName = sName) ∧
          (mapFind self.m_mAvailableChannelsList sName).isSome = true)) ∧
      (members.map Prod.fst).Pairwise (· < ·) ∧
      (∀ sName ∈ members.map Prod.fst, mapFind members sName =
        (LowLatencyDataClient.lastFactor vChannelsList sName).map Json.int) ∧
      (LowLatencyDataClient.SubscribeChannels c ord dump self vChannelsList).sent =
        self.sent ++
          (if members.isEmpty then []
           else [wireMessage c.METADATA_ID (dump (Json.obj [("subscribe", Json.obj members)]))]) := by
  let self' : LowLatencyDataClient :=
    { self with m_vPendingSubscribeChannelsList :=
        self.m_vPendingSubscribeChannelsList ++ vChannelsList }
  refine ⟨LowLatencyDataClient.subscribeMembers self' vChannelsList [], ?_, ?_, ?_, ?_⟩
  · intro sName
    rw [subscribeMembers_keys]
    simp [self']
  · exact subscribeMembers_sorted self' vChannelsList [] (by simp)
  · intro sName hs
    rw [subscribeMembers_keys] at hs
    simp only [List.map_nil, List.not_mem_nil, false_or] at hs
    rw [subscribeMembers_find self' vChannelsList [] sName hs.2]
    obtain ⟨d, hd⟩ := lastFactor_of_mem vChannelsList sName hs.1
    rw [hd]
    rfl
  · simp only [LowLatencyDataClient.SubscribeChannels, SendSubscribeChannels_sent]

/-- C7: unsubscribe request content.  `UnsubscribeChannels` hands nothing to
the socket when no requested id is a key of Subscribed, and otherwise exactly
one control message, the dump of `{"unsubscribe": arr}` where `arr` is the
requested ids that are keys of Subscribed, in request order; nothing else
changes. -/
theorem unsubscribe_request_content (c : Constants) (ord : ByteOrder)
    (dump : Json → List Nat) (self : LowLatencyDataClient) (vChannelIdsList : List Int) :
    LowLatencyDataClient.UnsubscribeChannels c ord dump self vChannelIdsList =
      { self with sent := self.sent ++
          (if (vChannelIdsList.filter (fun nChId =>
              (mapFind self.m_mSubscribedChannelsList nChId).isSome)).isEmpty then []
           else [wireMessage c.METADATA_ID (dump (Json.obj [("unsubscribe",
              Json.arr ((vChannelIdsList.filter (fun nChId =>
                (mapFind self.m_mSubscribedChannelsList nChId).isSome)).map Json.int))]))]) } := by
  simp only [LowLatencyDataClient.UnsubscribeChannels, SendUnsubscribeChannels_sent]

/-- C8, as stated, fails: `Acquire` on a client whose acquisition flag is
false leaves the flag false. -/
theorem acquire_keeps_flag_sample :
    (LowLatencyDataClient.Acquire sampleConstants .little (fun _ => [])
      emptyClient).m_bAcquisitionState ≠ !emptyClient.m_bAcquisitionState := by
  decide

/-- C8, amended: `Acquire` leaves the acquisition flag (and the registry) as
it is and hands to the socket one control message, the dump of
`{"acquire": b}` with `b` the negation of the flag. -/
theorem acquire_sends_negated_flag (c : Constants) (ord : ByteOrder) (dump : Json → List Nat)
    (self : LowLatencyDataClient) :
    LowLatencyDataClient.Acquire c ord dump self =
      { self with sent := self.sent ++
          [wireMessage c.METADATA_ID
            (dump (Json.obj [("acquire", Json.bool (!self.m_bAcquisitionState))]))] } := by
  simp only [LowLatencyDataClient.Acquire, controlMessageBytes_eq, Json.setKey]
  cases self.m_bAcquisitionState <;> rfl

/-! ## The channel registry -/

theorem mapFind_mem {κ ν : Type} [DecidableEq κ] (m : List (κ × ν)) (k : κ) (v : ν)
    (h : mapFind m k = some v) : (k, v) ∈ m := by
  induction m with
  | nil => simp [mapFind] at h
  | cons e rest ih =>
    obtain ⟨k', v'⟩ := e
    simp only [mapFind] at h
    split at h
    · next hk =>
      subst hk
      simp only [Option.some.injEq] at h
      subst h
      simp
    · exact List.mem_cons_of_mem _ (ih h)

theorem mem_mapAssign {κ ν : Type} [DecidableEq κ] [LT κ] [DecidableRel (α := κ) (· < ·)]
    (m : List (κ × ν)) (k : κ) (v : ν) (e : κ × ν) (h : e ∈ mapAssign m k v) :
    e = (k, v) ∨ e ∈ m := by
  induction m with
  | nil => simpa [mapAssign] using h
  | cons e' rest ih =>
    obtain ⟨k', v'⟩ := e'
    simp only [mapAssign] at h
    split at h
    · simp only [List.mem_cons] at h ⊢
      tauto
    · split at h
      · simp only [List.mem_cons] at h ⊢
        tauto
      · simp only [List.mem_cons] at h ⊢
        rcases h with h | h
        · exact Or.inr (Or.inl h)
        · rcases ih h with h | h
          · exact Or.inl h
          · exact Or.inr (Or.inr h)

/-- In a map with ascending keys the first entry that satisfies a condition
on the descriptor has the least key among those that do, and is what `find`
returns for its key. -/
theorem find_first_named (m : List (Int × ChannelInfo)) (sName : String)
    (hs : (m.map Prod.fst).Pairwise (· < ·)) :
    match m.find? (fun e => decide (e.2.sName = sName)) with
    | none => ∀ e ∈ m, e.2.sName ≠ sName
    | some e => e ∈ m ∧ e.2.sName = sName ∧ mapFind m e.1 = some e.2 ∧
        ∀ e' ∈ m, e'.2.sName = sName → e.1 ≤ e'.1 := by
  induction m with
  | nil => simp
  | cons x rest ih =>
    simp only [List.map_cons, List.pairwise_cons] at hs
    by_cases hx : x.2.sName = sName
    · simp only [List.find?_cons, hx, decide_True]
      refine ⟨by simp, trivial, by simp [mapFind], ?_⟩
      intro e' he' _
      simp only [List.mem_cons] at he'
      rcases he' with rfl | he'
      · exact le_refl _
      · exact le_of_lt (hs.1 e'.1 (List.mem_map_of_mem _ he'))
    · simp only [List.find?_cons, hx, decide_False]
      have := ih hs.2
      split at this
      · next hnone =>
        rw [hnone]
        intro e he
        simp only [List.mem_cons] at he
        rcases he with rfl | he
        · exact hx
        · exact this e he
      · next e hsome =>
        rw [hsome]
        obtain ⟨h1, h2, h3, h4⟩ := this
        refine ⟨List.mem_cons_of_mem _ h1, h2, ?_, ?_⟩
        · obtain ⟨k', v'⟩ := x
          simp only [mapFind]
          have : k' < e.1 := hs.1 e.1 (List.mem_map_of_mem _ h1)
          rw [if_neg (by omega)]
          exact h3
        · intro e' he' hn
          simp only [List.mem_cons] at he'
          rcases he' with rfl | he'
          · exact absurd hn hx
          · exact h4 e' he' hn

/-- C9, as stated, fails: in a registry whose Subscribed holds the name `"a"`
under the identifier `-1`, `SubscribedChannelId("a")` returns `-1` although a
descriptor of that name is subscribed. -/
theorem subscribedChannelId_minus_one :
    LowLatencyDataClient.SubscribedChannelId minusOneClient "a" = -1 ∧
    ∃ e ∈ minusOneClient.m_mSubscribedChannelsList, e.2.sName = "a" := by
  refine ⟨by decide, (-1, sampleChannel "a" 1), by decide, by decide⟩

/-- C9, amended: `SubscribedChannelId(name)` returns `-1` if no descriptor in
Subscribed has that name; otherwise it returns the smallest identifier `k`
with `Subscribed[k].name == name`.  When `-1` is not itself a key of
Subscribed, the result is `-1` if and only if no descriptor has that name. -/
theorem subscribedChannelId_spec (self : LowLatencyDataClient) (sName : String)
    (hs : (self.m_mSubscribedChannelsList.map Prod.fst).Pairwise (· < ·)) :
    ((∀ e ∈ self.m_mSubscribedChannelsList, e.2.sName ≠ sName) →
      LowLatencyDataClient.SubscribedChannelId self sName = -1) ∧
    ((∃ e ∈ self.m_mSubscribedChannelsList, e.2.sName = sName) →
      ∃ ci, mapFind self.m_mSubscribedChannelsList
            (LowLatencyDataClient.SubscribedChannelId self sName) = some ci ∧
        ci.sName = sName ∧
        ∀ e ∈ self.m_mSubscribedChannelsList, e.2.sName = sName →
          LowLatencyDataClient.SubscribedChannelId self sName ≤ e.1) ∧
    ((∀ e ∈ self.m_mSubscribedChannelsList, e.1 ≠ -1) →
      (LowLatencyDataClient.SubscribedChannelId self sName = -1 ↔
        ∀ e ∈ self.m_mSubscribedChannelsList, e.2.sName ≠ sName)) := by
  have h := find_first_named self.m_mSubscribedChannelsList sName hs
  simp only [LowLatencyDataClient.SubscribedChannelId]
  split at h
  · next hnone =>
    rw [hnone]
    refine ⟨fun _ => rfl, ?_, fun _ => ⟨fun _ => h, fun _ => rfl⟩⟩
    rintro ⟨e, he, hn⟩
    exact absurd hn (h e he)
  · next e hsome =>
    rw [hsome]
    obtain ⟨h1, h2, h3, h4⟩ := h
    refine ⟨?_, fun _ => ⟨e.2, h3, h2, h4⟩, ?_⟩
    · intro hall
      exact absurd h2 (hall e h1)
    · intro hkeys
      constructor
      · intro h5
        exact absurd h5 (hkeys e h1)
      · intro hall
        exact absurd h2 (hall e h1)

/-- Witness of the amended C9: the name `"a"`, subscribed under 2. -/
theorem subscribedChannelId_spec_witness :
    (tempClient.m_mSubscribedChannelsList.map Prod.fst).Pairwise (· < ·) ∧
    LowLatencyDataClient.SubscribedChannelId tempClient "a" = 2 ∧
    ((∀ e ∈ tempClient.m_mSubscribedChannelsList, e.1 ≠ -1) →
      (LowLatencyDataClient.SubscribedChannelId tempClient "a" = -1 ↔
        ∀ e ∈ tempClient.m_mSubscribedChannelsList, e.2.sName ≠ "a")) :=
  ⟨by decide, by decide, (subscribedChannelId_spec tempClient "a" (by decide)).2.2⟩

/-! ## The arithmetic of doubles -/

theorem log2Fuel_spec : ∀ (fuel n : Nat), n ≤ fuel → 0 < n →
    2 ^ log2Fuel fuel n ≤ n ∧ n < 2 ^ (log2Fuel fuel n + 1) := by
  intro fuel
  induction fuel with
  | zero => intro n h1 h2; omega
  | succ k ih =>
    intro n h1 h2
    simp only [log2Fuel]
    by_cases h : n < 2
    · rw [if_pos h]
      simp
      omega
    · rw [if_neg h]
      have h3 := ih (n / 2) (by omega) (by omega)
      have e1 : 2 ^ (log2Fuel k (n / 2) + 1) = 2 * 2 ^ log2Fuel k (n / 2) := by ring
      have e2 : 2 ^ (log2Fuel k (n / 2) + 1 + 1) = 4 * 2 ^ log2Fuel k (n / 2) := by ring
      rw [e1] at h3
      rw [e1, e2]
      generalize 2 ^ log2Fuel k (n / 2) = p at h3 ⊢
      omega

theorem log2_spec (n : Nat) (h : 0 < n) : 2 ^ log2 n ≤ n ∧ n < 2 ^ (log2 n + 1) :=
  log2Fuel_spec n n (le_refl n) h

theorem roundHalfEven_cases (a b : Nat) :
    roundHalfEven a b = a / b ∨ roundHalfEven a b = a / b + 1 := by
  unfold roundHalfEven
  simp only
  split_ifs <;> simp

theorem roundHalfEven_spec (a b : Nat) (hb : 0 < b) :
    2 * (roundHalfEven a b * b) ≤ 2 * a + b ∧ 2 * a ≤ 2 * (roundHalfEven a b * b) + b := by
  have h1 := Nat.div_add_mod a b
  have h2 := Nat.mod_lt a hb
  have h3 : (a / b + 1) * b = b * (a / b) + b := by ring
  have h4 : a / b * b = b * (a / b) := by ring
  unfold roundHalfEven
  simp only
  split_ifs <;> (first | rw [h3] | rw [h4]) <;> omega

theorem roundHalfEven_exact (n b : Nat) (hb : 0 < b) : roundHalfEven (n * b) b = n := by
  unfold roundHalfEven
  simp only [Nat.mul_mod_left, Nat.mul_div_cancel _ hb]
  rw [if_pos (by omega)]

theorem zpow_toNat_div (s : Int) : (2 : ℚ) ^ s.toNat / (2 : ℚ) ^ (-s).toNat = (2 : ℚ) ^ s := by
  rcases le_total 0 s with h | h
  · have h1 : (-s).toNat = 0 := by omega
    have h2 : ((s.toNat : ℕ) : ℤ) = s := Int.toNat_of_nonneg h
    rw [h1, pow_zero, div_one, ← zpow_natCast, h2]
  · have h1 : s.toNat = 0 := by omega
    have h2 : (((-s).toNat : ℕ) : ℤ) = -s := Int.toNat_of_nonneg (by omega)
    rw [h1, pow_zero, one_div, ← zpow_natCast, h2, zpow_neg, inv_inv]

/-- The scaled quotient `a * 2 ^ s / b` as a quotient of natural numbers. -/
theorem scaled_quotient (a b : Nat) (s : Int) :
    ((a * 2 ^ s.toNat : ℕ) : ℚ) / ((b * 2 ^ (-s).toNat : ℕ) : ℚ) = (a : ℚ) / b * 2 ^ s := by
  push_cast
  rw [mul_div_mul_comm, zpow_toNat_div]

theorem scaled_le (a b : Nat) (hb : 0 < b) (s : Int) (k : Nat) :
    k * (b * 2 ^ (-s).toNat) ≤ a * 2 ^ s.toNat ↔ (k : ℚ) ≤ (a : ℚ) / b * 2 ^ s := by
  have hB : (0 : ℚ) < ((b * 2 ^ (-s).toNat : ℕ) : ℚ) := by
    have : 0 < b * 2 ^ (-s).toNat := Nat.mul_pos hb (by positivity)
    exact_mod_cast this
  rw [← scaled_quotient, le_div_iff₀ hB]
  norm_cast

theorem scaled_lt (a b : Nat) (hb : 0 < b) (s : Int) (k : Nat) :
    a * 2 ^ s.toNat < k * (b * 2 ^ (-s).toNat) ↔ (a : ℚ) / b * 2 ^ s < (k : ℚ) := by
  have hB : (0 : ℚ) < ((b * 2 ^ (-s).toNat : ℕ) : ℚ) := by
    have : 0 < b * 2 ^ (-s).toNat := Nat.mul_pos hb (by positivity)
    exact_mod_cast this
  rw [← scaled_quotient, div_lt_iff₀ hB]
  norm_cast

/-- The first scaling of `Double.round` brings the quotient between `2 ^ 51`
and `2 ^ 53`. -/
theorem first_scaling (a b : Nat) (ha : 0 < a) (hb : 0 < b) :
    (2 : ℚ) ^ (51 : ℤ) < (a : ℚ) / b * 2 ^ (52 - ((log2 a : Int) - (log2 b : Int))) ∧
    (a : ℚ) / b * 2 ^ (52 - ((log2 a : Int) - (log2 b : Int))) < (2 : ℚ) ^ (53 : ℤ) := by
  obtain ⟨hla1, hla2⟩ := log2_spec a ha
  obtain ⟨hlb1, hlb2⟩ := log2_spec b hb
  generalize log2 a = la at hla1 hla2 ⊢
  generalize log2 b = lb at hlb1 hlb2 ⊢
  have hbq : (0 : ℚ) < b := by exact_mod_cast hb
  have ha1 : (2 : ℚ) ^ (la : ℤ) ≤ a := by
    rw [zpow_natCast]; exact_mod_cast hla1
  have ha2 : (a : ℚ) < (2 : ℚ) ^ ((la : ℤ) + 1) := by
    have : (a : ℚ) < ((2 ^ (la + 1) : ℕ) : ℚ) := by exact_mod_cast hla2
    have e : (2 : ℚ) ^ ((la : ℤ) + 1) = ((2 ^ (la + 1) : ℕ) : ℚ) := by
      push_cast
      rw [← zpow_natCast]
      push_cast
      rfl
    rw [e]; exact this
  have hb1 : (2 : ℚ) ^ (lb : ℤ) ≤ b := by
    rw [zpow_natCast]; exact_mod_cast hlb1
  have hb2 : (b : ℚ) < (2 : ℚ) ^ ((lb : ℤ) + 1) := by
    have : (b : ℚ) < ((2 ^ (lb + 1) : ℕ) : ℚ) := by exact_mod_cast hlb2
    have e : (2 : ℚ) ^ ((lb : ℤ) + 1) = ((2 ^ (lb + 1) : ℕ) : ℚ) := by
      push_cast
      rw [← zpow_natCast]
      push_cast
      rfl
    rw [e]; exact this
  have hp : (0 : ℚ) < 2 ^ (52 - ((la : ℤ) - (lb : ℤ))) := zpow_pos (by norm_num) _
  have two : (2 : ℚ) ≠ 0 := two_ne_zero
  constructor
  · rw [div_mul_eq_mul_div, lt_div_iff₀ hbq]
    calc (2 : ℚ) ^ (51 : ℤ) * b < 2 ^ (51 : ℤ) * 2 ^ ((lb : ℤ) + 1) :=
          mul_lt_mul_of_pos_left hb2 (zpow_pos (by norm_num) _)
      _ = 2 ^ (la : ℤ) * 2 ^ (52 - ((la : ℤ) - (lb : ℤ))) := by
          rw [← zpow_add₀ two, ← zpow_add₀ two]; congr 1; ring
      _ ≤ a * 2 ^ (52 - ((la : ℤ) - (lb : ℤ))) := mul_le_mul_of_nonneg_right ha1 hp.le
  · rw [div_mul_eq_mul_div, div_lt_iff₀ hbq]
    calc (a : ℚ) * 2 ^ (52 - ((la : ℤ) - (lb : ℤ)))
          < 2 ^ ((la : ℤ) + 1) * 2 ^ (52 - ((la : ℤ) - (lb : ℤ))) :=
          mul_lt_mul_of_pos_right ha2 hp
      _ = 2 ^ (53 : ℤ) * 2 ^ (lb : ℤ) := by
          rw [← zpow_add₀ two, ← zpow_add₀ two]; congr 1; ring
      _ ≤ 2 ^ (53 : ℤ) * b := mul_le_mul_of_nonneg_left hb1 (zpow_pos (by norm_num) _).le

/-- What `Double.round` computes for a non-zero quotient: a scaling `s` that
brings the quotient into `[2 ^ 52, 2 ^ 53)`, and the significand `m` rounded
from the scaled quotient; the value of the result is `m * 2 ^ (e - s)`. -/
theorem Double.round_structure (neg : Bool) (a b : Nat) (e : Int) (ha : 0 < a) (hb : 0 < b) :
    ∃ (s : Int) (m : Nat),
      m = roundHalfEven (a * 2 ^ s.toNat) (b * 2 ^ (-s).toNat) ∧
      2 ^ 52 * (b * 2 ^ (-s).toNat) ≤ a * 2 ^ s.toNat ∧
      a * 2 ^ s.toNat < 2 ^ 53 * (b * 2 ^ (-s).toNat) ∧
      ((Double.round neg a b e).sig : ℚ) * 2 ^ (Double.round neg a b e).exp
        = (m : ℚ) * 2 ^ (e - s) ∧
      (Double.round neg a b e).neg = neg ∧
      2 ^ 52 ≤ (Double.round neg a b e).sig ∧ (Double.round neg a b e).sig < 2 ^ 53 := by
  obtain ⟨hL, hU⟩ := first_scaling a b ha hb
  have hx : (0 : ℚ) < (a : ℚ) / b := by
    have : (0 : ℚ) < a := by exact_mod_cast ha
    have : (0 : ℚ) < b := by exact_mod_cast hb
    positivity
  have two : (2 : ℚ) ≠ 0 := two_ne_zero
  -- the scaling chosen and its bounds
  have hs : ∃ s : Int,
      (if (a * 2 ^ (52 - ((log2 a : Int) - (log2 b : Int))).toNat) /
            (b * 2 ^ (-(52 - ((log2 a : Int) - (log2 b : Int)))).toNat) < 2 ^ 52
        then 52 - ((log2 a : Int) - (log2 b : Int)) + 1
        else 52 - ((log2 a : Int) - (log2 b : Int))) = s ∧
      2 ^ 52 * (b * 2 ^ (-s).toNat) ≤ a * 2 ^ s.toNat ∧
      a * 2 ^ s.toNat < 2 ^ 53 * (b * 2 ^ (-s).toNat) := by
    generalize 52 - ((log2 a : Int) - (log2 b : Int)) = s0 at hL hU ⊢
    have hB0 : 0 < b * 2 ^ (-s0).toNat := Nat.mul_pos hb (by positivity)
    by_cases hq : (a * 2 ^ s0.toNat) / (b * 2 ^ (-s0).toNat) < 2 ^ 52
    · refine ⟨s0 + 1, by rw [if_pos hq], ?_, ?_⟩
      · rw [scaled_le a b hb]
        rw [Nat.div_lt_iff_lt_mul hB0, scaled_lt a b hb] at hq
        rw [zpow_add₀ two, zpow_one]
        push_cast
        have : (2 : ℚ) ^ (51 : ℤ) = 2 ^ 51 := by norm_num
        rw [this] at hL
        linarith
      · rw [scaled_lt a b hb]
        rw [Nat.div_lt_iff_lt_mul hB0, scaled_lt a b hb] at hq
        rw [zpow_add₀ two, zpow_one]
        push_cast at hq ⊢
        linarith
    · refine ⟨s0, by rw [if_neg hq], ?_, ?_⟩
      · rw [not_lt, Nat.le_div_iff_mul_le hB0] at hq
        exact hq
      · rw [scaled_lt a b hb]
        push_cast
        have : (2 : ℚ) ^ (53 : ℤ) = 2 ^ 53 := by norm_num
        rw [this] at hU
        exact hU
  obtain ⟨s, hsdef, hlo, hhi⟩ := hs
  have hB : 0 < b * 2 ^ (-s).toNat := Nat.mul_pos hb (by positivity)
  refine ⟨s, roundHalfEven (a * 2 ^ s.toNat) (b * 2 ^ (-s).toNat), rfl, hlo, hhi, ?_⟩
  have hq1 : 2 ^ 52 ≤ (a * 2 ^ s.toNat) / (b * 2 ^ (-s).toNat) :=
    (Nat.le_div_iff_mul_le hB).mpr hlo
  have hq2 : (a * 2 ^ s.toNat) / (b * 2 ^ (-s).toNat) < 2 ^ 53 :=
    (Nat.div_lt_iff_lt_mul hB).mpr hhi
  have hm := roundHalfEven_cases (a * 2 ^ s.toNat) (b * 2 ^ (-s).toNat)
  have hround : Double.round neg a b e =
      if roundHalfEven (a * 2 ^ s.toNat) (b * 2 ^ (-s).toNat) = 2 ^ 53
      then { neg := neg, sig := 2 ^ 52, exp := e - s + 1 }
      else { neg := neg, sig := roundHalfEven (a * 2 ^ s.toNat) (b * 2 ^ (-s).toNat),
             exp := e - s } := by
    unfold Double.round
    rw [if_neg (by omega)]
    simp only
    rw [hsdef]
  rw [hround]
  generalize roundHalfEven (a * 2 ^ s.toNat) (b * 2 ^ (-s).toNat) = m at hm ⊢
  by_cases h53 : m = 2 ^ 53
  · rw [if_pos h53]
    refine ⟨?_, rfl, by norm_num, by norm_num⟩
    simp only
    rw [h53, zpow_add₀ two, zpow_one]
    push_cast
    ring
  · rw [if_neg h53]
    refine ⟨rfl, rfl, ?_, ?_⟩
    · simp only; omega
    · simp only; omega

/-- The rounding error of `Double.round` is at most `2 ^ -53` of the exact
value. -/
theorem Double.round_error (neg : Bool) (a b : Nat) (e : Int) (ha : 0 < a) (hb : 0 < b) :
    |((Double.round neg a b e).sig : ℚ) * 2 ^ (Double.round neg a b e).exp
        - (a : ℚ) / b * 2 ^ e| ≤ (a : ℚ) / b * 2 ^ e / 2 ^ 53 := by
  obtain ⟨s, m, hm, hlo, hhi, hv, -, -, -⟩ := Double.round_structure neg a b e ha hb
  have two : (2 : ℚ) ≠ 0 := two_ne_zero
  have hB : 0 < b * 2 ^ (-s).toNat := Nat.mul_pos hb (by positivity)
  have hsp := roundHalfEven_spec (a * 2 ^ s.toNat) (b * 2 ^ (-s).toNat) hB
  rw [← hm] at hsp
  have hX : (a : ℚ) / b * 2 ^ e
      = ((a * 2 ^ s.toNat : ℕ) : ℚ) / ((b * 2 ^ (-s).toNat : ℕ) : ℚ) * 2 ^ (e - s) := by
    rw [scaled_quotient, mul_assoc, ← zpow_add₀ two]
    congr 2
    ring
  rw [hv, hX]
  have hBq : (0 : ℚ) < ((b * 2 ^ (-s).toNat : ℕ) : ℚ) := by exact_mod_cast hB
  have h1 : 2 * ((m : ℚ) * ((b * 2 ^ (-s).toNat : ℕ) : ℚ))
      ≤ 2 * ((a * 2 ^ s.toNat : ℕ) : ℚ) + ((b * 2 ^ (-s).toNat : ℕ) : ℚ) := by
    exact_mod_cast hsp.1
  have h2 : 2 * ((a * 2 ^ s.toNat : ℕ) : ℚ)
      ≤ 2 * ((m : ℚ) * ((b * 2 ^ (-s).toNat : ℕ) : ℚ)) + ((b * 2 ^ (-s).toNat : ℕ) : ℚ) := by
    exact_mod_cast hsp.2
  have h3 : (2 : ℚ) ^ 52 * ((b * 2 ^ (-s).toNat : ℕ) : ℚ) ≤ ((a * 2 ^ s.toNat : ℕ) : ℚ) := by
    exact_mod_cast hlo
  generalize ((a * 2 ^ s.toNat : ℕ) : ℚ) = A at h1 h2 h3 ⊢
  generalize ((b * 2 ^ (-s).toNat : ℕ) : ℚ) = B at hBq h1 h2 h3 ⊢
  have hP : (0 : ℚ) < 2 ^ (e - s) := zpow_pos (by norm_num) _
  generalize (2 : ℚ) ^ (e - s) = P at hP ⊢
  have hXB : A / B * B = A := div_mul_cancel₀ A hBq.ne.symm
  generalize A / B = X at hXB ⊢
  subst hXB
  have k1 : (m : ℚ) ≤ X + 1 / 2 := by
    have : (m : ℚ) * B ≤ (X + 1 / 2) * B := by linarith
    exact le_of_mul_le_mul_right this hBq
  have k2 : X ≤ (m : ℚ) + 1 / 2 := by
    have : X * B ≤ ((m : ℚ) + 1 / 2) * B := by linarith
    exact le_of_mul_le_mul_right this hBq
  have k3 : (2 : ℚ) ^ 52 ≤ X := le_of_mul_le_mul_right h3 hBq
  rw [← sub_mul, abs_mul, abs_of_pos hP]
  have k4 : |(m : ℚ) - X| ≤ 1 / 2 := by
    rw [abs_le]; constructor <;> linarith
  have k5 : (2 : ℚ) ^ 52 * P ≤ X * P := mul_le_mul_of_nonneg_right k3 hP.le
  have k6 : |(m : ℚ) - X| * P ≤ 1 / 2 * P := mul_le_mul_of_nonneg_right k4 hP.le
  rw [le_div_iff₀ (by norm_num)]
  norm_num at k5 ⊢
  linarith

/-- `Double.round` is exact on a value that a double can hold: one that is
`n * 2 ^ j` for some `n < 2 ^ 53`. -/
theorem Double.round_exact (neg : Bool) (a b : Nat) (e : Int) (ha : 0 < a) (hb : 0 < b)
    (n : Nat) (j : Int) (hn : n < 2 ^ 53) (hrep : (a : ℚ) / b * 2 ^ e = (n : ℚ) * 2 ^ j) :
    ((Double.round neg a b e).sig : ℚ) * 2 ^ (Double.round neg a b e).exp
      = (a : ℚ) / b * 2 ^ e := by
  obtain ⟨s, m, hm, hlo, hhi, hv, -, -, -⟩ := Double.round_structure neg a b e ha hb
  have two : (2 : ℚ) ≠ 0 := two_ne_zero
  have hB : 0 < b * 2 ^ (-s).toNat := Nat.mul_pos hb (by positivity)
  have hBq : (0 : ℚ) < ((b * 2 ^ (-s).toNat : ℕ) : ℚ) := by exact_mod_cast hB
  have hP : (0 : ℚ) < 2 ^ (e - s) := zpow_pos (by norm_num) _
  -- the scaled quotient is `n * 2 ^ k`
  have hXk : (a : ℚ) / b * 2 ^ s = (n : ℚ) * 2 ^ (j - (e - s)) := by
    have h1 : (a : ℚ) / b * 2 ^ s * 2 ^ (e - s) = (n : ℚ) * 2 ^ j := by
      rw [mul_assoc, ← zpow_add₀ two, ← hrep]
      congr 2
      ring
    have h2 : (n : ℚ) * 2 ^ (j - (e - s)) * 2 ^ (e - s) = (n : ℚ) * 2 ^ j := by
      rw [mul_assoc, ← zpow_add₀ two]
      congr 2
      ring
    exact mul_right_cancel₀ hP.ne.symm (h1.trans h2.symm)
  have hk : 0 ≤ j - (e - s) := by
    by_contra hneg
    have hk1 : j - (e - s) ≤ -1 := by omega
    have hk2 : (2 : ℚ) ^ (j - (e - s)) ≤ 2 ^ (-1 : ℤ) :=
      zpow_le_zpow_right₀ (by norm_num) hk1
    have hk3 : (2 : ℚ) ^ (52 : ℕ) ≤ (a : ℚ) / b * 2 ^ s := by
      have := (scaled_le a b hb s (2 ^ 52)).mp hlo
      exact_mod_cast this
    have hnq : (n : ℚ) < 2 ^ 53 := by exact_mod_cast hn
    have hn0 : (0 : ℚ) ≤ n := Nat.cast_nonneg n
    have hk4 : (n : ℚ) * 2 ^ (j - (e - s)) ≤ (n : ℚ) * 2 ^ (-1 : ℤ) :=
      mul_le_mul_of_nonneg_left hk2 hn0
    rw [hXk] at hk3
    norm_num at hk4 hk3
    have hnq' : (n : ℚ) < 9007199254740992 := by
      have e : (2 : ℚ) ^ 53 = 9007199254740992 := by norm_num
      rw [← e]; exact hnq
    linarith
  obtain ⟨K, hK⟩ := Int.eq_ofNat_of_zero_le hk
  have hA : a * 2 ^ s.toNat = (n * 2 ^ K) * (b * 2 ^ (-s).toNat) := by
    have h1 : ((a * 2 ^ s.toNat : ℕ) : ℚ) / ((b * 2 ^ (-s).toNat : ℕ) : ℚ)
        = ((n * 2 ^ K : ℕ) : ℚ) := by
      rw [scaled_quotient, hXk, hK]
      push_cast
      rw [zpow_natCast]
    rw [div_eq_iff hBq.ne.symm] at h1
    exact_mod_cast h1
  have hmv : m = n * 2 ^ K := by
    rw [hm, hA, roundHalfEven_exact _ _ hB]
  rw [hv, hmv]
  have : (a : ℚ) / b * 2 ^ e = (a : ℚ) / b * 2 ^ s * 2 ^ (e - s) := by
    rw [mul_assoc, ← zpow_add₀ two]
    congr 2
    ring
  rw [this, hXk, hK]
  push_cast
  rw [zpow_natCast]

theorem Double.round_neg (neg : Bool) (a b : Nat) (e : Int) :
    (Double.round neg a b e).neg = neg := by
  unfold Double.round
  simp only
  split_ifs <;> rfl

theorem Double.oneE9_eq : Double.oneE9 = ⟨false, 8388608000000000, -23⟩ := by decide

theorem Double.toRat_oneE9 : Double.toRat Double.oneE9 = 1000000000 := by
  rw [Double.oneE9_eq]
  norm_num [Double.toRat]

/-- The value of `static_cast<double>(t) / 1000000000.0` for a `uint64_t` `t`:
it is within `2 ^ -51` of `t / 10 ^ 9`, relatively; for `t` below `2 ^ 53`
(where the conversion to `double` is exact) it is within `2 ^ -53` of
`t / 10 ^ 9`, the one rounding of the division, and it is `t / 10 ^ 9` itself
whenever that is a value a double can hold. -/
theorem timestamp_value (t : Nat) (ht : t < 2 ^ 64) :
    |Double.toRat (Double.div (Double.ofUInt64 t) Double.oneE9) - (t : ℚ) / 10 ^ 9|
      ≤ (t : ℚ) / 10 ^ 9 / 2 ^ 51 ∧
    (t < 2 ^ 53 →
      |Double.toRat (Double.div (Double.ofUInt64 t) Double.oneE9) - (t : ℚ) / 10 ^ 9|
        ≤ (t : ℚ) / 10 ^ 9 / 2 ^ 53) ∧
    (t < 2 ^ 53 → ∀ (n : Nat) (j : Int), n < 2 ^ 53 → (t : ℚ) / 10 ^ 9 = (n : ℚ) * 2 ^ j →
      Double.toRat (Double.div (Double.ofUInt64 t) Double.oneE9) = (t : ℚ) / 10 ^ 9) := by
  rcases Nat.eq_zero_or_pos t with h0 | hpos
  · subst h0
    have : Double.div (Double.ofUInt64 0) Double.oneE9 = ⟨false, 0, 0⟩ := by
      rw [Double.oneE9_eq]
      simp [Double.div, Double.ofUInt64, Double.round]
    rw [this]
    simp [Double.toRat]
  · have hmod : t % 2 ^ 64 = t := Nat.mod_eq_of_lt ht
    obtain ⟨s1, m1, -, -, -, -, hneg1, hsig1, hsig1'⟩ :=
      Double.round_structure false t 1 0 hpos Nat.one_pos
    have herr1 := Double.round_error false t 1 0 hpos Nat.one_pos
    have hex1 := Double.round_exact false t 1 0 hpos Nat.one_pos
    have hT : Double.div (Double.ofUInt64 t) Double.oneE9
        = Double.round false (Double.round false t 1 0).sig 8388608000000000
            ((Double.round false t 1 0).exp - (-23)) := by
      simp only [Double.div, Double.ofUInt64, hmod, Double.oneE9_eq, hneg1]
      rfl
    have hsp : 0 < (Double.round false t 1 0).sig := by omega
    have herr2 := Double.round_error false (Double.round false t 1 0).sig 8388608000000000
      ((Double.round false t 1 0).exp - (-23)) hsp (by norm_num)
    have hex2 := Double.round_exact false (Double.round false t 1 0).sig 8388608000000000
      ((Double.round false t 1 0).exp - (-23)) hsp (by norm_num)
    have hval : ∀ d : Double, d.neg = false → Double.toRat d = (d.sig : ℚ) * 2 ^ d.exp := by
      intro d hd
      simp [Double.toRat, hd]
    rw [hT, hval _ (Double.round_neg _ _ _ _)]
    have two : (2 : ℚ) ≠ 0 := two_ne_zero
    -- the exact quotient of the division
    have hq : (((Double.round false t 1 0).sig : ℕ) : ℚ) / ((8388608000000000 : ℕ) : ℚ)
          * 2 ^ ((Double.round false t 1 0).exp - (-23))
        = ((Double.round false t 1 0).sig : ℚ) * 2 ^ (Double.round false t 1 0).exp / 10 ^ 9 := by
      rw [sub_neg_eq_add, zpow_add₀ two]
      norm_num
      ring
    rw [hq] at herr2 hex2
    have h1 : ((t : ℕ) : ℚ) / ((1 : ℕ) : ℚ) * 2 ^ (0 : ℤ) = (t : ℚ) := by simp
    rw [h1] at herr1 hex1
    generalize ((Double.round false t 1 0).sig : ℚ) * 2 ^ (Double.round false t 1 0).exp = v1
      at herr1 hex1 herr2 hex2
    generalize ((Double.round false (Double.round false t 1 0).sig 8388608000000000
      ((Double.round false t 1 0).exp - (-23))).sig : ℚ) *
      2 ^ (Double.round false (Double.round false t 1 0).sig 8388608000000000
      ((Double.round false t 1 0).exp - (-23))).exp = v at herr2 hex2 ⊢
    have htq : (0 : ℚ) < t := by exact_mod_cast hpos
    refine ⟨?_, ?_, ?_⟩
    · rw [abs_le] at herr1 herr2 ⊢
      constructor <;> linarith
    · intro h53
      have hv1 : v1 = t := hex1 t 0 h53 (by simp)
      rw [hv1] at herr2
      exact herr2
    · intro h53 n j hn hrep
      have hv1 : v1 = t := hex1 t 0 h53 (by simp)
      rw [hv1] at hex2
      exact hex2 n j hn hrep

/-- The inner loop of `ProcessSubscribeResponsePacket` when the name is
pending and available: the first pending entry of that name is removed, the
Available descriptor is stored under the identifier, the timestamp is stored
and the two events are emitted. -/
theorem scan_found (self : LowLatencyDataClient) (it : LowLatencyDataClient.SubscribedEntry)
    (ci : ChannelInfo) (hav : mapFind self.m_mAvailableChannelsList it.sName = some ci) :
    ∀ (rest before : List ChannelInfo), (∃ e ∈ rest, e.sName = it.sName) →
      LowLatencyDataClient.ProcessSubscribeResponsePacket.scan self it before rest =
        { self with
          m_mSubscribedChannelsList := mapAssign self.m_mSubscribedChannelsList it.nId ci
          m_vPendingSubscribeChannelsList :=
            before ++ rest.eraseP (fun e => decide (e.sName = it.sName))
          m_mFSTS := mapAssign self.m_mFSTS it.sName
            (Double.div (Double.ofUInt64 it.fsts_ns) Double.oneE9)
          events := self.events ++
            [.CHANNEL_SUBSCRIBED it.sName it.nId,
             .CHANNEL_FIRST_SAMPLE_TS it.sName it.nId
               (Double.div (Double.ofUInt64 it.fsts_ns) Double.oneE9)] } := by
  intro rest
  induction rest with
  | nil => intro before h; simp at h
  | cons e rest ih =>
    intro before h
    simp only [LowLatencyDataClient.ProcessSubscribeResponsePacket.scan]
    by_cases hn : e.sName = it.sName
    · rw [if_pos hn]
      simp only [hav, mapFind_mapAssign_self, Option.getD_some]
      simp [List.eraseP_cons, hn]
    · rw [if_neg hn]
      simp only [List.mem_cons, exists_eq_or_imp] at h
      rcases h with h | h
      · exact absurd h hn
      · rw [ih (before ++ [e]) h]
        simp [List.eraseP_cons, hn]

/-- C10: subscribe confirmation effect.  In a registry where the name is
pending and available (Available holding under each name a descriptor of
that name), processing a `subscribed` message with the one entry
`{name, id, first_sample_timestamp_ns: t}` leaves `Subscribed[id].name == name`,
stores for the name a timestamp `ts`, and emits `CHANNEL_SUBSCRIBED(name, id)`
followed by `CHANNEL_FIRST_SAMPLE_TS(name, id, ts)` and nothing else.  The
timestamp `ts` is the double `static_cast<double>(t) / 1000000000.0`; as a
number it is `t / 10 ^ 9` up to the rounding of doubles: within `2 ^ -51` of
it, relatively, for every `uint64_t` `t`; within `2 ^ -53` for `t < 2 ^ 53`;
and `t / 10 ^ 9` itself whenever `t < 2 ^ 53` and `t / 10 ^ 9` is a value a
double can hold (`n * 2 ^ j` with `n < 2 ^ 53`). -/
theorem subscribe_confirmation_effect (self : LowLatencyDataClient) (sName : String)
    (nId : Int) (fsts_ns : Nat)
    (hp : ∃ e ∈ self.m_vPendingSubscribeChannelsList, e.sName = sName)
    (ha : (mapFind self.m_mAvailableChannelsList sName).isSome = true)
    (hn : LowLatencyDataClient.AvailableNamed self) :
    (∃ ci, mapFind (LowLatencyDataClient.ProcessSubscribeResponsePacket self
          [⟨sName, nId, fsts_ns⟩]).m_mSubscribedChannelsList nId = some ci ∧
        ci.sName = sName) ∧
    ∃ ts : Double,
      ts = Double.div (Double.ofUInt64 fsts_ns) Double.oneE9 ∧
      mapFind (LowLatencyDataClient.ProcessSubscribeResponsePacket self
          [⟨sName, nId, fsts_ns⟩]).m_mFSTS sName = some ts ∧
      (LowLatencyDataClient.ProcessSubscribeResponsePacket self
          [⟨sName, nId, fsts_ns⟩]).events
        = self.events ++
          [.CHANNEL_SUBSCRIBED sName nId, .CHANNEL_FIRST_SAMPLE_TS sName nId ts] ∧
      (fsts_ns < 2 ^ 64 →
        |Double.toRat ts - (fsts_ns : ℚ) / 10 ^ 9| ≤ (fsts_ns : ℚ) / 10 ^ 9 / 2 ^ 51) ∧
      (fsts_ns < 2 ^ 53 →
        |Double.toRat ts - (fsts_ns : ℚ) / 10 ^ 9| ≤ (fsts_ns : ℚ) / 10 ^ 9 / 2 ^ 53) ∧
      (fsts_ns < 2 ^ 53 → ∀ (n : Nat) (j : Int), n < 2 ^ 53 →
        (fsts_ns : ℚ) / 10 ^ 9 = (n : ℚ) * 2 ^ j →
        Double.toRat ts = (fsts_ns : ℚ) / 10 ^ 9) := by
  obtain ⟨ci, hci⟩ := Option.isSome_iff_exists.mp ha
  have hname : ci.sName = sName := hn (sName, ci) (mapFind_mem _ _ _ hci)
  simp only [LowLatencyDataClient.ProcessSubscribeResponsePacket]
  rw [scan_found self ⟨sName, nId, fsts_ns⟩ ci hci _ [] hp]
  refine ⟨⟨ci, ?_, hname⟩, _, rfl, ?_, rfl, ?_, ?_, ?_⟩
  · simp only [mapFind_mapAssign_self]
  · simp only [mapFind_mapAssign_self]
  · intro ht
    exact (timestamp_value fsts_ns ht).1
  · intro ht
    exact (timestamp_value fsts_ns (by omega)).2.1 ht
  · intro ht
    exact (timestamp_value fsts_ns (by omega)).2.2 ht

/-- The timestamp of the sample confirmation: 5000000000 ns is 5.0 s. -/
theorem sample_timestamp :
    Double.div (Double.ofUInt64 5000000000) Double.oneE9 = ⟨false, 5629499534213120, -50⟩ ∧
    Double.toRat ⟨false, 5629499534213120, -50⟩ = 5 := by
  refine ⟨by decide, ?_⟩
  norm_num [Double.toRat]

/-- Witness of C10: the confirmation
`{name:"temp", id:3, first_sample_timestamp_ns:5000000000}` stores and reports
the double `5629499534213120 * 2 ^ -50`, which is 5.0. -/
theorem subscribe_confirmation_effect_witness :
    (∃ ci, mapFind (LowLatencyDataClient.ProcessSubscribeResponsePacket tempClient
          [⟨"temp", 3, 5000000000⟩]).m_mSubscribedChannelsList 3 = some ci ∧
        ci.sName = "temp") ∧
    mapFind (LowLatencyDataClient.ProcessSubscribeResponsePacket tempClient
        [⟨"temp", 3, 5000000000⟩]).m_mFSTS "temp" = some ⟨false, 5629499534213120, -50⟩ ∧
    Double.toRat ⟨false, 5629499534213120, -50⟩ = 5 ∧
    (LowLatencyDataClient.ProcessSubscribeResponsePacket tempClient
        [⟨"temp", 3, 5000000000⟩]).events
      = [.CHANNEL_SUBSCRIBED "temp" 3,
         .CHANNEL_FIRST_SAMPLE_TS "temp" 3 ⟨false, 5629499534213120, -50⟩] := by
  obtain ⟨h1, ts, hts, h2, h3, -, -, h6⟩ :=
    subscribe_confirmation_effect tempClient "temp" 3 5000000000
      ⟨sampleChannel "temp" 4, by decide, by decide⟩ (by decide) (by decide)
  have hv := h6 (by norm_num) 5 0 (by norm_num) (by norm_num)
  rw [sample_timestamp.1] at hts
  subst hts
  refine ⟨h1, h2, ?_, h3⟩
  rw [hv]
  norm_num

/-- Available keeps holding under each name a descriptor of that name when an
`available` message is processed. -/
theorem ProcessAvailableChannelsPacket_named (l : List LowLatencyDataClient.AvailableEntry) :
    ∀ self : LowLatencyDataClient, LowLatencyDataClient.AvailableNamed self →
      LowLatencyDataClient.AvailableNamed
        (LowLatencyDataClient.ProcessAvailableChannelsPacket self l) := by
  induction l with
  | nil => intro self h; exact h
  | cons it rest ih =>
    intro self h
    simp only [LowLatencyDataClient.ProcessAvailableChannelsPacket]
    split
    · exact ih self h
    · apply ih
      intro e he
      rcases mem_mapAssign _ _ _ _ he with rfl | he
      · rfl
      · exact h e he

/-- The inner loop of `ProcessSubscribeResponsePacket` keeps the identifiers
of Subscribed in ascending order and does not touch Available. -/
theorem scan_sorted (self : LowLatencyDataClient) (it : LowLatencyDataClient.SubscribedEntry)
    (hs : (self.m_mSubscribedChannelsList.map Prod.fst).Pairwise (· < ·)) :
    ∀ (rest before : List ChannelInfo),
      (((LowLatencyDataClient.ProcessSubscribeResponsePacket.scan self it before
          rest).m_mSubscribedChannelsList.map Prod.fst).Pairwise (· < ·)) ∧
      (LowLatencyDataClient.ProcessSubscribeResponsePacket.scan self it before
          rest).m_mAvailableChannelsList = self.m_mAvailableChannelsList := by
  intro rest
  induction rest with
  | nil => intro before; exact ⟨hs, rfl⟩
  | cons e rest ih =>
    intro before
    simp only [LowLatencyDataClient.ProcessSubscribeResponsePacket.scan]
    split
    · split
      · exact ih _
      · exact ⟨mapAssign_sorted (fun _ _ _ => Int.lt_trans) int_lt_of_ne _ _ _ hs, rfl⟩
    · exact ih _

/-- Processing a `subscribed` message keeps the identifiers of Subscribed in
ascending order, as a `std::map` has them. -/
theorem ProcessSubscribeResponsePacket_sorted (l : List LowLatencyDataClient.SubscribedEntry) :
    ∀ self : LowLatencyDataClient,
      (self.m_mSubscribedChannelsList.map Prod.fst).Pairwise (· < ·) →
      ((LowLatencyDataClient.ProcessSubscribeResponsePacket self
        l).m_mSubscribedChannelsList.map Prod.fst).Pairwise (· < ·) := by
  induction l with
  | nil => intro self h; exact h
  | cons it rest ih =>
    intro self h
    simp only [LowLatencyDataClient.ProcessSubscribeResponsePacket]
    exact ih _ (scan_sorted self it h _ _).1


/-! ## Inbound control messages -/

theorem eraseP_none_of_countP_one {α : Type} (p : α → Bool) (l : List α)
    (h : l.countP p = 1) : ∀ e ∈ l.eraseP p, p e = false := by
  induction l with
  | nil => simp at h
  | cons x rest ih =>
    by_cases hx : p x = true
    · simp only [List.countP_cons_of_pos _ _ hx] at h
      have h0 : rest.countP p = 0 := by omega
      rw [List.eraseP_cons_of_pos hx]
      intro e he
      rw [List.countP_eq_zero] at h0
      simpa using h0 e he
    · simp only [List.countP_cons_of_neg _ _ hx] at h
      rw [List.eraseP_cons_of_neg hx]
      intro e he
      simp only [List.mem_cons] at he
      rcases he with rfl | he
      · simpa using hx
      · exact ih h e he

/-- C11, as stated, fails: with two subscribe requests for `"temp"` pending,
one confirmation for `"temp"` leaves an entry named `"temp"` in Pending. -/
theorem confirmation_leaves_duplicate_pending :
    (∃ e ∈ twicePendingClient.m_vPendingSubscribeChannelsList, e.sName = "temp") ∧
    (mapFind twicePendingClient.m_mAvailableChannelsList "temp").isSome = true ∧
    ∃ e ∈ (LowLatencyDataClient.ProcessSubscribeResponsePacket twicePendingClient
        [⟨"temp", 3, 5000000000⟩]).m_vPendingSubscribeChannelsList, e.sName = "temp" := by
  refine ⟨⟨sampleChannel "temp" 4, by decide, by decide⟩, by decide,
    sampleChannel "temp" 2, by decide, by decide⟩

/-- C11, amended: in a registry where the name is pending and available, a
`subscribed` confirmation for it removes the first Pending entry of that name
and keeps the others in order; when Pending held exactly one entry of that
name, no entry of that name is left. -/
theorem confirmation_removes_first_pending (self : LowLatencyDataClient) (sName : String)
    (nId : Int) (fsts_ns : Nat)
    (hp : ∃ e ∈ self.m_vPendingSubscribeChannelsList, e.sName = sName)
    (ha : (mapFind self.m_mAvailableChannelsList sName).isSome = true) :
    (LowLatencyDataClient.ProcessSubscribeResponsePacket self
        [⟨sName, nId, fsts_ns⟩]).m_vPendingSubscribeChannelsList
      = self.m_vPendingSubscribeChannelsList.eraseP (fun e => decide (e.sName = sName)) ∧
    (self.m_vPendingSubscribeChannelsList.countP (fun e => decide (e.sName = sName)) = 1 →
      ∀ e ∈ (LowLatencyDataClient.ProcessSubscribeResponsePacket self
        [⟨sName, nId, fsts_ns⟩]).m_vPendingSubscribeChannelsList, e.sName ≠ sName) := by
  obtain ⟨ci, hci⟩ := Option.isSome_iff_exists.mp ha
  have hres : (LowLatencyDataClient.ProcessSubscribeResponsePacket self
        [⟨sName, nId, fsts_ns⟩]).m_vPendingSubscribeChannelsList
      = self.m_vPendingSubscribeChannelsList.eraseP (fun e => decide (e.sName = sName)) := by
    simp only [LowLatencyDataClient.ProcessSubscribeResponsePacket]
    rw [scan_found self ⟨sName, nId, fsts_ns⟩ ci hci _ [] hp]
    simp
  refine ⟨hres, ?_⟩
  intro hc e he
  rw [hres] at he
  have := eraseP_none_of_countP_one _ _ hc e he
  simpa using this

/-- Witness of the amended C11: the one pending request for `"temp"`. -/
theorem confirmation_removes_first_pending_witness :
    (LowLatencyDataClient.ProcessSubscribeResponsePacket tempClient
        [⟨"temp", 3, 5000000000⟩]).m_vPendingSubscribeChannelsList = [] ∧
    (tempClient.m_vPendingSubscribeChannelsList.countP (fun e => decide (e.sName = "temp")) = 1 →
      ∀ e ∈ (LowLatencyDataClient.ProcessSubscribeResponsePacket tempClient
        [⟨"temp", 3, 5000000000⟩]).m_vPendingSubscribeChannelsList, e.sName ≠ "temp") := by
  have h := confirmation_removes_first_pending tempClient "temp" 3 5000000000
    ⟨sampleChannel "temp" 4, by decide, by decide⟩ (by decide)
  exact ⟨by decide, h.2⟩


theorem reset_eq (l : List (Int × ChannelInfo)) :
    ∀ self : LowLatencyDataClient,
      LowLatencyDataClient.ProcessAcquisitionStatePacket.reset self l =
        { self with
          m_mFSTS := resetTimestamps self.m_mFSTS l
          events := self.events ++
            l.map (fun e => Event.CHANNEL_FIRST_SAMPLE_TS e.2.sName e.1 Double.zero) } := by
  induction l with
  | nil => intro self; simp [LowLatencyDataClient.ProcessAcquisitionStatePacket.reset,
      resetTimestamps]
  | cons e rest ih =>
    intro self
    simp only [LowLatencyDataClient.ProcessAcquisitionStatePacket.reset, ih,
      mapFind_mapAssign_self, Option.getD_some, resetTimestamps, List.map_cons,
      List.append_assoc, List.singleton_append]

theorem resetTimestamps_find (l : List (Int × ChannelInfo)) :
    ∀ (fsts : List (String × Double)) (sName : String),
      mapFind (resetTimestamps fsts l) sName =
        if sName ∈ l.map (fun e => e.2.sName) then some Double.zero else mapFind fsts sName := by
  induction l with
  | nil => intro fsts sName; simp [resetTimestamps]
  | cons e rest ih =>
    intro fsts sName
    simp only [resetTimestamps, ih, List.map_cons, List.mem_cons]
    by_cases h1 : sName ∈ rest.map (fun e => e.2.sName)
    · simp [h1]
    · by_cases h2 : sName = e.2.sName
      · subst h2
        simp [h1, mapFind_mapAssign_self]
      · simp [h1, h2, mapFind_mapAssign_ne _ _ _ _ h2]

/-- C12: acquisition off.  Processing `{"acquisition_state": "off"}` sets the
first-sample timestamp of every channel in Subscribed to 0.0 (and no other),
sets the acquisition flag to false, and emits one `CHANNEL_FIRST_SAMPLE_TS`
event with value 0.0 per Subscribed entry, in the order of the identifiers,
followed by one `ACQUIRE` event with value false; Available, Pending,
Subscribed and the socket output are unchanged. -/
theorem acquisition_off (self : LowLatencyDataClient) :
    (∀ e ∈ self.m_mSubscribedChannelsList,
      mapFind (LowLatencyDataClient.ProcessAcquisitionStatePacket self "off").m_mFSTS e.2.sName
        = some Double.zero) ∧
    (∀ sName, sName ∉ self.m_mSubscribedChannelsList.map (fun e => e.2.sName) →
      mapFind (LowLatencyDataClient.ProcessAcquisitionStatePacket self "off").m_mFSTS sName
        = mapFind self.m_mFSTS sName) ∧
    (LowLatencyDataClient.ProcessAcquisitionStatePacket self "off").m_bAcquisitionState = false ∧
    (LowLatencyDataClient.ProcessAcquisitionStatePacket self "off").events =
      self.events ++
        self.m_mSubscribedChannelsList.map
          (fun e => Event.CHANNEL_FIRST_SAMPLE_TS e.2.sName e.1 Double.zero) ++
        [Event.ACQUIRE false] ∧
    (LowLatencyDataClient.ProcessAcquisitionStatePacket self "off").m_mAvailableChannelsList
      = self.m_mAvailableChannelsList ∧
    (LowLatencyDataClient.ProcessAcquisitionStatePacket self "off").m_vPendingSubscribeChannelsList
      = self.m_vPendingSubscribeChannelsList ∧
    (LowLatencyDataClient.ProcessAcquisitionStatePacket self "off").m_mSubscribedChannelsList
      = self.m_mSubscribedChannelsList ∧
    (LowLatencyDataClient.ProcessAcquisitionStatePacket self "off").sent = self.sent := by
  have h : LowLatencyDataClient.ProcessAcquisitionStatePacket self "off" =
      { self with
        m_mFSTS := resetTimestamps self.m_mFSTS self.m_mSubscribedChannelsList
        m_bAcquisitionState := false
        events := self.events ++
          self.m_mSubscribedChannelsList.map
            (fun e => Event.CHANNEL_FIRST_SAMPLE_TS e.2.sName e.1 Double.zero) ++
          [Event.ACQUIRE false] } := by
    simp only [LowLatencyDataClient.ProcessAcquisitionStatePacket, if_true, reset_eq]
  rw [h]
  refine ⟨?_, ?_, rfl, rfl, rfl, rfl, rfl, rfl⟩
  · intro e he
    simp only [resetTimestamps_find]
    rw [if_pos (List.mem_map_of_mem _ he)]
  · intro sName hn
    simp only [resetTimestamps_find]
    rw [if_neg hn]

/-- The effect of an `unsubscribed` message on one name. -/
theorem ProcessUnsubscribeResponsePacket_one (self : LowLatencyDataClient) (sName : String) :
    LowLatencyDataClient.ProcessUnsubscribeResponsePacket self [sName] =
      match self.m_mSubscribedChannelsList.find? (fun e => decide (e.2.sName = sName)) with
      | some sit =>
        { self with
          events := self.events ++ [Event.CHANNEL_UNSUBSCRIBED sit.1]
          m_mSubscribedChannelsList :=
            self.m_mSubscribedChannelsList.eraseP (fun e => decide (e.2.sName = sName)) }
      | none => self := by
  simp only [LowLatencyDataClient.ProcessUnsubscribeResponsePacket]

theorem ProcessUnsubscribeResponsePacket_frame (names : List String) :
    ∀ self : LowLatencyDataClient,
      (LowLatencyDataClient.ProcessUnsubscribeResponsePacket self names).m_mAvailableChannelsList
        = self.m_mAvailableChannelsList ∧
      (LowLatencyDataClient.ProcessUnsubscribeResponsePacket self
          names).m_vPendingSubscribeChannelsList
        = self.m_vPendingSubscribeChannelsList ∧
      (LowLatencyDataClient.ProcessUnsubscribeResponsePacket self
          names).m_mSubscribedChannelsList.Sublist self.m_mSubscribedChannelsList := by
  induction names with
  | nil => intro self; exact ⟨rfl, rfl, List.Sublist.refl _⟩
  | cons n rest ih =>
    intro self
    simp only [LowLatencyDataClient.ProcessUnsubscribeResponsePacket]
    split
    · obtain ⟨h1, h2, h3⟩ := ih { self with
          events := self.events ++ [Event.CHANNEL_UNSUBSCRIBED _]
          m_mSubscribedChannelsList :=
            self.m_mSubscribedChannelsList.eraseP (fun e => decide (e.2.sName = n)) }
      exact ⟨h1, h2, h3.trans (List.eraseP_sublist _)⟩
    · exact ih self

/-- C14: unsubscribe confirmation.  An `unsubscribed` array is processed
name by name.  For a name that some Subscribed entry carries, the first such
entry (the one with the smallest identifier) is removed from Subscribed and
`CHANNEL_UNSUBSCRIBED` is emitted with its identifier, and nothing else
changes; for a name no Subscribed entry carries, nothing changes and no
event is emitted.  The whole message leaves Available and Pending as they
are. -/
theorem unsubscribe_confirmation (self : LowLatencyDataClient) :
    (∀ sName, (∃ e ∈ self.m_mSubscribedChannelsList, e.2.sName = sName) →
      ∃ sit before after,
        self.m_mSubscribedChannelsList = before ++ sit :: after ∧
        sit.2.sName = sName ∧ (∀ e ∈ before, e.2.sName ≠ sName) ∧
        LowLatencyDataClient.ProcessUnsubscribeResponsePacket self [sName] =
          { self with
            events := self.events ++ [Event.CHANNEL_UNSUBSCRIBED sit.1]
            m_mSubscribedChannelsList := before ++ after }) ∧
    (∀ sName, (∀ e ∈ self.m_mSubscribedChannelsList, e.2.sName ≠ sName) →
      LowLatencyDataClient.ProcessUnsubscribeResponsePacket self [sName] = self) ∧
    (∀ sName rest, LowLatencyDataClient.ProcessUnsubscribeResponsePacket self (sName :: rest) =
      LowLatencyDataClient.ProcessUnsubscribeResponsePacket
        (LowLatencyDataClient.ProcessUnsubscribeResponsePacket self [sName]) rest) ∧
    (∀ names,
      (LowLatencyDataClient.ProcessUnsubscribeResponsePacket self names).m_mAvailableChannelsList
        = self.m_mAvailableChannelsList ∧
      (LowLatencyDataClient.ProcessUnsubscribeResponsePacket self
          names).m_vPendingSubscribeChannelsList
        = self.m_vPendingSubscribeChannelsList) := by
  refine ⟨?_, ?_, ?_, ?_⟩
  · rintro sName ⟨e, he, hn⟩
    rw [ProcessUnsubscribeResponsePacket_one]
    have hp : (fun e : Int × ChannelInfo => decide (e.2.sName = sName)) e = true := by
      simpa using hn
    obtain ⟨a, l1, l2, h1, h2, h3, h4⟩ :=
      List.exists_of_eraseP (p := fun e : Int × ChannelInfo => decide (e.2.sName = sName)) he hp
    have hfind : self.m_mSubscribedChannelsList.find?
        (fun e => decide (e.2.sName = sName)) = some a := by
      rw [h3, List.find?_append]
      have : l1.find? (fun e => decide (e.2.sName = sName)) = none := by
        rw [List.find?_eq_none]
        exact h1
      rw [this]
      simp [List.find?_cons, h2]
    refine ⟨a, l1, l2, h3, by simpa using h2, ?_, ?_⟩
    · intro x hx
      simpa using h1 x hx
    · rw [hfind, h4]
  · intro sName hall
    rw [ProcessUnsubscribeResponsePacket_one]
    have : self.m_mSubscribedChannelsList.find? (fun e => decide (e.2.sName = sName)) = none := by
      rw [List.find?_eq_none]
      intro x hx
      simpa using hall x hx
    rw [this]
  · intro sName rest
    rw [ProcessUnsubscribeResponsePacket_one]
    simp only [LowLatencyDataClient.ProcessUnsubscribeResponsePacket]
    split <;> rfl
  · intro names
    exact ⟨(ProcessUnsubscribeResponsePacket_frame names self).1,
      (ProcessUnsubscribeResponsePacket_frame names self).2.1⟩

/-- Witness of C14: unsubscribing `"a"`, subscribed under 1 next to `"b"`
under 2. -/
theorem unsubscribe_confirmation_witness :
    ∃ sit before after,
      twoSubscribedClient.m_mSubscribedChannelsList = before ++ sit :: after ∧
      sit.2.sName = "a" ∧ (∀ e ∈ before, e.2.sName ≠ "a") ∧
      LowLatencyDataClient.ProcessUnsubscribeResponsePacket twoSubscribedClient ["a"] =
        { twoSubscribedClient with
          events := twoSubscribedClient.events ++ [Event.CHANNEL_UNSUBSCRIBED sit.1]
          m_mSubscribedChannelsList := before ++ after } :=
  (unsubscribe_confirmation twoSubscribedClient).1 "a"
    ⟨(1, sampleChannel "a" 1), by decide, by decide⟩

theorem ProcessAvailableChannelsPacket_effect (l : List LowLatencyDataClient.AvailableEntry) :
    ∀ self : LowLatencyDataClient, (l.map (fun it => it.sName)).Nodup →
      (∀ it ∈ l, mapFind self.m_mAvailableChannelsList it.sName = none →
        mapFind (LowLatencyDataClient.ProcessAvailableChannelsPacket self
          l).m_mAvailableChannelsList it.sName = some it.descriptor) ∧
      (∀ sName, (mapFind self.m_mAvailableChannelsList sName).isSome = true →
        mapFind (LowLatencyDataClient.ProcessAvailableChannelsPacket self
          l).m_mAvailableChannelsList sName = mapFind self.m_mAvailableChannelsList sName) ∧
      (∀ sName, sName ∉ l.map (fun it => it.sName) →
        mapFind (LowLatencyDataClient.ProcessAvailableChannelsPacket self
          l).m_mAvailableChannelsList sName = mapFind self.m_mAvailableChannelsList sName) ∧
      LowLatencyDataClient.ProcessAvailableChannelsPacket self l =
        { self with
          m_mAvailableChannelsList :=
            (LowLatencyDataClient.ProcessAvailableChannelsPacket self l).m_mAvailableChannelsList
          events := self.events ++
            (l.filter (fun it => (mapFind self.m_mAvailableChannelsList it.sName).isNone)).map
              (fun it => Event.AVAILABLE_CHANNEL it.descriptor) } := by
  simp only [LowLatencyDataClient.AvailableEntry.descriptor]
  induction l with
  | nil =>
    intro self _
    simp [LowLatencyDataClient.ProcessAvailableChannelsPacket]
  | cons it rest ih =>
    intro self hnd
    simp only [List.map_cons, List.nodup_cons] at hnd
    obtain ⟨hnotin, hnd'⟩ := hnd
    simp only [LowLatencyDataClient.ProcessAvailableChannelsPacket]
    cases hav : mapFind self.m_mAvailableChannelsList it.sName with
    | some ci0 =>
      simp only [Option.isSome_some, if_true]
      obtain ⟨h1, h2, h3, h4⟩ := ih self hnd'
      refine ⟨?_, h2, ?_, ?_⟩
      · intro it' hit' hnone
        simp only [List.mem_cons] at hit'
        rcases hit' with rfl | hit'
        · rw [hav] at hnone; simp at hnone
        · exact h1 it' hit' hnone
      · intro sName hn
        simp only [List.map_cons, List.mem_cons, not_or] at hn
        exact h3 sName hn.2
      · rw [h4]
        simp [List.filter_cons, hav]
    | none =>
      simp only [Option.isSome_none, Bool.false_eq_true, if_false]
      obtain ⟨h1, h2, h3, h4⟩ := ih
        { self with
          m_mAvailableChannelsList :=
            mapAssign self.m_mAvailableChannelsList it.sName it.descriptor
          events := self.events ++ [Event.AVAILABLE_CHANNEL it.descriptor] } hnd'
      simp only [LowLatencyDataClient.AvailableEntry.descriptor] at h1 h2 h3 h4
      have hne : ∀ it' ∈ rest, it'.sName ≠ it.sName := by
        intro it' hit' heq
        exact hnotin (by rw [← heq]; exact List.mem_map_of_mem _ hit')
      refine ⟨?_, ?_, ?_, ?_⟩
      · intro it' hit' hnone
        simp only [List.mem_cons] at hit'
        rcases hit' with rfl | hit'
        · have := h2 it'.sName (by rw [mapFind_mapAssign_self]; rfl)
          rw [mapFind_mapAssign_self] at this
          exact this
        · apply h1 it' hit'
          rw [mapFind_mapAssign_ne _ _ _ _ (hne it' hit')]
          exact hnone
      · intro sName hs
        have hne' : sName ≠ it.sName := by
          intro heq
          rw [heq, hav] at hs
          simp at hs
        have := h2 sName (by rw [mapFind_mapAssign_ne _ _ _ _ hne']; exact hs)
        rw [mapFind_mapAssign_ne _ _ _ _ hne'] at this
        exact this
      · intro sName hn
        simp only [List.map_cons, List.mem_cons, not_or] at hn
        rw [h3 sName hn.2, mapFind_mapAssign_ne _ _ _ _ hn.1]
      · have hfilter : ∀ ci : ChannelInfo, rest.filter (fun it' =>
            (mapFind (mapAssign self.m_mAvailableChannelsList it.sName ci)
              it'.sName).isNone)
            = rest.filter (fun it' =>
              (mapFind self.m_mAvailableChannelsList it'.sName).isNone) := by
          intro ci
          apply List.filter_congr
          intro it' hit'
          rw [mapFind_mapAssign_ne _ _ _ _ (hne it' hit')]
        rw [hfilter] at h4
        exact h4.trans (by simp [List.filter_cons, hav])

/-- C15: availability notice.  For an `available` object (its names are
distinct), each name not yet in Available is inserted with the descriptor
fields of the message and decimation factor 1, and one `AVAILABLE_CHANNEL`
event carrying that descriptor is emitted, in the order of the object; each
name already in Available keeps its descriptor and emits no event; nothing
else changes. -/
theorem availability_notice (self : LowLatencyDataClient)
    (l : List LowLatencyDataClient.AvailableEntry) (hnd : (l.map (fun it => it.sName)).Nodup) :
    (∀ it ∈ l, mapFind self.m_mAvailableChannelsList it.sName = none →
      mapFind (LowLatencyDataClient.ProcessAvailableChannelsPacket self
        l).m_mAvailableChannelsList it.sName = some it.descriptor ∧
      it.descriptor.nDecimationFactor = 1) ∧
    (∀ sName, (mapFind self.m_mAvailableChannelsList sName).isSome = true →
      mapFind (LowLatencyDataClient.ProcessAvailableChannelsPacket self
        l).m_mAvailableChannelsList sName = mapFind self.m_mAvailableChannelsList sName) ∧
    (LowLatencyDataClient.ProcessAvailableChannelsPacket self l).events =
      self.events ++
        (l.filter (fun it => (mapFind self.m_mAvailableChannelsList it.sName).isNone)).map
          (fun it => Event.AVAILABLE_CHANNEL it.descriptor) ∧
    (LowLatencyDataClient.ProcessAvailableChannelsPacket self l).m_vPendingSubscribeChannelsList
      = self.m_vPendingSubscribeChannelsList ∧
    (LowLatencyDataClient.ProcessAvailableChannelsPacket self l).m_mSubscribedChannelsList
      = self.m_mSubscribedChannelsList ∧
    (LowLatencyDataClient.ProcessAvailableChannelsPacket self l).m_mFSTS = self.m_mFSTS ∧
    (LowLatencyDataClient.ProcessAvailableChannelsPacket self l).sent = self.sent := by
  obtain ⟨h1, h2, _, h4⟩ := ProcessAvailableChannelsPacket_effect l self hnd
  refine ⟨fun it hit hnone => ⟨h1 it hit hnone, rfl⟩, h2, ?_, ?_, ?_, ?_, ?_⟩ <;> rw [h4]

/-- Witness of C15: an object naming `"a"`, already available, and `"new"`. -/
theorem availability_notice_witness :
    (LowLatencyDataClient.ProcessAvailableChannelsPacket tempClient
        [sampleAvailable "a", sampleAvailable "new"]).events
      = [Event.AVAILABLE_CHANNEL (sampleAvailable "new").descriptor] ∧
    mapFind (LowLatencyDataClient.ProcessAvailableChannelsPacket tempClient
        [sampleAvailable "a", sampleAvailable "new"]).m_mAvailableChannelsList "a"
      = some (sampleChannel "a" 1) := by
  have h := availability_notice tempClient [sampleAvailable "a", sampleAvailable "new"]
    (by decide)
  exact ⟨h.2.2.1, (h.2.1 "a" (by decide)).trans (by decide)⟩

/-- C16: data sample count.  For a data packet whose id is a key of
Subscribed and whose header length `L` is at least 8, `ProcessPacket` emits
one `CHANNEL_DATA` event carrying that id and the sample count
`(L - 8) / 4`, rounded down, and changes nothing else. -/
theorem data_sample_count (c : Constants) (ord : ByteOrder) (dump : Json → List Nat)
    (parse : List Nat → Option LowLatencyDataClient.ControlJson) (self : LowLatencyDataClient)
    (pHeader : Packet) (hroute : ProcessPacket.route c pHeader = .data)
    (hsub : (mapFind self.m_mSubscribedChannelsList (int32OfUInt32 pHeader.id)).isSome = true)
    (h8 : 8 ≤ pHeader.length) (h32 : pHeader.length < 4294967296) :
    LowLatencyDataClient.ProcessPacket c ord dump parse self pHeader =
      some { self with events := self.events ++
          [Event.CHANNEL_DATA (int32OfUInt32 pHeader.id) (pHeader.m_Data.drop 8)
            ((pHeader.length - 8) / 4)] } := by
  simp only [LowLatencyDataClient.ProcessPacket, hroute, LowLatencyDataClient.ProcessDataPacket,
    hsub, if_true, headerSize]
  have : (pHeader.length + 2 ^ 64 - 8) % 2 ^ 64 = pHeader.length - 8 := by
    have : pHeader.length + 2 ^ 64 - 8 = (pHeader.length - 8) + 2 ^ 64 := by omega
    rw [this, Nat.add_mod_right, Nat.mod_eq_of_lt (by omega)]
  rw [this]

/-- Witness of C16: a packet of id 1 and length 14, six payload bytes, gives
one sample. -/
theorem data_sample_count_witness :
    LowLatencyDataClient.ProcessPacket sampleConstants .little (fun _ => []) (fun _ => none)
        twoSubscribedClient (sampleDataPacket 1 14) =
      some { twoSubscribedClient with events := twoSubscribedClient.events ++
          [Event.CHANNEL_DATA 1 (List.replicate 8 0) 1] } :=
  data_sample_count sampleConstants .little (fun _ => []) (fun _ => none)
    twoSubscribedClient (sampleDataPacket 1 14) (by decide) (by decide) (by decide) (by decide)

/-- On the metadata route `ProcessPacket` returns for a declared length of at
least the header size, with the effect of the dispatch on the parsed payload;
for a shorter declared length it does not return. -/
theorem ProcessPacket_metadata (c : Constants) (ord : ByteOrder) (dump : Json → List Nat)
    (parse : List Nat → Option LowLatencyDataClient.ControlJson) (self : LowLatencyDataClient)
    (pHeader : Packet) (hroute : ProcessPacket.route c pHeader = .metadata) :
    (headerSize ≤ pHeader.length →
      LowLatencyDataClient.ProcessPacket c ord dump parse self pHeader =
        some (LowLatencyDataClient.ProcessMetadataPacket.dispatch c ord dump self
          (parse pHeader.payload))) ∧
    (pHeader.length < headerSize →
      LowLatencyDataClient.ProcessPacket c ord dump parse self pHeader = none) := by
  constructor
  · intro h
    simp only [LowLatencyDataClient.ProcessPacket, hroute,
      LowLatencyDataClient.ProcessMetadataPacket]
    rw [if_neg (by omega)]
  · intro h
    simp only [LowLatencyDataClient.ProcessPacket, hroute,
      LowLatencyDataClient.ProcessMetadataPacket]
    rw [if_pos h]

/-- After a complete packet the read loop goes on: once `ProcessPacket` has
returned it resets the offset and the amount and reads the next header,
whatever the packet was. -/
theorem loop_continues_after_dispatch {σ : Type} (c : Constants) (ord : ByteOrder)
    (recv : σ → Nat → RecvResult × σ) (fuel : Nat) (st : ReaderState) (sock sock' : σ)
    (data : List Nat) (hcheck : st.nAmount2Read + st.nBufferOffset ≤ c.recvBufSize)
    (hrecv : recv sock st.nAmount2Read = (.received data, sock')) (hdata : data.length > 0)
    (h8 : headerSize ≤ st.nBufferOffset + data.length)
    (hfull : ntohl ord (load32 ord (writeAt st.m_Data st.nBufferOffset data) 4)
      ≤ st.nBufferOffset + data.length) :
    (SocketReadThread.loop c ord recv (fuel + 1) st sock).exit =
      (SocketReadThread.loop c ord recv fuel
        { m_Data := store32 ord (ntohl ord (load32 ord (writeAt st.m_Data st.nBufferOffset data) 0))
            ++ store32 ord (ntohl ord (load32 ord (writeAt st.m_Data st.nBufferOffset data) 4))
            ++ (writeAt st.m_Data st.nBufferOffset data).drop headerSize,
          nBufferOffset := 0, nAmount2Read := headerSize } sock').exit := by
  rw [SocketReadThread.loop]
  rw [if_neg (by omega), hrecv]
  simp only
  rw [if_pos hdata, if_neg (by omega), if_neg (by omega)]

/-- C17: late data is dropped silently.  For a packet whose id has no
`METADATA_ID` bit set and is not a key of Subscribed, `ProcessPacket` returns
the client as it was: no event, nothing sent, the registry unchanged.  (The
read loop goes on after every dispatch: `loop_continues_after_dispatch`.) -/
theorem late_data_dropped (c : Constants) (ord : ByteOrder) (dump : Json → List Nat)
    (parse : List Nat → Option LowLatencyDataClient.ControlJson) (self : LowLatencyDataClient)
    (pHeader : Packet) (hbit : pHeader.id &&& c.METADATA_ID = 0)
    (hsub : mapFind self.m_mSubscribedChannelsList (int32OfUInt32 pHeader.id) = none) :
    LowLatencyDataClient.ProcessPacket c ord dump parse self pHeader = some self := by
  simp [LowLatencyDataClient.ProcessPacket, ProcessPacket.route, hbit,
    LowLatencyDataClient.ProcessDataPacket, hsub]

/-- Witness of C17: the two data messages of the sample stream reach a client
that has subscribed to nothing; both are dispatched, the second leaves the
client as it was, and the loop ends only at the end of the stream. -/
theorem late_data_dropped_witness :
    LowLatencyDataClient.ProcessPacket sampleConstants .little (fun _ => []) (fun _ => none)
        emptyClient samplePacket = some emptyClient ∧
    samplePacket ∈ (SocketReadThread sampleConstants .little Transport.receive 30
        (List.replicate 64 0) ⟨sampleStream, []⟩).dispatched ∧
    (SocketReadThread sampleConstants .little Transport.receive 30
        (List.replicate 64 0) ⟨sampleStream, []⟩).exit = some .readError :=
  ⟨late_data_dropped sampleConstants .little (fun _ => []) (fun _ => none) emptyClient
    samplePacket (by decide) (by decide), by decide, by decide⟩

/-! ## Unavailable channels -/

theorem mapErase_of_find_none {κ ν : Type} [DecidableEq κ] (m : List (κ × ν)) (k : κ)
    (h : mapFind m k = none) : mapErase m k = m := by
  induction m with
  | nil => rfl
  | cons e rest ih =>
    obtain ⟨k', v'⟩ := e
    simp only [mapFind] at h
    split at h
    · simp at h
    · next hne =>
      simp only [mapErase, List.filter_cons, ne_eq, hne, not_false_eq_true, decide_True, if_true]
      congr 1
      exact ih h

theorem mapFind_mapErase_self {κ ν : Type} [DecidableEq κ] (m : List (κ × ν)) (k : κ) :
    mapFind (mapErase m k) k = none := by
  induction m with
  | nil => rfl
  | cons e rest ih =>
    obtain ⟨k', v'⟩ := e
    by_cases hk : k' = k
    · simpa [mapErase, List.filter_cons, hk] using ih
    · simp only [mapErase, List.filter_cons, ne_eq, hk, not_false_eq_true, decide_True, if_true,
        mapFind, if_false]
      exact ih

theorem mapFind_mapErase_ne {κ ν : Type} [DecidableEq κ] (m : List (κ × ν)) (k k' : κ)
    (h : k' ≠ k) : mapFind (mapErase m k) k' = mapFind m k' := by
  induction m with
  | nil => rfl
  | cons e rest ih =>
    obtain ⟨k1, v1⟩ := e
    by_cases hk : k1 = k
    · subst hk
      simp only [mapErase, List.filter_cons, ne_eq, not_true_eq_false, decide_False,
        Bool.false_eq_true, if_false, mapFind, if_neg (Ne.symm h)]
      exact ih
    · simp only [mapErase, List.filter_cons, ne_eq, hk, not_false_eq_true, decide_True, if_true,
        mapFind]
      split
      · rfl
      · exact ih

theorem mem_mapErase {κ ν : Type} [DecidableEq κ] (m : List (κ × ν)) (k : κ) (e : κ × ν)
    (h : e ∈ mapErase m k) : e ∈ m ∧ e.1 ≠ k := by
  simpa [mapErase] using h

/-- The effect of an `unavailable` array on one name, in terms of the first
Subscribed entry that carries the name. -/
theorem ProcessUnavailableChannelsPacket_one_eq (c : Constants) (ord : ByteOrder)
    (dump : Json → List Nat) (self : LowLatencyDataClient) (sName : String) :
    LowLatencyDataClient.ProcessUnavailableChannelsPacket.one c ord dump self sName =
      match self.m_mSubscribedChannelsList.find? (fun e => decide (e.2.sName = sName)) with
      | some e =>
        { self with
          m_mAvailableChannelsList := mapErase self.m_mAvailableChannelsList sName
          m_mSubscribedChannelsList := mapErase self.m_mSubscribedChannelsList e.1
          m_mFSTS := mapErase self.m_mFSTS sName
          sent := self.sent ++
            (if (mapFind self.m_mSubscribedChannelsList e.1).isSome then
              [wireMessage c.METADATA_ID
                (dump (Json.obj [("unsubscribe", Json.arr [Json.int e.1])]))]
             else [])
          events := self.events ++ [Event.UNAVAILABLE_CHANNEL sName] }
      | none =>
        { self with
          m_mAvailableChannelsList := mapErase self.m_mAvailableChannelsList sName
          m_mFSTS := mapErase self.m_mFSTS sName
          events := self.events ++ [Event.UNAVAILABLE_CHANNEL sName] } := by
  have hav : (if (mapFind self.m_mAvailableChannelsList sName).isSome then
        { self with m_mAvailableChannelsList := mapErase self.m_mAvailableChannelsList sName }
      else self) =
      { self with m_mAvailableChannelsList := mapErase self.m_mAvailableChannelsList sName } := by
    cases h : mapFind self.m_mAvailableChannelsList sName with
    | none => simp [mapErase_of_find_none _ _ h]
    | some _ => simp
  have hfs : ∀ s : LowLatencyDataClient, (if (mapFind s.m_mFSTS sName).isSome then
        { s with m_mFSTS := mapErase s.m_mFSTS sName } else s) =
      { s with m_mFSTS := mapErase s.m_mFSTS sName } := by
    intro s
    cases h : mapFind s.m_mFSTS sName with
    | none => simp [mapErase_of_find_none _ _ h]
    | some _ => simp
  simp only [LowLatencyDataClient.ProcessUnavailableChannelsPacket.one, hav, hfs]
  cases hf : self.m_mSubscribedChannelsList.find? (fun e => decide (e.2.sName = sName)) with
  | none => rfl
  | some e =>
    simp only [LowLatencyDataClient.UnsubscribeChannel, LowLatencyDataClient.UnsubscribeChannels,
      SendUnsubscribeChannels_sent]
    cases hk : mapFind self.m_mSubscribedChannelsList e.1 with
    | none => simp [List.filter_cons, hk]
    | some _ => simp [List.filter_cons, hk]

/-- C13, as stated, fails: with `"a"` subscribed under both 1 and 2, the
`unavailable` push for `"a"` leaves the identifier 2 in Subscribed. -/
theorem unavailable_leaves_second_subscription :
    (mapFind twiceSubscribedClient.m_mAvailableChannelsList "a").isSome = true ∧
    (∃ ci, mapFind twiceSubscribedClient.m_mSubscribedChannelsList 2 = some ci ∧
      ci.sName = "a") ∧
    (mapFind (LowLatencyDataClient.ProcessUnavailableChannelsPacket sampleConstants .little
        (fun _ => []) twiceSubscribedClient ["a"]).m_mSubscribedChannelsList 2).isSome
      = true := by
  refine ⟨by decide, ⟨sampleChannel "a" 1, by decide, by decide⟩, by decide⟩

/-- C13, amended: in a registry where `k` is the smallest identifier under
which the name `n` is subscribed (whether or not `n` is in Available),
processing `{"unavailable": [n]}` hands the control message
`{"unsubscribe": [k]}` to the socket, removes `k` from Subscribed, removes `n`
from Available, removes the first-sample timestamp of `n` and emits
`UNAVAILABLE_CHANNEL(n)`; nothing else changes. -/
theorem unavailable_push (c : Constants) (ord : ByteOrder) (dump : Json → List Nat)
    (self : LowLatencyDataClient) (sName : String) (k : Int) (ci : ChannelInfo)
    (hs : (self.m_mSubscribedChannelsList.map Prod.fst).Pairwise (· < ·))
    (hk : mapFind self.m_mSubscribedChannelsList k = some ci) (hname : ci.sName = sName)
    (hmin : ∀ e ∈ self.m_mSubscribedChannelsList, e.2.sName = sName → k ≤ e.1) :
    LowLatencyDataClient.ProcessUnavailableChannelsPacket c ord dump self [sName] =
      { self with
        m_mAvailableChannelsList := mapErase self.m_mAvailableChannelsList sName
        m_mSubscribedChannelsList := mapErase self.m_mSubscribedChannelsList k
        m_mFSTS := mapErase self.m_mFSTS sName
        sent := self.sent ++
          [wireMessage c.METADATA_ID (dump (Json.obj [("unsubscribe", Json.arr [Json.int k])]))]
        events := self.events ++ [Event.UNAVAILABLE_CHANNEL sName] } ∧
    mapFind (mapErase self.m_mSubscribedChannelsList k) k = none ∧
    mapFind (mapErase self.m_mAvailableChannelsList sName) sName = none ∧
    mapFind (mapErase self.m_mFSTS sName) sName = none := by
  refine ⟨?_, mapFind_mapErase_self _ _, mapFind_mapErase_self _ _, mapFind_mapErase_self _ _⟩
  have hf := find_first_named self.m_mSubscribedChannelsList sName hs
  have hmem : (k, ci) ∈ self.m_mSubscribedChannelsList := mapFind_mem _ _ _ hk
  simp only [LowLatencyDataClient.ProcessUnavailableChannelsPacket,
    ProcessUnavailableChannelsPacket_one_eq]
  split at hf
  · next hnone => exact absurd hname (hf (k, ci) hmem)
  · next e hsome =>
    obtain ⟨h1, h2, h3, h4⟩ := hf
    have hek : e.1 = k := le_antisymm (h4 (k, ci) hmem hname) (hmin e h1 h2)
    rw [hsome]
    simp only [hek, hk, Option.isSome_some, if_true]

/-- Witness of the amended C13: `"a"`, subscribed under 1, with a timestamp. -/
theorem unavailable_push_witness :
    (LowLatencyDataClient.ProcessUnavailableChannelsPacket sampleConstants .little
        (fun _ => []) twoSubscribedClient ["a"]).m_mSubscribedChannelsList
      = [(2, sampleChannel "b" 1)] ∧
    (LowLatencyDataClient.ProcessUnavailableChannelsPacket sampleConstants .little
        (fun _ => []) twoSubscribedClient ["a"]).sent
      = [wireMessage sampleConstants.METADATA_ID []] ∧
    (LowLatencyDataClient.ProcessUnavailableChannelsPacket sampleConstants .little
        (fun _ => []) twoSubscribedClient ["a"]).events
      = [Event.UNAVAILABLE_CHANNEL "a"] := by
  have h := (unavailable_push sampleConstants .little (fun _ => []) twoSubscribedClient "a" 1
    (sampleChannel "a" 1) (by decide) (by decide) (by decide) (by decide)).1
  rw [h]
  exact ⟨by decide, by decide, by decide⟩

/-! ## Reachable registries -/

theorem scan_mem (self : LowLatencyDataClient) (it : LowLatencyDataClient.SubscribedEntry) :
    ∀ (rest before : List ChannelInfo) (e : Int × ChannelInfo),
      e ∈ (LowLatencyDataClient.ProcessSubscribeResponsePacket.scan self it before
        rest).m_mSubscribedChannelsList →
      e ∈ self.m_mSubscribedChannelsList ∨
        (e.1 = it.nId ∧ mapFind self.m_mAvailableChannelsList it.sName = some e.2) := by
  intro rest
  induction rest with
  | nil => intro before e he; exact Or.inl he
  | cons x rest ih =>
    intro before e he
    simp only [LowLatencyDataClient.ProcessSubscribeResponsePacket.scan] at he
    split at he
    · split at he
      · exact ih _ e he
      · next ci hci =>
        rcases mem_mapAssign _ _ _ _ he with h | h
        · right
          rw [h]
          exact ⟨rfl, hci⟩
        · exact Or.inl h
    · exact ih _ e he

theorem ProcessSubscribeResponsePacket_mem (l : List LowLatencyDataClient.SubscribedEntry) :
    ∀ (self : LowLatencyDataClient),
      (LowLatencyDataClient.ProcessSubscribeResponsePacket self l).m_mAvailableChannelsList
        = self.m_mAvailableChannelsList ∧
      ∀ e ∈ (LowLatencyDataClient.ProcessSubscribeResponsePacket self
          l).m_mSubscribedChannelsList,
        e ∈ self.m_mSubscribedChannelsList ∨
          ∃ it ∈ l, e.1 = it.nId ∧ mapFind self.m_mAvailableChannelsList it.sName = some e.2 := by
  induction l with
  | nil => intro self; exact ⟨rfl, fun e he => Or.inl he⟩
  | cons it rest ih =>
    intro self
    simp only [LowLatencyDataClient.ProcessSubscribeResponsePacket]
    have hsc : ∀ (rest before : List ChannelInfo),
        (LowLatencyDataClient.ProcessSubscribeResponsePacket.scan self it before
          rest).m_mAvailableChannelsList = self.m_mAvailableChannelsList := by
      intro rest
      induction rest with
      | nil => intro before; rfl
      | cons x rest ih2 =>
        intro before
        simp only [LowLatencyDataClient.ProcessSubscribeResponsePacket.scan]
        split
        · split
          · exact ih2 _
          · rfl
        · exact ih2 _
    obtain ⟨h1, h2⟩ := ih (LowLatencyDataClient.ProcessSubscribeResponsePacket.scan self it []
      self.m_vPendingSubscribeChannelsList)
    refine ⟨h1.trans (hsc _ _), ?_⟩
    intro e he
    rcases h2 e he with h | ⟨it', hit', h3, h4⟩
    · rcases scan_mem self it _ _ e h with h | ⟨h5, h6⟩
      · exact Or.inl h
      · exact Or.inr ⟨it, by simp, h5, h6⟩
    · rw [hsc] at h4
      exact Or.inr ⟨it', List.mem_cons_of_mem _ hit', h3, h4⟩

theorem ProcessAvailableChannelsPacket_frame (l : List LowLatencyDataClient.AvailableEntry) :
    ∀ (self : LowLatencyDataClient),
      (LowLatencyDataClient.ProcessAvailableChannelsPacket self l).m_mSubscribedChannelsList
        = self.m_mSubscribedChannelsList ∧
      ∀ sName, (mapFind self.m_mAvailableChannelsList sName).isSome = true →
        (mapFind (LowLatencyDataClient.ProcessAvailableChannelsPacket self
          l).m_mAvailableChannelsList sName).isSome = true := by
  induction l with
  | nil => intro self; exact ⟨rfl, fun _ h => h⟩
  | cons it rest ih =>
    intro self
    simp only [LowLatencyDataClient.ProcessAvailableChannelsPacket]
    split
    · exact ih self
    · obtain ⟨h1, h2⟩ := ih { self with
        m_mAvailableChannelsList := mapAssign self.m_mAvailableChannelsList it.sName
          { sName := it.sName, dSamplePeriod := it.sample_period, sDataType := it.data_type,
            dScale := it.scale, dOffset := it.offset, nDecimationFactor := 1 }
        events := self.events ++ [Event.AVAILABLE_CHANNEL
          { sName := it.sName, dSamplePeriod := it.sample_period, sDataType := it.data_type,
            dScale := it.scale, dOffset := it.offset, nDecimationFactor := 1 }] }
      refine ⟨h1, ?_⟩
      intro sName hs
      apply h2
      rw [mapFind_isSome_iff] at hs ⊢
      rw [mem_keys_mapAssign]
      exact Or.inr hs

theorem ProcessUnavailableChannelsPacket_one_mem (c : Constants) (ord : ByteOrder)
    (dump : Json → List Nat) (self : LowLatencyDataClient) (sName : String) :
    (∀ e ∈ (LowLatencyDataClient.ProcessUnavailableChannelsPacket.one c ord dump self
        sName).m_mSubscribedChannelsList, e ∈ self.m_mSubscribedChannelsList) ∧
    (LowLatencyDataClient.ProcessUnavailableChannelsPacket.one c ord dump self
        sName).m_mAvailableChannelsList = mapErase self.m_mAvailableChannelsList sName := by
  rw [ProcessUnavailableChannelsPacket_one_eq]
  split
  · exact ⟨fun e he => (mem_mapErase _ _ _ he).1, rfl⟩
  · exact ⟨fun e he => he, rfl⟩

theorem ProcessUnavailableChannelsPacket_mem (c : Constants) (ord : ByteOrder)
    (dump : Json → List Nat) (names : List String) :
    ∀ (self : LowLatencyDataClient),
      ∀ e ∈ (LowLatencyDataClient.ProcessUnavailableChannelsPacket c ord dump self
          names).m_mSubscribedChannelsList, e ∈ self.m_mSubscribedChannelsList := by
  induction names with
  | nil => intro self e he; exact he
  | cons n rest ih =>
    intro self e he
    simp only [LowLatencyDataClient.ProcessUnavailableChannelsPacket] at he
    exact (ProcessUnavailableChannelsPacket_one_mem c ord dump self n).1 e (ih _ e he)

theorem ProcessAcquisitionStatePacket_frame (self : LowLatencyDataClient) (state : String) :
    (LowLatencyDataClient.ProcessAcquisitionStatePacket self state).m_mSubscribedChannelsList
      = self.m_mSubscribedChannelsList ∧
    (LowLatencyDataClient.ProcessAcquisitionStatePacket self state).m_mAvailableChannelsList
      = self.m_mAvailableChannelsList := by
  simp only [LowLatencyDataClient.ProcessAcquisitionStatePacket, reset_eq]
  split
  · exact ⟨rfl, rfl⟩
  · split <;> exact ⟨rfl, rfl⟩

/-- Where the entries of Subscribed after one action come from: they were
there before, or a `subscribed` message of the action carries their
identifier and Available held their descriptor under the name of that
message entry.  Available does not change unless the action is an `available`
or `unavailable` message. -/
theorem step_subscribed_mem (c : Constants) (ord : ByteOrder) (dump : Json → List Nat)
    (self : LowLatencyDataClient) (a : LowLatencyDataClient.Action) :
    ∀ e ∈ (LowLatencyDataClient.step c ord dump self a).m_mSubscribedChannelsList,
      e ∈ self.m_mSubscribedChannelsList ∨
        ∃ j it, a = .metadata (some j) ∧ it ∈ j.subscribed.getD [] ∧ e.1 = it.nId ∧
          mapFind self.m_mAvailableChannelsList it.sName = some e.2 := by
  intro e he
  cases a with
  | metadata j =>
    cases j with
    | none => exact Or.inl he
    | some j =>
      simp only [LowLatencyDataClient.step, LowLatencyDataClient.ProcessMetadataPacket.dispatch]
        at he
      split at he
      · exact Or.inl ((ProcessUnsubscribeResponsePacket_frame _ self).2.2.subset he)
      · split at he
        · next entries hsub =>
          rcases (ProcessSubscribeResponsePacket_mem entries self).2 e he with h | ⟨it, h1, h2, h3⟩
          · exact Or.inl h
          · exact Or.inr ⟨j, it, rfl, by rw [hsub]; exact h1, h2, h3⟩
        · split at he
          · rw [(ProcessAvailableChannelsPacket_frame _ self).1] at he
            exact Or.inl he
          · split at he
            · exact Or.inl (ProcessUnavailableChannelsPacket_mem c ord dump _ self e he)
            · split at he
              · rw [(ProcessAcquisitionStatePacket_frame self _).1] at he
                exact Or.inl he
              · exact Or.inl he
  | data p =>
    simp only [LowLatencyDataClient.step, LowLatencyDataClient.ProcessDataPacket] at he
    split at he <;> exact Or.inl he
  | SubscribeChannels l =>
    simp only [LowLatencyDataClient.step, LowLatencyDataClient.SubscribeChannels,
      SendSubscribeChannels_sent] at he
    exact Or.inl he
  | UnsubscribeChannels l =>
    simp only [LowLatencyDataClient.step, LowLatencyDataClient.UnsubscribeChannels,
      SendUnsubscribeChannels_sent] at he
    exact Or.inl he
  | Acquire =>
    simp only [LowLatencyDataClient.step, LowLatencyDataClient.Acquire] at he
    exact Or.inl he

/-- C18, as stated, fails: after `"a"` has become available and been
requested, a confirmation carrying the identifier 9 puts the key 9 into
Subscribed. -/
theorem subscribed_identifier_out_of_range :
    ∃ e ∈ (LowLatencyDataClient.run sampleConstants .little (fun _ => []) emptyClient
        [.metadata (some (availableMessage [sampleAvailable "a"])),
         .SubscribeChannels [sampleChannel "a" 1],
         .metadata (some (subscribedMessage [⟨"a", 9, 0⟩]))]).m_mSubscribedChannelsList,
      ¬ (0 ≤ e.1 ∧ e.1 ≤ 7) := by
  refine ⟨(9, (sampleAvailable "a").descriptor), by decide, by decide⟩

/-- C18, amended: in every registry reached from the empty one by inbound
packets and outbound calls, every key of Subscribed is an identifier that a
processed `subscribed` message carried; so when every `subscribed` message
processed carries identifiers in `0..7` only, every key of Subscribed is in
`0..7`. -/
theorem subscribed_identifiers_in_range (c : Constants) (ord : ByteOrder)
    (dump : Json → List Nat) (as : List LowLatencyDataClient.Action)
    (hr : ∀ a ∈ as, a.idsInRange) :
    ∀ e ∈ (LowLatencyDataClient.run c ord dump emptyClient as).m_mSubscribedChannelsList,
      0 ≤ e.1 ∧ e.1 ≤ 7 := by
  have key : ∀ (as : List LowLatencyDataClient.Action) (self : LowLatencyDataClient),
      (∀ a ∈ as, a.idsInRange) →
      (∀ e ∈ self.m_mSubscribedChannelsList, 0 ≤ e.1 ∧ e.1 ≤ 7) →
      ∀ e ∈ (LowLatencyDataClient.run c ord dump self as).m_mSubscribedChannelsList,
        0 ≤ e.1 ∧ e.1 ≤ 7 := by
    intro as
    induction as with
    | nil => intro self _ h; exact h
    | cons a rest ih =>
      intro self hr h
      simp only [LowLatencyDataClient.run]
      apply ih _ (fun a' ha' => hr a' (List.mem_cons_of_mem _ ha'))
      intro e he
      rcases step_subscribed_mem c ord dump self a e he with h1 | ⟨j, it, rfl, h2, h3, _⟩
      · exact h e h1
      · have := hr _ (List.mem_cons_self _ _)
        simp only [LowLatencyDataClient.Action.idsInRange] at this
        rw [h3]
        exact this it h2
  exact key as emptyClient hr (by simp [emptyClient])

/-- Witness of the amended C18: the confirmation carries the identifier 3. -/
theorem subscribed_identifiers_in_range_witness :
    (3, (sampleAvailable "a").descriptor) ∈
      (LowLatencyDataClient.run sampleConstants .little (fun _ => []) emptyClient
        [.metadata (some (availableMessage [sampleAvailable "a"])),
         .SubscribeChannels [sampleChannel "a" 1],
         .metadata (some (subscribedMessage [⟨"a", 3, 0⟩]))]).m_mSubscribedChannelsList ∧
    (0 ≤ ((3 : Int), (sampleAvailable "a").descriptor).1 ∧
      ((3 : Int), (sampleAvailable "a").descriptor).1 ≤ 7) :=
  ⟨by decide,
    subscribed_identifiers_in_range sampleConstants .little (fun _ => [])
      [.metadata (some (availableMessage [sampleAvailable "a"])),
       .SubscribeChannels [sampleChannel "a" 1],
       .metadata (some (subscribedMessage [⟨"a", 3, 0⟩]))]
      (by
        intro a ha
        simp only [List.mem_cons, List.mem_singleton, List.not_mem_nil, or_false] at ha
        rcases ha with rfl | rfl | rfl
        · simp [LowLatencyDataClient.Action.idsInRange, availableMessage]
        · simp [LowLatencyDataClient.Action.idsInRange]
        · simp [LowLatencyDataClient.Action.idsInRange, subscribedMessage])
      (3, (sampleAvailable "a").descriptor) (by decide)⟩

theorem mapErase_named (self : LowLatencyDataClient) (sName : String)
    (h : LowLatencyDataClient.AvailableNamed self) :
    ∀ e ∈ mapErase self.m_mAvailableChannelsList sName, e.2.sName = e.1 :=
  fun e he => h e (mem_mapErase _ _ _ he).1

/-- One name of an `unavailable` array keeps the registry consistent when no
two Subscribed entries share a name. -/
theorem ProcessUnavailableChannelsPacket_one_inv (c : Constants) (ord : ByteOrder)
    (dump : Json → List Nat) (self : LowLatencyDataClient) (sName : String)
    (hn : LowLatencyDataClient.AvailableNamed self)
    (hsa : LowLatencyDataClient.SubscribedAvailable self)
    (hd : LowLatencyDataClient.NamesDistinct self) :
    LowLatencyDataClient.AvailableNamed
      (LowLatencyDataClient.ProcessUnavailableChannelsPacket.one c ord dump self sName) ∧
    LowLatencyDataClient.SubscribedAvailable
      (LowLatencyDataClient.ProcessUnavailableChannelsPacket.one c ord dump self sName) ∧
    LowLatencyDataClient.NamesDistinct
      (LowLatencyDataClient.ProcessUnavailableChannelsPacket.one c ord dump self sName) := by
  rw [ProcessUnavailableChannelsPacket_one_eq]
  cases hf : self.m_mSubscribedChannelsList.find? (fun e => decide (e.2.sName = sName)) with
  | none =>
    simp only
    refine ⟨mapErase_named self sName hn, ?_, hd⟩
    intro e he
    have hne : e.2.sName ≠ sName := by
      have := List.find?_eq_none.mp hf e he
      simpa using this
    simp only
    rw [mapFind_mapErase_ne _ _ _ hne]
    exact hsa e he
  | some x =>
    simp only
    have hx : x ∈ self.m_mSubscribedChannelsList := List.mem_of_find?_eq_some hf
    have hxn : x.2.sName = sName := by
      have := List.find?_some hf
      simpa using this
    refine ⟨mapErase_named self sName hn, ?_, ?_⟩
    · intro e he
      obtain ⟨he1, he2⟩ := mem_mapErase _ _ _ he
      have hne : e.2.sName ≠ sName := by
        intro heq
        have : e = x :=
          List.inj_on_of_nodup_map hd he1 hx (by rw [heq, hxn])
        exact he2 (by rw [this])
      simp only
      rw [mapFind_mapErase_ne _ _ _ hne]
      exact hsa e he1
    · simp only [LowLatencyDataClient.NamesDistinct]
      exact List.Nodup.sublist (List.Sublist.map _ (List.filter_sublist _)) hd

theorem ProcessUnavailableChannelsPacket_inv (c : Constants) (ord : ByteOrder)
    (dump : Json → List Nat) (names : List String) :
    ∀ (self : LowLatencyDataClient), LowLatencyDataClient.AvailableNamed self →
      LowLatencyDataClient.SubscribedAvailable self → LowLatencyDataClient.NamesDistinct self →
      LowLatencyDataClient.AvailableNamed
        (LowLatencyDataClient.ProcessUnavailableChannelsPacket c ord dump self names) ∧
      LowLatencyDataClient.SubscribedAvailable
        (LowLatencyDataClient.ProcessUnavailableChannelsPacket c ord dump self names) := by
  induction names with
  | nil => intro self h1 h2 _; exact ⟨h1, h2⟩
  | cons n rest ih =>
    intro self h1 h2 h3
    simp only [LowLatencyDataClient.ProcessUnavailableChannelsPacket]
    obtain ⟨g1, g2, g3⟩ := ProcessUnavailableChannelsPacket_one_inv c ord dump self n h1 h2 h3
    exact ih _ g1 g2 g3

/-- One action keeps the registry consistent (Available stores under each
name a descriptor of that name; every Subscribed descriptor has a name that
is a key of Available) when no two Subscribed entries share a name. -/
theorem step_inv (c : Constants) (ord : ByteOrder) (dump : Json → List Nat)
    (self : LowLatencyDataClient) (a : LowLatencyDataClient.Action)
    (hn : LowLatencyDataClient.AvailableNamed self)
    (hsa : LowLatencyDataClient.SubscribedAvailable self)
    (hd : LowLatencyDataClient.NamesDistinct self) :
    LowLatencyDataClient.AvailableNamed (LowLatencyDataClient.step c ord dump self a) ∧
    LowLatencyDataClient.SubscribedAvailable (LowLatencyDataClient.step c ord dump self a) := by
  have same : ∀ s' : LowLatencyDataClient,
      s'.m_mAvailableChannelsList = self.m_mAvailableChannelsList →
      (∀ e ∈ s'.m_mSubscribedChannelsList, e ∈ self.m_mSubscribedChannelsList) →
      LowLatencyDataClient.AvailableNamed s' ∧ LowLatencyDataClient.SubscribedAvailable s' := by
    intro s' h1 h2
    refine ⟨?_, ?_⟩
    · intro e he
      rw [h1] at he
      exact hn e he
    · intro e he
      rw [h1]
      exact hsa e (h2 e he)
  cases a with
  | metadata j =>
    cases j with
    | none => exact ⟨hn, hsa⟩
    | some j =>
      simp only [LowLatencyDataClient.step, LowLatencyDataClient.ProcessMetadataPacket.dispatch]
      split
      · exact same _ (ProcessUnsubscribeResponsePacket_frame _ self).1
          (fun e he => (ProcessUnsubscribeResponsePacket_frame _ self).2.2.subset he)
      · split
        · next entries _ =>
          obtain ⟨h1, h2⟩ := ProcessSubscribeResponsePacket_mem entries self
          refine ⟨?_, ?_⟩
          · intro e he
            rw [h1] at he
            exact hn e he
          · intro e he
            rw [h1]
            rcases h2 e he with h | ⟨it, _, _, h4⟩
            · exact hsa e h
            · have : e.2.sName = it.sName := hn (it.sName, e.2) (mapFind_mem _ _ _ h4)
              rw [this, h4]
              rfl
        · split
          · next entries _ =>
            obtain ⟨h1, h2⟩ := ProcessAvailableChannelsPacket_frame entries self
            refine ⟨ProcessAvailableChannelsPacket_named entries self hn, ?_⟩
            intro e he
            rw [h1] at he
            exact h2 _ (hsa e he)
          · split
            · exact ProcessUnavailableChannelsPacket_inv c ord dump _ self hn hsa hd
            · split
              · exact same _ (ProcessAcquisitionStatePacket_frame self _).2
                  (fun e he => by rw [(ProcessAcquisitionStatePacket_frame self _).1] at he; exact he)
              · exact ⟨hn, hsa⟩
  | data p =>
    simp only [LowLatencyDataClient.step, LowLatencyDataClient.ProcessDataPacket]
    split
    · exact same _ rfl (fun e he => he)
    · exact ⟨hn, hsa⟩
  | SubscribeChannels l =>
    simp only [LowLatencyDataClient.step, LowLatencyDataClient.SubscribeChannels,
      SendSubscribeChannels_sent]
    exact same _ rfl (fun e he => he)
  | UnsubscribeChannels l =>
    simp only [LowLatencyDataClient.step, LowLatencyDataClient.UnsubscribeChannels,
      SendUnsubscribeChannels_sent]
    exact same _ rfl (fun e he => he)
  | Acquire =>
    simp only [LowLatencyDataClient.step, LowLatencyDataClient.Acquire]
    exact same _ rfl (fun e he => he)

/-- C19, as stated, fails: `"a"` is requested twice and confirmed under the
identifiers 1 and 2; when `"a"` becomes unavailable only the entry under 1 is
destroyed, and Subscribed keeps a descriptor named `"a"` that is no key of
Available. -/
theorem subscribed_not_available_reachable :
    ∃ e ∈ (LowLatencyDataClient.run sampleConstants .little (fun _ => []) emptyClient
        [.metadata (some (availableMessage [sampleAvailable "a"])),
         .SubscribeChannels [sampleChannel "a" 1, sampleChannel "a" 1],
         .metadata (some (subscribedMessage [⟨"a", 1, 0⟩, ⟨"a", 2, 0⟩])),
         .metadata (some (unavailableMessage ["a"]))]).m_mSubscribedChannelsList,
      mapFind (LowLatencyDataClient.run sampleConstants .little (fun _ => []) emptyClient
        [.metadata (some (availableMessage [sampleAvailable "a"])),
         .SubscribeChannels [sampleChannel "a" 1, sampleChannel "a" 1],
         .metadata (some (subscribedMessage [⟨"a", 1, 0⟩, ⟨"a", 2, 0⟩])),
         .metadata (some (unavailableMessage ["a"]))]).m_mAvailableChannelsList e.2.sName
        = none := by
  refine ⟨(2, (sampleAvailable "a").descriptor), by decide, by decide⟩

/-- C19, amended: in every registry reached from the empty one by inbound
packets and outbound calls through registries in which no two Subscribed
entries share a name, every descriptor in Subscribed has a name that is a key
of Available (a channel becoming unavailable destroys the first Subscribed
entry with that name). -/
theorem subscribed_channels_available (c : Constants) (ord : ByteOrder)
    (dump : Json → List Nat) (as : List LowLatencyDataClient.Action)
    (hd : ∀ n, n < as.length → LowLatencyDataClient.NamesDistinct
      (LowLatencyDataClient.run c ord dump emptyClient (as.take n))) :
    LowLatencyDataClient.SubscribedAvailable
      (LowLatencyDataClient.run c ord dump emptyClient as) := by
  have key : ∀ (as : List LowLatencyDataClient.Action) (self : LowLatencyDataClient),
      LowLatencyDataClient.AvailableNamed self → LowLatencyDataClient.SubscribedAvailable self →
      (∀ n, n < as.length → LowLatencyDataClient.NamesDistinct
        (LowLatencyDataClient.run c ord dump self (as.take n))) →
      LowLatencyDataClient.SubscribedAvailable (LowLatencyDataClient.run c ord dump self as) := by
    intro as
    induction as with
    | nil => intro self _ h _; exact h
    | cons a rest ih =>
      intro self h1 h2 h3
      simp only [LowLatencyDataClient.run]
      have h0 := h3 0 (by simp)
      simp only [List.take_zero, LowLatencyDataClient.run] at h0
      obtain ⟨g1, g2⟩ := step_inv c ord dump self a h1 h2 h0
      apply ih _ g1 g2
      intro n hn
      have := h3 (n + 1) (by simp only [List.length_cons]; omega)
      simpa [LowLatencyDataClient.run] using this
  exact key as emptyClient (by intro e he; simp [emptyClient] at he)
    (by intro e he; simp [emptyClient] at he) hd

/-- Witness of the amended C19: `"a"` is confirmed under 1, becomes
unavailable, becomes available again and is confirmed under 3. -/
theorem subscribed_channels_available_witness :
    LowLatencyDataClient.SubscribedAvailable
      (LowLatencyDataClient.run sampleConstants .little (fun _ => []) emptyClient
        [.metadata (some (availableMessage [sampleAvailable "a"])),
         .SubscribeChannels [sampleChannel "a" 1],
         .metadata (some (subscribedMessage [⟨"a", 1, 0⟩])),
         .metadata (some (unavailableMessage ["a"])),
         .metadata (some (availableMessage [sampleAvailable "a"])),
         .SubscribeChannels [sampleChannel "a" 1],
         .metadata (some (subscribedMessage [⟨"a", 3, 0⟩]))]) ∧
    (LowLatencyDataClient.run sampleConstants .little (fun _ => []) emptyClient
        [.metadata (some (availableMessage [sampleAvailable "a"])),
         .SubscribeChannels [sampleChannel "a" 1],
         .metadata (some (subscribedMessage [⟨"a", 1, 0⟩])),
         .metadata (some (unavailableMessage ["a"])),
         .metadata (some (availableMessage [sampleAvailable "a"])),
         .SubscribeChannels [sampleChannel "a" 1],
         .metadata (some (subscribedMessage [⟨"a", 3, 0⟩]))]).m_mSubscribedChannelsList
      = [(3, (sampleAvailable "a").descriptor)] :=
  ⟨subscribed_channels_available sampleConstants .little (fun _ => [])
    [.metadata (some (availableMessage [sampleAvailable "a"])),
     .SubscribeChannels [sampleChannel "a" 1],
     .metadata (some (subscribedMessage [⟨"a", 1, 0⟩])),
     .metadata (some (unavailableMessage ["a"])),
     .metadata (some (availableMessage [sampleAvailable "a"])),
     .SubscribeChannels [sampleChannel "a" 1],
     .metadata (some (subscribedMessage [⟨"a", 3, 0⟩]))]
    (by
      intro n hn
      simp only [List.length_cons, List.length_nil] at hn
      have : n = 0 ∨ n = 1 ∨ n = 2 ∨ n = 3 ∨ n = 4 ∨ n = 5 ∨ n = 6 := by omega
      rcases this with rfl | rfl | rfl | rfl | rfl | rfl | rfl <;>
        (unfold LowLatencyDataClient.NamesDistinct; decide)), by decide⟩

/-! ## The receive buffer -/

/-- The traced loop is the loop. -/
theorem traced_fst {σ : Type} (c : Constants) (ord : ByteOrder)
    (recv : σ → Nat → RecvResult × σ) (fuel : Nat) :
    ∀ (st : ReaderState) (sock : σ),
      (SocketReadThread.traced c ord recv fuel st sock).1
        = SocketReadThread.loop c ord recv fuel st sock := by
  induction fuel with
  | zero => intro st sock; rfl
  | succ n ih =>
    intro st sock
    unfold SocketReadThread.traced SocketReadThread.loop
    split
    · rfl
    · split
      · rfl
      · rfl
      · simp only
        split
        · split
          · exact ih _ _
          · split
            · split
              · rfl
              · exact ih _ _
            · simp only [ih]
        · exact ih _ _

/-- Every receive the loop issues asks for bytes that fit the buffer, and a
socket that never hands over more than was asked for has every byte stored
inside the buffer. -/
theorem traced_bound {σ : Type} (c : Constants) (ord : ByteOrder)
    (recv : σ → Nat → RecvResult × σ)
    (hle : ∀ sock n data sock', recv sock n = (.received data, sock') → data.length ≤ n)
    (fuel : Nat) :
    ∀ (st : ReaderState) (sock : σ),
      ∀ call ∈ (SocketReadThread.traced c ord recv fuel st sock).2,
        call.nBufferOffset + call.nAmount2Read ≤ c.recvBufSize ∧
        call.nBufferOffset + call.nAmountRead ≤ c.recvBufSize := by
  induction fuel with
  | zero => intro st sock call hc; simp [SocketReadThread.traced] at hc
  | succ n ih =>
    intro st sock call hc
    unfold SocketReadThread.traced at hc
    split at hc
    · simp at hc
    · next hcheck =>
      split at hc
      · simp only [List.mem_singleton] at hc
        subst hc
        simp only
        omega
      · simp only [List.mem_singleton] at hc
        subst hc
        simp only
        omega
      · next data sock' hr =>
        have hd := hle _ _ _ _ hr
        have hcall : st.nBufferOffset + st.nAmount2Read ≤ c.recvBufSize ∧
            st.nBufferOffset + data.length ≤ c.recvBufSize := by omega
        simp only at hc
        split at hc
        · split at hc
          · simp only [List.mem_cons] at hc
            rcases hc with rfl | hc
            · exact hcall
            · exact ih _ _ call hc
          · split at hc
            · split at hc
              · simp only [List.mem_singleton] at hc
                subst hc
                exact hcall
              · simp only [List.mem_cons] at hc
                rcases hc with rfl | hc
                · exact hcall
                · exact ih _ _ call hc
            · simp only [List.mem_cons] at hc
              rcases hc with rfl | hc
              · exact hcall
              · exact ih _ _ call hc
        · simp only [List.mem_cons] at hc
          rcases hc with rfl | hc
          · exact hcall
          · exact ih _ _ call hc

theorem Transport.receive_le (t t' : Transport) (n : Nat) (data : List Nat)
    (h : Transport.receive t n = (.received data, t')) : data.length ≤ n := by
  unfold Transport.receive at h
  split at h
  · simp at h
  · simp only [Prod.mk.injEq, RecvResult.received.injEq] at h
    rw [← h.1, List.length_take]
    omega

/-- A header that declares more bytes than the buffer holds: the loop is left
before anything is dispatched. -/
theorem loop_oversize (c : Constants) (ord : ByteOrder) (S : List Nat)
    (hbig : c.recvBufSize < ntohl ord (load32 ord S 4)) (h8 : headerSize ≤ S.length) :
    ∀ (fuel : Nat) (st : ReaderState) (chunks : List Nat),
      st.m_Data.length = c.recvBufSize →
      st.nBufferOffset < headerSize →
      st.nAmount2Read = headerSize →
      st.m_Data.take st.nBufferOffset = S.take st.nBufferOffset →
      headerSize - st.nBufferOffset + 2 ≤ fuel →
      (SocketReadThread.loop c ord Transport.receive fuel st
          ⟨S.drop st.nBufferOffset, chunks⟩).dispatched = [] ∧
      ((SocketReadThread.loop c ord Transport.receive fuel st
          ⟨S.drop st.nBufferOffset, chunks⟩).exit = some .invalidAmount ∨
       (SocketReadThread.loop c ord Transport.receive fuel st
          ⟨S.drop st.nBufferOffset, chunks⟩).exit = some .badId) := by
  intro fuel
  induction fuel with
  | zero => intro st chunks _ _ _ _ hf; omega
  | succ n ih =>
    intro st chunks hlen hoff hamt htake hfuel
    simp only [headerSize] at h8 hoff hfuel
    unfold SocketReadThread.loop
    by_cases hcheck : st.nAmount2Read + st.nBufferOffset > c.recvBufSize
    · rw [if_pos hcheck]
      exact ⟨rfl, Or.inl rfl⟩
    · rw [if_neg hcheck]
      have ha8 : st.nAmount2Read = 8 := hamt
      obtain ⟨d, chunks', hd1, hd2, hd3, hdlen, hrecv⟩ :=
        receive_spec S st.nBufferOffset st.nAmount2Read chunks (by omega) (by omega)
      have hbt : (writeAt st.m_Data st.nBufferOffset ((S.drop st.nBufferOffset).take d)).take
          (st.nBufferOffset + d) = S.take (st.nBufferOffset + d) := by
        have := writeAt_take st.m_Data ((S.drop st.nBufferOffset).take d) st.nBufferOffset
          (by omega)
        rw [hdlen] at this
        rw [this, htake, take_append_drop_take]
      have hbl : (writeAt st.m_Data st.nBufferOffset ((S.drop st.nBufferOffset).take d)).length
          = c.recvBufSize := by
        rw [writeAt_length _ _ _ (by rw [hdlen]; omega), hlen]
      rw [hrecv]
      simp only [hdlen]
      rw [if_pos (by omega)]
      generalize writeAt st.m_Data st.nBufferOffset ((S.drop st.nBufferOffset).take d) = buf
        at hbt hbl ⊢
      by_cases hc1 : st.nBufferOffset + d < headerSize
      · rw [if_pos hc1]
        simp only [headerSize] at hc1
        exact ih { st with m_Data := buf, nBufferOffset := st.nBufferOffset + d } chunks' hbl
          (by simp only [headerSize]; omega) hamt hbt (by simp only [headerSize]; omega)
      · rw [if_neg hc1]
        simp only [headerSize] at hc1
        have hl4 : load32 ord buf 4 = load32 ord S 4 :=
          load32_of_take_eq ord _ _ (st.nBufferOffset + d) 4 hbt (by omega)
        rw [hl4]
        rw [if_pos (by omega)]
        split
        · exact ⟨rfl, Or.inr rfl⟩
        · obtain ⟨m, hm⟩ : ∃ m, n = m + 1 := ⟨n - 1, by omega⟩
          subst hm
          unfold SocketReadThread.loop
          rw [if_pos (by simp only; omega)]
          exact ⟨rfl, Or.inl rfl⟩

/-- C20: buffer bound.  For every stream, chunking and number of iterations,
every receive `SocketReadThread` issues has offset plus requested amount at
most `recvBufSize`, and the bytes it receives are stored below index
`recvBufSize`.  When the first header of the stream declares a length greater
than `recvBufSize`, the loop is left (on the invalid amount, or on a bad id)
and nothing is dispatched. -/
theorem buffer_bound (c : Constants) (ord : ByteOrder) (m_Data stream chunks : List Nat)
    (fuel : Nat) :
    (SocketReadThread.traced c ord Transport.receive fuel
        { m_Data := m_Data, nBufferOffset := 0, nAmount2Read := headerSize }
        ⟨stream, chunks⟩).1
      = SocketReadThread c ord Transport.receive fuel m_Data ⟨stream, chunks⟩ ∧
    (∀ call ∈ (SocketReadThread.traced c ord Transport.receive fuel
        { m_Data := m_Data, nBufferOffset := 0, nAmount2Read := headerSize }
        ⟨stream, chunks⟩).2,
      call.nBufferOffset + call.nAmount2Read ≤ c.recvBufSize ∧
      call.nBufferOffset + call.nAmountRead ≤ c.recvBufSize) ∧
    (c.recvBufSize < ntohl ord (load32 ord stream 4) → headerSize ≤ stream.length →
      m_Data.length = c.recvBufSize → 10 ≤ fuel →
      (SocketReadThread c ord Transport.receive fuel m_Data ⟨stream, chunks⟩).dispatched = [] ∧
      ((SocketReadThread c ord Transport.receive fuel m_Data ⟨stream, chunks⟩).exit
          = some .invalidAmount ∨
       (SocketReadThread c ord Transport.receive fuel m_Data ⟨stream, chunks⟩).exit
          = some .badId)) := by
  refine ⟨traced_fst c ord _ fuel _ _,
    traced_bound c ord _ (fun t n data t' h => Transport.receive_le t t' n data h) fuel _ _, ?_⟩
  intro hbig h8 hlen hfuel
  have := loop_oversize c ord stream hbig h8 fuel ⟨m_Data, 0, headerSize⟩ chunks hlen
    (by simp [headerSize]) rfl (by simp) (by simp only [headerSize]; omega)
  simpa [SocketReadThread] using this

/-- Witness of C20: a header of id 1 that declares 100 bytes, in front of 4
bytes, with a buffer of 64 bytes. -/
theorem buffer_bound_witness :
    (SocketReadThread sampleConstants .little Transport.receive 12 (List.replicate 64 0)
        ⟨bigEndian32 1 ++ bigEndian32 100 ++ [1, 2, 3, 4], [3]⟩).dispatched = [] ∧
    (SocketReadThread sampleConstants .little Transport.receive 12 (List.replicate 64 0)
        ⟨bigEndian32 1 ++ bigEndian32 100 ++ [1, 2, 3, 4], [3]⟩).exit = some .invalidAmount := by
  have h := (buffer_bound sampleConstants .little (List.replicate 64 0)
    (bigEndian32 1 ++ bigEndian32 100 ++ [1, 2, 3, 4]) [3] 12).2.2
    (by decide) (by decide) (by decide) (by decide)
  exact ⟨h.1, by decide⟩


/-! ## Failed reads and illegal ids -/

/-- A header with an illegal id whose declared length is at least 16 (more
than a header read can accumulate): the loop is left on the bad id before
anything is dispatched. -/
theorem loop_bad_id (c : Constants) (ord : ByteOrder) (S : List Nat)
    (hid : ntohl ord (load32 ord S 0) > 7 ∧ ntohl ord (load32 ord S 0) ≠ c.METADATA_ID)
    (hL : 16 ≤ ntohl ord (load32 ord S 4)) (h8 : headerSize ≤ S.length)
    (h15 : 15 ≤ c.recvBufSize) :
    ∀ (fuel : Nat) (st : ReaderState) (chunks : List Nat),
      st.m_Data.length = c.recvBufSize →
      st.nBufferOffset < headerSize →
      st.nAmount2Read = headerSize →
      st.m_Data.take st.nBufferOffset = S.take st.nBufferOffset →
      headerSize - st.nBufferOffset ≤ fuel →
      SocketReadThread.loop c ord Transport.receive fuel st ⟨S.drop st.nBufferOffset, chunks⟩
        = { dispatched := [], exit := some .badId } := by
  intro fuel
  induction fuel with
  | zero => intro st chunks _ h _ _ hf; simp only [headerSize] at h hf; omega
  | succ n ih =>
    intro st chunks hlen hoff hamt htake hfuel
    simp only [headerSize] at h8 hoff hfuel
    have ha8 : st.nAmount2Read = 8 := hamt
    unfold SocketReadThread.loop
    rw [if_neg (by omega)]
    obtain ⟨d, chunks', hd1, hd2, hd3, hdlen, hrecv⟩ :=
      receive_spec S st.nBufferOffset st.nAmount2Read chunks (by omega) (by omega)
    have hbt : (writeAt st.m_Data st.nBufferOffset ((S.drop st.nBufferOffset).take d)).take
        (st.nBufferOffset + d) = S.take (st.nBufferOffset + d) := by
      have := writeAt_take st.m_Data ((S.drop st.nBufferOffset).take d) st.nBufferOffset
        (by omega)
      rw [hdlen] at this
      rw [this, htake, take_append_drop_take]
    have hbl : (writeAt st.m_Data st.nBufferOffset ((S.drop st.nBufferOffset).take d)).length
        = c.recvBufSize := by
      rw [writeAt_length _ _ _ (by rw [hdlen]; omega), hlen]
    rw [hrecv]
    simp only [hdlen]
    rw [if_pos (by omega)]
    generalize writeAt st.m_Data st.nBufferOffset ((S.drop st.nBufferOffset).take d) = buf
      at hbt hbl ⊢
    by_cases hc1 : st.nBufferOffset + d < headerSize
    · rw [if_pos hc1]
      simp only [headerSize] at hc1
      exact ih { st with m_Data := buf, nBufferOffset := st.nBufferOffset + d } chunks' hbl
        (by simp only [headerSize]; omega) hamt hbt (by simp only [headerSize]; omega)
    · rw [if_neg hc1]
      simp only [headerSize] at hc1
      have hl0 : load32 ord buf 0 = load32 ord S 0 :=
        load32_of_take_eq ord _ _ (st.nBufferOffset + d) 0 hbt (by omega)
      have hl4 : load32 ord buf 4 = load32 ord S 4 :=
        load32_of_take_eq ord _ _ (st.nBufferOffset + d) 4 hbt (by omega)
      rw [hl0, hl4, if_pos (by omega), if_pos hid]

/-- C21: an illegal id during reassembly is fatal.  In any iteration of the
loop, on any socket: when the bytes accumulated after a receive of at least
one byte hold a header
whose id is greater than 7 and different from `METADATA_ID` and whose
declared length exceeds the bytes accumulated, the loop is left on the bad id
and nothing is dispatched from there on.  From the start of a stream whose
first header has such an id and declares at least 16 bytes, whatever the
chunking, nothing at all is dispatched. -/
theorem illegal_id_fatal (c : Constants) (ord : ByteOrder) :
    (∀ {σ : Type} (recv : σ → Nat → RecvResult × σ) (fuel : Nat) (st : ReaderState)
        (sock sock' : σ) (data : List Nat),
      st.nAmount2Read + st.nBufferOffset ≤ c.recvBufSize →
      recv sock st.nAmount2Read = (.received data, sock') → 0 < data.length →
      headerSize ≤ st.nBufferOffset + data.length →
      st.nBufferOffset + data.length
        < ntohl ord (load32 ord (writeAt st.m_Data st.nBufferOffset data) 4) →
      ntohl ord (load32 ord (writeAt st.m_Data st.nBufferOffset data) 0) > 7 →
      ntohl ord (load32 ord (writeAt st.m_Data st.nBufferOffset data) 0) ≠ c.METADATA_ID →
      SocketReadThread.loop c ord recv (fuel + 1) st sock
        = { dispatched := [], exit := some .badId }) ∧
    (∀ (m_Data stream chunks : List Nat) (fuel : Nat),
      ntohl ord (load32 ord stream 0) > 7 →
      ntohl ord (load32 ord stream 0) ≠ c.METADATA_ID →
      16 ≤ ntohl ord (load32 ord stream 4) → headerSize ≤ stream.length →
      15 ≤ c.recvBufSize → m_Data.length = c.recvBufSize → 8 ≤ fuel →
      SocketReadThread c ord Transport.receive fuel m_Data ⟨stream, chunks⟩
        = { dispatched := [], exit := some .badId }) := by
  refine ⟨?_, ?_⟩
  · intro σ recv fuel st sock sock' data hcheck hrecv hpos h8 hlt hid1 hid2
    rw [SocketReadThread.loop, if_neg (by omega), hrecv]
    simp only
    rw [if_pos hpos, if_neg (by omega), if_pos hlt, if_pos ⟨hid1, hid2⟩]
  · intro m_Data stream chunks fuel hid1 hid2 hL h8 h15 hlen hfuel
    have := loop_bad_id c ord stream ⟨hid1, hid2⟩ hL h8 h15 fuel ⟨m_Data, 0, headerSize⟩ chunks
      hlen (by simp [headerSize]) rfl (by simp) (by simp only [headerSize]; omega)
    simpa [SocketReadThread] using this

/-- Witness of C21: a header of id 9 that declares 20 bytes, delivered in
chunks of 3 bytes, then a well-formed message that is never dispatched. -/
theorem illegal_id_fatal_witness :
    SocketReadThread sampleConstants .little Transport.receive 10 (List.replicate 64 0)
        ⟨bigEndian32 9 ++ bigEndian32 20 ++ List.replicate 12 0 ++ wireMessage 1 [1, 2, 3, 4],
          [3, 3, 3]⟩
      = { dispatched := [], exit := some .badId } :=
  (illegal_id_fatal sampleConstants .little).2 (List.replicate 64 0)
    (bigEndian32 9 ++ bigEndian32 20 ++ List.replicate 12 0 ++ wireMessage 1 [1, 2, 3, 4])
    [3, 3, 3] 10 (by decide) (by decide) (by decide) (by decide) (by decide) (by decide)
    (by decide)

/-- The branches of lines 82 and 110 on a count of zero: neither is taken, and
the loop goes on with the same offset and amount.  No receive the loop issues
returns that count (`Transport.receive_pos`, `traced_amount_pos`). -/
theorem loop_zero_count {σ : Type} (c : Constants) (ord : ByteOrder)
    (recv : σ → Nat → RecvResult × σ) (fuel : Nat) (st : ReaderState) (sock sock' : σ)
    (hcheck : st.nAmount2Read + st.nBufferOffset ≤ c.recvBufSize)
    (h : recv sock st.nAmount2Read = (.received [], sock')) :
    SocketReadThread.loop c ord recv (fuel + 1) st sock
      = SocketReadThread.loop c ord recv fuel st sock' := by
  rw [SocketReadThread.loop, if_neg (by omega), h]
  simp

/-! ## Confirmations, sample counts and decimation factors -/

theorem scan_unavailable (self : LowLatencyDataClient)
    (it : LowLatencyDataClient.SubscribedEntry)
    (ha : mapFind self.m_mAvailableChannelsList it.sName = none) :
    ∀ (rest before : List ChannelInfo),
      LowLatencyDataClient.ProcessSubscribeResponsePacket.scan self it before rest = self := by
  intro rest
  induction rest with
  | nil => intro before; rfl
  | cons e rest ih =>
    intro before
    simp only [LowLatencyDataClient.ProcessSubscribeResponsePacket.scan, ha]
    split <;> exact ih _

/-- C23: a confirmation for a channel that is no longer available is
skipped.  In a registry where the name is not a key of Available (pending or
not), processing a `subscribed` confirmation for it returns the client as it
was: Subscribed, Pending, Available and the first-sample timestamps are
unchanged and no event is emitted. -/
theorem confirmation_unavailable_skipped (self : LowLatencyDataClient) (sName : String)
    (nId : Int) (fsts_ns : Nat)
    (ha : mapFind self.m_mAvailableChannelsList sName = none) :
    LowLatencyDataClient.ProcessSubscribeResponsePacket self [⟨sName, nId, fsts_ns⟩] = self := by
  simp only [LowLatencyDataClient.ProcessSubscribeResponsePacket]
  exact scan_unavailable self ⟨sName, nId, fsts_ns⟩ ha _ _

/-- Witness of C23: `"gone"` is pending in a registry where it is not
available. -/
theorem confirmation_unavailable_skipped_witness :
    (∃ e ∈ ({ tempClient with m_vPendingSubscribeChannelsList :=
        [sampleChannel "gone" 2] } : LowLatencyDataClient).m_vPendingSubscribeChannelsList,
      e.sName = "gone") ∧
    LowLatencyDataClient.ProcessSubscribeResponsePacket
        { tempClient with m_vPendingSubscribeChannelsList := [sampleChannel "gone" 2] }
        [⟨"gone", 3, 5000000000⟩]
      = { tempClient with m_vPendingSubscribeChannelsList := [sampleChannel "gone" 2] } :=
  ⟨⟨sampleChannel "gone" 2, by decide, by decide⟩,
    confirmation_unavailable_skipped
      { tempClient with m_vPendingSubscribeChannelsList := [sampleChannel "gone" 2] }
      "gone" 3 5000000000 (by decide)⟩

theorem ntohl_lt (ord : ByteOrder) (x : Nat) : ntohl ord x < 4294967296 := by
  cases ord
  · exact bswap32_lt _
  · exact Nat.mod_lt _ (by decide)

/-- Every packet the loop dispatches carries 32-bit header fields. -/
theorem loop_dispatched_fields {σ : Type} (c : Constants) (ord : ByteOrder)
    (recv : σ → Nat → RecvResult × σ) (fuel : Nat) :
    ∀ (st : ReaderState) (sock : σ) (p : Packet),
      p ∈ (SocketReadThread.loop c ord recv fuel st sock).dispatched →
      p.id < 4294967296 ∧ p.length < 4294967296 := by
  induction fuel with
  | zero => intro st sock p hp; simp [SocketReadThread.loop] at hp
  | succ n ih =>
    intro st sock p hp
    unfold SocketReadThread.loop at hp
    split at hp
    · simp at hp
    · split at hp
      · simp at hp
      · simp at hp
      · split at hp
        · simp only at hp
          split at hp
          · exact ih _ _ _ hp
          · split at hp
            · split at hp
              · simp at hp
              · exact ih _ _ _ hp
            · simp only [List.mem_cons] at hp
              rcases hp with rfl | hp
              · exact ⟨ntohl_lt _ _, ntohl_lt _ _⟩
              · exact ih _ _ _ hp
        · exact ih _ _ _ hp

/-- C24: the sample view can leave the received message.  A header of id 1
that declares the length 0 is dispatched with 8 bytes accumulated (the reader
checks no lower bound of the declared length), and for a client subscribed to
id 1 the `CHANNEL_DATA` event carries a sample count whose view reaches beyond
those 8 bytes: the difference `length - 8` of line 168 has wrapped around. -/
theorem short_length_dispatched :
    shortLengthPacket ∈ (SocketReadThread sampleConstants .little Transport.receive 10
        (List.replicate 64 0) ⟨bigEndian32 1 ++ bigEndian32 0, []⟩).dispatched ∧
    shortLengthPacket.length < 8 ∧
    (LowLatencyDataClient.ProcessPacket sampleConstants .little (fun _ => []) (fun _ => none)
        twoSubscribedClient shortLengthPacket).map (fun self => self.events)
      = some [Event.CHANNEL_DATA 1 (List.replicate 56 0) 4611686018427387902] ∧
    Event.viewExceeds shortLengthPacket.nBufferOffset
      (Event.CHANNEL_DATA 1 (List.replicate 56 0) 4611686018427387902) = true := by
  decide

/-- The sample view of a well-formed data message stays inside it: for every
byte stream and chunking, a dispatched packet whose declared length is at
least 8 has at least that many bytes accumulated, and on the data route
`ProcessPacket` either drops it or emits one `CHANNEL_DATA` event whose sample
count `n` has `8 + 4 * n` at most the declared length, so at most the bytes
accumulated. -/
theorem sample_view_inside_message (c : Constants) (ord : ByteOrder) (dump : Json → List Nat)
    (parse : List Nat → Option LowLatencyDataClient.ControlJson) (self : LowLatencyDataClient)
    (fuel : Nat) (m_Data stream chunks : List Nat) (p : Packet)
    (hp : p ∈ (SocketReadThread c ord Transport.receive fuel m_Data
      ⟨stream, chunks⟩).dispatched)
    (h8 : 8 ≤ p.length) (hroute : ProcessPacket.route c p = .data) :
    (LowLatencyDataClient.ProcessPacket c ord dump parse self p = some self ∨
      LowLatencyDataClient.ProcessPacket c ord dump parse self p =
        some { self with events := self.events ++
            [Event.CHANNEL_DATA (int32OfUInt32 p.id) (p.m_Data.drop 8) ((p.length - 8) / 4)] }) ∧
    8 + 4 * ((p.length - 8) / 4) ≤ p.length ∧ p.length ≤ p.nBufferOffset := by
  have hf := (loop_dispatched_fields c ord Transport.receive fuel _ _ p hp).2
  have hc := (loop_dispatched_complete c ord Transport.receive fuel _ _ p hp).2
  refine ⟨?_, by omega, hc⟩
  cases hs : mapFind self.m_mSubscribedChannelsList (int32OfUInt32 p.id) with
  | none =>
    left
    simp [LowLatencyDataClient.ProcessPacket, hroute, LowLatencyDataClient.ProcessDataPacket, hs]
  | some ci =>
    right
    simp only [LowLatencyDataClient.ProcessPacket, hroute,
      LowLatencyDataClient.ProcessDataPacket, hs, Option.isSome_some, if_true, headerSize]
    have : (p.length + 2 ^ 64 - 8) % 2 ^ 64 = p.length - 8 := by
      have : p.length + 2 ^ 64 - 8 = (p.length - 8) + 2 ^ 64 := by omega
      rw [this, Nat.add_mod_right, Nat.mod_eq_of_lt (by omega)]
    rw [this]

/-- The sample view of the second message of the sample stream. -/
theorem sample_view_inside_message_witness :
    (LowLatencyDataClient.ProcessPacket sampleConstants .little (fun _ => []) (fun _ => none)
        twoSubscribedClient samplePacket = some twoSubscribedClient ∨
      LowLatencyDataClient.ProcessPacket sampleConstants .little (fun _ => []) (fun _ => none)
          twoSubscribedClient samplePacket =
        some { twoSubscribedClient with events := twoSubscribedClient.events ++
            [Event.CHANNEL_DATA (int32OfUInt32 samplePacket.id) (samplePacket.m_Data.drop 8)
              ((samplePacket.length - 8) / 4)] }) ∧
    8 + 4 * ((samplePacket.length - 8) / 4) ≤ samplePacket.length ∧
    samplePacket.length ≤ samplePacket.nBufferOffset :=
  sample_view_inside_message sampleConstants .little (fun _ => []) (fun _ => none)
    twoSubscribedClient 30 (List.replicate 64 0) sampleStream (List.replicate 24 1)
    samplePacket (by decide) (by decide) (by decide)

theorem ProcessAvailableChannelsPacket_factor (l : List LowLatencyDataClient.AvailableEntry) :
    ∀ (self : LowLatencyDataClient),
      ∀ e ∈ (LowLatencyDataClient.ProcessAvailableChannelsPacket self
          l).m_mAvailableChannelsList,
        e ∈ self.m_mAvailableChannelsList ∨ e.2.nDecimationFactor = 1 := by
  induction l with
  | nil => intro self e he; exact Or.inl he
  | cons it rest ih =>
    intro self e he
    simp only [LowLatencyDataClient.ProcessAvailableChannelsPacket] at he
    split at he
    · exact ih self e he
    · rcases ih _ e he with h | h
      · rcases mem_mapAssign _ _ _ _ h with h1 | h1
        · right
          rw [h1]
        · exact Or.inl h1
      · exact Or.inr h

theorem ProcessUnavailableChannelsPacket_available_mem (c : Constants) (ord : ByteOrder)
    (dump : Json → List Nat) (names : List String) :
    ∀ (self : LowLatencyDataClient),
      ∀ e ∈ (LowLatencyDataClient.ProcessUnavailableChannelsPacket c ord dump self
          names).m_mAvailableChannelsList, e ∈ self.m_mAvailableChannelsList := by
  induction names with
  | nil => intro self e he; exact he
  | cons n rest ih =>
    intro self e he
    simp only [LowLatencyDataClient.ProcessUnavailableChannelsPacket] at he
    have h1 := ih _ e he
    rw [(ProcessUnavailableChannelsPacket_one_mem c ord dump self n).2] at h1
    exact (mem_mapErase _ _ _ h1).1

/-- Where the entries of Available after one action come from: they were
there before, or they carry the decimation factor 1. -/
theorem step_available_factor (c : Constants) (ord : ByteOrder) (dump : Json → List Nat)
    (self : LowLatencyDataClient) (a : LowLatencyDataClient.Action) :
    ∀ e ∈ (LowLatencyDataClient.step c ord dump self a).m_mAvailableChannelsList,
      e ∈ self.m_mAvailableChannelsList ∨ e.2.nDecimationFactor = 1 := by
  intro e he
  cases a with
  | metadata j =>
    cases j with
    | none => exact Or.inl he
    | some j =>
      simp only [LowLatencyDataClient.step, LowLatencyDataClient.ProcessMetadataPacket.dispatch]
        at he
      split at he
      · rw [(ProcessUnsubscribeResponsePacket_frame _ self).1] at he
        exact Or.inl he
      · split at he
        · next entries _ =>
          rw [(ProcessSubscribeResponsePacket_mem entries self).1] at he
          exact Or.inl he
        · split at he
          · exact ProcessAvailableChannelsPacket_factor _ self e he
          · split at he
            · exact Or.inl (ProcessUnavailableChannelsPacket_available_mem c ord dump _ self e he)
            · split at he
              · rw [(ProcessAcquisitionStatePacket_frame self _).2] at he
                exact Or.inl he
              · exact Or.inl he
  | data p =>
    simp only [LowLatencyDataClient.step, LowLatencyDataClient.ProcessDataPacket] at he
    split at he <;> exact Or.inl he
  | SubscribeChannels l =>
    simp only [LowLatencyDataClient.step, LowLatencyDataClient.SubscribeChannels,
      SendSubscribeChannels_sent] at he
    exact Or.inl he
  | UnsubscribeChannels l =>
    simp only [LowLatencyDataClient.step, LowLatencyDataClient.UnsubscribeChannels,
      SendUnsubscribeChannels_sent] at he
    exact Or.inl he
  | Acquire =>
    simp only [LowLatencyDataClient.step, LowLatencyDataClient.Acquire] at he
    exact Or.inl he

/-- C25: the requested decimation factor is not recorded.  On a `subscribed`
confirmation for a name that is pending and available, the descriptor stored
in `Subscribed[id]` is the Available descriptor of that name; and in every
registry reached from the empty one by inbound packets and outbound calls,
every descriptor in Available and in Subscribed has the decimation factor 1,
whatever factor was passed to `SubscribeChannels`. -/
theorem decimation_factor_not_recorded (c : Constants) (ord : ByteOrder)
    (dump : Json → List Nat) :
    (∀ (self : LowLatencyDataClient) (sName : String) (nId : Int) (fsts_ns : Nat)
        (ci : ChannelInfo),
      (∃ e ∈ self.m_vPendingSubscribeChannelsList, e.sName = sName) →
      mapFind self.m_mAvailableChannelsList sName = some ci →
      mapFind (LowLatencyDataClient.ProcessSubscribeResponsePacket self
        [⟨sName, nId, fsts_ns⟩]).m_mSubscribedChannelsList nId = some ci) ∧
    (∀ as : List LowLatencyDataClient.Action,
      (∀ e ∈ (LowLatencyDataClient.run c ord dump emptyClient as).m_mAvailableChannelsList,
        e.2.nDecimationFactor = 1) ∧
      (∀ e ∈ (LowLatencyDataClient.run c ord dump emptyClient as).m_mSubscribedChannelsList,
        e.2.nDecimationFactor = 1)) := by
  refine ⟨?_, ?_⟩
  · intro self sName nId fsts_ns ci hp hci
    simp only [LowLatencyDataClient.ProcessSubscribeResponsePacket]
    rw [scan_found self ⟨sName, nId, fsts_ns⟩ ci hci _ [] hp]
    simp only [mapFind_mapAssign_self]
  · have key : ∀ (as : List LowLatencyDataClient.Action) (self : LowLatencyDataClient),
        (∀ e ∈ self.m_mAvailableChannelsList, e.2.nDecimationFactor = 1) →
        (∀ e ∈ self.m_mSubscribedChannelsList, e.2.nDecimationFactor = 1) →
        (∀ e ∈ (LowLatencyDataClient.run c ord dump self as).m_mAvailableChannelsList,
          e.2.nDecimationFactor = 1) ∧
        (∀ e ∈ (LowLatencyDataClient.run c ord dump self as).m_mSubscribedChannelsList,
          e.2.nDecimationFactor = 1) := by
      intro as
      induction as with
      | nil => intro self h1 h2; exact ⟨h1, h2⟩
      | cons a rest ih =>
        intro self h1 h2
        simp only [LowLatencyDataClient.run]
        apply ih
        · intro e he
          rcases step_available_factor c ord dump self a e he with h | h
          · exact h1 e h
          · exact h
        · intro e he
          rcases step_subscribed_mem c ord dump self a e he with h | ⟨j, it, _, _, _, h4⟩
          · exact h2 e h
          · exact h1 (it.sName, e.2) (mapFind_mem _ _ _ h4)
    intro as
    exact key as emptyClient (by intro e he; simp [emptyClient] at he)
      (by intro e he; simp [emptyClient] at he)

/-- Witness of C25: `"a"` is requested with the decimation factor 4 and
confirmed under 3; the descriptor subscribed carries the factor 1. -/
theorem decimation_factor_not_recorded_witness :
    (3, (sampleAvailable "a").descriptor) ∈
      (LowLatencyDataClient.run sampleConstants .little (fun _ => []) emptyClient
        [.metadata (some (availableMessage [sampleAvailable "a"])),
         .SubscribeChannels [sampleChannel "a" 4],
         .metadata (some (subscribedMessage [⟨"a", 3, 0⟩]))]).m_mSubscribedChannelsList ∧
    ((3 : Int), (sampleAvailable "a").descriptor).2.nDecimationFactor = 1 :=
  ⟨by decide,
    ((decimation_factor_not_recorded sampleConstants .little (fun _ => [])).2
      [.metadata (some (availableMessage [sampleAvailable "a"])),
       .SubscribeChannels [sampleChannel "a" 4],
       .metadata (some (subscribedMessage [⟨"a", 3, 0⟩]))]).2
      (3, (sampleAvailable "a").descriptor) (by decide)⟩

end DataStreamClient
